import Mathlib

/-!
# A shallow embedding of `compiler.c`

The C program keeps its lexer, its symbol table and its output in global
variables.  Here every function receives the globals it reads and returns the
globals it writes.  A call of `exit(1)` after a diagnostic becomes the outcome
`Outcome.exit`, carrying the diagnostic.

Conventions of the embedding:

* a C string is the list of its characters before the terminating NUL; the
  fixed `char [256]` buffers of the C program are kept as lists, so the
  embedding describes texts of at most 255 characters exactly;
* an `int` is an `Int` that the operations `+`, `-` and `*` bring back into
  the signed 32-bit range by `wrap32`; the division `INT_MIN / -1` has no `int`
  quotient and ends the run (`Fatal.division_overflow`); `atoi` is that of the C
  library of the platform, exact on every text whose value is an `int`;
* the array `variables` of 100 entries is the list of its first `var_count`
  entries; the C code writes entry `var_count` without a check, and a write at
  index 100 is outside the array, where C fixes no behaviour: the list
  describes a run as long as it has at most 100 entries, and the theorems
  about the table carry that bound;
* a `char` is a `Char`; the character classes of `<ctype.h>` are those of the
  "C" locale, so a character outside ASCII is in none of them;
* the recursive-descent parser and the loops of the driver take a recursion
  budget; running out of it is the separate outcome `Outcome.out_of_fuel`,
  which no C run corresponds to.
-/

namespace Compiler

/-! ## Data model -/

/-- Token types, in the order of the C enumeration. -/
inductive TokenType where
  | TOKEN_NUMBER
  | TOKEN_IDENTIFIER
  | TOKEN_ASSIGN
  | TOKEN_PLUS
  | TOKEN_MINUS
  | TOKEN_MULTIPLY
  | TOKEN_DIVIDE
  | TOKEN_LPAREN
  | TOKEN_RPAREN
  | TOKEN_PRINT
  | TOKEN_SEMICOLON
  | TOKEN_EOF
  | TOKEN_NEWLINE
  deriving DecidableEq, Repr

/-- Token structure: `type`, `value` (the text) and `line`. -/
structure Token where
  type : TokenType
  value : List Char
  line : Nat
  deriving DecidableEq, Repr

/-- AST nodes.  The C structure has a tag, a text and two child pointers; the
constructors are the five shapes that `create_node` and the parser build. -/
inductive ASTNode where
  | number (value : List Char)
  | identifier (value : List Char)
  | binary_op (op : Char) (left right : ASTNode)
  | assign (value : List Char) (right : ASTNode)
  | print (right : ASTNode)
  deriving DecidableEq, Repr

/-- One entry of the symbol table `variables`. -/
structure Variable where
  name : List Char
  value : Int
  deriving DecidableEq, Repr

/-- The ways the process stops early: the diagnostics the program prints
before `exit(1)`, and `division_overflow`, the division `INT_MIN / -1`, whose
quotient is no `int`: the program prints nothing there, the division traps and
the process is killed. -/
inductive Fatal where
  | unknown_character (c : Char) (line : Nat)
  | expected_rparen (line : Nat)
  | unexpected_token (line : Nat)
  | invalid_statement (line : Nat)
  | undefined_variable (name : List Char)
  | division_by_zero
  | invalid_expression_node
  | division_overflow
  deriving DecidableEq, Repr

/-- How a call ends: it returns, it stops the process with a diagnostic, or
the recursion budget of the embedding is used up. -/
inductive Outcome (α : Type) where
  | ok (a : α)
  | exit (e : Fatal)
  | out_of_fuel
  deriving DecidableEq, Repr

/-- The outcome with `f` applied to the returned value. -/
def Outcome.map {α β : Type} (f : α → β) : Outcome α → Outcome β
  | .ok a => .ok (f a)
  | .exit e => .exit e
  | .out_of_fuel => .out_of_fuel

/-- The globals of the lexer: `source_code`, `current_pos`, `current_line`
and `current_token`. -/
structure Lexer where
  source_code : List Char
  current_pos : Nat
  current_line : Nat
  current_token : Token
  deriving DecidableEq, Repr

/-! ## Lexer -/

/-- The terminating NUL of the source buffer. -/
def NUL : Char := Char.ofNat 0

/-- The character `source_code[pos]`; the buffer ends with a NUL. -/
def char_at (src : List Char) (pos : Nat) : Char := src.getD pos NUL

/-- The test of the whitespace loop: a space or a tab. -/
def is_blank (c : Char) : Bool := c = ' ' ∨ c = '\t'

/-- The C library `isdigit` in the "C" locale. -/
def isdigit (c : Char) : Bool := 48 ≤ c.toNat ∧ c.toNat ≤ 57

/-- The C library `isalpha` in the "C" locale. -/
def isalpha (c : Char) : Bool :=
  (65 ≤ c.toNat ∧ c.toNat ≤ 90) ∨ (97 ≤ c.toNat ∧ c.toNat ≤ 122)

/-- The C library `isalnum` in the "C" locale. -/
def isalnum (c : Char) : Bool := isalpha c || isdigit c

/-- The test of the identifier loop: `isalnum(c) || c == '_'`. -/
def is_ident_char (c : Char) : Bool := isalnum c || c = '_'

/-- The cursor after the whitespace loop at the head of `next_token`. -/
def skip_blanks (src : List Char) (pos : Nat) : Nat :=
  pos + ((src.drop pos).takeWhile is_blank).length

/-- The characters a copying loop of `next_token` reads from `pos` on: the
longest run that passes the loop test. -/
def scan_run (test : Char → Bool) (src : List Char) (pos : Nat) : List Char :=
  (src.drop pos).takeWhile test

/-- A branch of the `switch` of `next_token`: type, one-character text,
cursor advanced by one, and the line stored after the `switch`. -/
def single_char_token (source_code : List Char) (pos current_line : Nat)
    (t : TokenType) (c : Char) : Lexer :=
  ⟨source_code, pos + 1, current_line, ⟨t, [c], current_line⟩⟩

/-- Lexer: reads the next token into `current_token`.  The branches for the end
of the buffer, a newline, a number and an identifier return before the line of
the token is stored; the first two leave the text of the token as it was. -/
def next_token : Lexer → Outcome Lexer
  | ⟨source_code, current_pos, current_line, ⟨_, value, line⟩⟩ =>
    let pos := skip_blanks source_code current_pos
    let c := char_at source_code pos
    if c = NUL then
      .ok ⟨source_code, pos, current_line, ⟨.TOKEN_EOF, value, line⟩⟩
    else if c = '\n' then
      .ok ⟨source_code, pos + 1, current_line + 1, ⟨.TOKEN_NEWLINE, value, line⟩⟩
    else if isdigit c then
      let run := scan_run isdigit source_code pos
      .ok ⟨source_code, pos + run.length, current_line, ⟨.TOKEN_NUMBER, run, line⟩⟩
    else if isalpha c then
      let run := scan_run is_ident_char source_code pos
      .ok ⟨source_code, pos + run.length, current_line,
        ⟨if run = "print".toList then .TOKEN_PRINT else .TOKEN_IDENTIFIER, run, line⟩⟩
    else if c = '=' then .ok (single_char_token source_code pos current_line .TOKEN_ASSIGN c)
    else if c = '+' then .ok (single_char_token source_code pos current_line .TOKEN_PLUS c)
    else if c = '-' then .ok (single_char_token source_code pos current_line .TOKEN_MINUS c)
    else if c = '*' then
      .ok (single_char_token source_code pos current_line .TOKEN_MULTIPLY c)
    else if c = '/' then .ok (single_char_token source_code pos current_line .TOKEN_DIVIDE c)
    else if c = '(' then .ok (single_char_token source_code pos current_line .TOKEN_LPAREN c)
    else if c = ')' then .ok (single_char_token source_code pos current_line .TOKEN_RPAREN c)
    else if c = ';' then
      .ok (single_char_token source_code pos current_line .TOKEN_SEMICOLON c)
    else .exit (.unknown_character c current_line)

/-- The lexer globals as `compile` sets them before a pass: cursor 0, line 1. -/
def reset : Lexer → Lexer
  | ⟨source_code, _, _, current_token⟩ => ⟨source_code, 0, 1, current_token⟩

/-- The lexer globals at program start for the buffer `src`: static storage
is zero-initialised, so the token has type 0 (`TOKEN_NUMBER`), the empty text
and line 0; `current_pos` is 0 and `current_line` is 1. -/
def initial_lexer (src : List Char) : Lexer :=
  { source_code := src
    current_pos := 0
    current_line := 1
    current_token := { type := .TOKEN_NUMBER, value := [], line := 0 } }

/-! ## Parser -/

mutual

/-- Parser of `factor := Number | Identifier | '(' expression ')'`. -/
def parse_factor : Nat → Lexer → Outcome (ASTNode × Lexer)
  | 0, _ => .out_of_fuel
  | fuel + 1, s =>
    if s.current_token.type = .TOKEN_NUMBER then
      match next_token s with
      | .ok s1 => .ok (.number s.current_token.value, s1)
      | .exit e => .exit e
      | .out_of_fuel => .out_of_fuel
    else if s.current_token.type = .TOKEN_IDENTIFIER then
      match next_token s with
      | .ok s1 => .ok (.identifier s.current_token.value, s1)
      | .exit e => .exit e
      | .out_of_fuel => .out_of_fuel
    else if s.current_token.type = .TOKEN_LPAREN then
      match next_token s with
      | .ok s1 =>
        match parse_expression fuel s1 with
        | .ok (node, s2) =>
          if s2.current_token.type ≠ .TOKEN_RPAREN then
            .exit (.expected_rparen s2.current_line)
          else
            match next_token s2 with
            | .ok s3 => .ok (node, s3)
            | .exit e => .exit e
            | .out_of_fuel => .out_of_fuel
        | .exit e => .exit e
        | .out_of_fuel => .out_of_fuel
      | .exit e => .exit e
      | .out_of_fuel => .out_of_fuel
    else
      .exit (.unexpected_token s.current_line)

/-- The `while` loop of `parse_term`, entered with the tree built so far. -/
def parse_term_loop : Nat → ASTNode → Lexer → Outcome (ASTNode × Lexer)
  | 0, _, _ => .out_of_fuel
  | fuel + 1, left, s =>
    if s.current_token.type = .TOKEN_MULTIPLY ∨ s.current_token.type = .TOKEN_DIVIDE then
      let op := s.current_token.value.getD 0 NUL
      match next_token s with
      | .ok s1 =>
        match parse_factor fuel s1 with
        | .ok (right, s2) => parse_term_loop fuel (.binary_op op left right) s2
        | .exit e => .exit e
        | .out_of_fuel => .out_of_fuel
      | .exit e => .exit e
      | .out_of_fuel => .out_of_fuel
    else
      .ok (left, s)

/-- Parser of `term := factor (('*' | '/') factor)*`. -/
def parse_term : Nat → Lexer → Outcome (ASTNode × Lexer)
  | 0, _ => .out_of_fuel
  | fuel + 1, s =>
    match parse_factor fuel s with
    | .ok (left, s1) => parse_term_loop fuel left s1
    | .exit e => .exit e
    | .out_of_fuel => .out_of_fuel

/-- The `while` loop of `parse_expression`, entered with the tree built so
far. -/
def parse_expression_loop : Nat → ASTNode → Lexer → Outcome (ASTNode × Lexer)
  | 0, _, _ => .out_of_fuel
  | fuel + 1, left, s =>
    if s.current_token.type = .TOKEN_PLUS ∨ s.current_token.type = .TOKEN_MINUS then
      let op := s.current_token.value.getD 0 NUL
      match next_token s with
      | .ok s1 =>
        match parse_term fuel s1 with
        | .ok (right, s2) => parse_expression_loop fuel (.binary_op op left right) s2
        | .exit e => .exit e
        | .out_of_fuel => .out_of_fuel
      | .exit e => .exit e
      | .out_of_fuel => .out_of_fuel
    else
      .ok (left, s)

/-- Parser of `expression := term (('+' | '-') term)*`. -/
def parse_expression : Nat → Lexer → Outcome (ASTNode × Lexer)
  | 0, _ => .out_of_fuel
  | fuel + 1, s =>
    match parse_term fuel s with
    | .ok (left, s1) => parse_expression_loop fuel left s1
    | .exit e => .exit e
    | .out_of_fuel => .out_of_fuel

end

/-- The part of `parse_statement` after its first `if`: the `print` form, or
the "Invalid statement" diagnostic. -/
def parse_statement_print (fuel : Nat) (s : Lexer) : Outcome (ASTNode × Lexer) :=
  if s.current_token.type = .TOKEN_PRINT then
    match next_token s with
    | .ok s1 =>
      match parse_expression fuel s1 with
      | .ok (expr, s2) => .ok (.print expr, s2)
      | .exit e => .exit e
      | .out_of_fuel => .out_of_fuel
    | .exit e => .exit e
    | .out_of_fuel => .out_of_fuel
  else
    .exit (.invalid_statement s.current_line)

/-- Parser of one statement.  When the identifier is not followed by `=`, the
C code leaves the first `if` and goes on to the test for `print`. -/
def parse_statement (fuel : Nat) (s : Lexer) : Outcome (ASTNode × Lexer) :=
  if s.current_token.type = .TOKEN_IDENTIFIER then
    let var_name := s.current_token.value
    match next_token s with
    | .ok s1 =>
      if s1.current_token.type = .TOKEN_ASSIGN then
        match next_token s1 with
        | .ok s2 =>
          match parse_expression fuel s2 with
          | .ok (expr, s3) => .ok (.assign var_name expr, s3)
          | .exit e => .exit e
          | .out_of_fuel => .out_of_fuel
        | .exit e => .exit e
        | .out_of_fuel => .out_of_fuel
      else
        parse_statement_print fuel s1
    | .exit e => .exit e
    | .out_of_fuel => .out_of_fuel
  else
    parse_statement_print fuel s

/-! ## Symbol table

The list holds the entries `variables[0 .. var_count - 1]`; its length is
`var_count`.  The array has 100 slots, and the list describes it as long as
`var_count` is at most 100. -/

/-- The number of slots of the array `variables`. -/
def MAX_VARIABLES : Nat := 100

/-- Lookup of a variable: the first entry with the name, or the
"Undefined variable" diagnostic. -/
def get_variable_value : List Variable → List Char → Outcome Int
  | [], name => .exit (.undefined_variable name)
  | v :: rest, name =>
    if v.name = name then .ok v.value else get_variable_value rest name

/-- Write of a variable: the first entry with the name is overwritten;
without one, slot `var_count` is written and `var_count` grows by one.  The C
code makes that write without comparing `var_count` with the 100 slots; the
list is its result when `var_count` is below 100, and `set_write_index` is the
index written. -/
def set_variable_value : List Variable → List Char → Int → List Variable
  | [], name, value => [{ name := name, value := value }]
  | v :: rest, name, value =>
    if v.name = name then { v with value := value } :: rest
    else v :: set_variable_value rest name value

/-! ## Interpreter -/

/-- An `int` result on a two's-complement machine: the representative of `x`
modulo 2^32 in the signed 32-bit range. -/
def wrap32 (x : Int) : Int := (x + 2147483648) % 4294967296 - 2147483648

/-- The C library `isspace` in the "C" locale. -/
def isspace (c : Char) : Bool := c = ' ' ∨ (9 ≤ c.toNat ∧ c.toNat ≤ 13)

/-- The digit loop of `atoi`: accumulates decimal digits up to the first
character that is not one. -/
def atoi_digits : Int → List Char → Int
  | acc, [] => acc
  | acc, c :: cs =>
    if isdigit c then atoi_digits (acc * 10 + ((c.toNat : Int) - 48)) cs else acc

/-- The result of the C library `strtol` for the exact value `x`: a value
outside the range of `long`, which has 64 bits, is replaced by `LONG_MAX` or
`LONG_MIN`. -/
def saturate_long (x : Int) : Int :=
  if 9223372036854775807 < x then 9223372036854775807
  else if x < -9223372036854775808 then -9223372036854775808
  else x

/-- The C library `atoi`: leading white space, an optional sign, decimal
digits.  A value in the range of `int` is returned as it is.  For other values
the C standard fixes no result; the embedding follows the C library of the
platform, where `atoi(text)` is `(int) strtol(text, NULL, 10)`: the value is
saturated to the range of `long` and its low 32 bits are kept. -/
def atoi (text : List Char) : Int :=
  let rest := text.dropWhile isspace
  if rest.head? = some '-' then wrap32 (saturate_long (- atoi_digits 0 rest.tail))
  else if rest.head? = some '+' then wrap32 (saturate_long (atoi_digits 0 rest.tail))
  else wrap32 (saturate_long (atoi_digits 0 rest))

/-- Interpreter: the value of an expression tree under the symbol table.
Both operands are evaluated, the left one first, before the operator is looked
at.  Where a result of `+`, `-` or `*` leaves the range of `int` the C standard
fixes no value; the embedding takes the wrapped value (`wrap32`), which is what
the machine computes.  The quotient of `INT_MIN / -1` is no `int` either; there
the division traps and the process is killed, which is the outcome
`division_overflow`. -/
def evaluate_expression (vars : List Variable) : ASTNode → Outcome Int
  | .number value => .ok (atoi value)
  | .identifier value => get_variable_value vars value
  | .binary_op op left right =>
    match evaluate_expression vars left with
    | .ok left_val =>
      match evaluate_expression vars right with
      | .ok right_val =>
        if op = '+' then .ok (wrap32 (left_val + right_val))
        else if op = '-' then .ok (wrap32 (left_val - right_val))
        else if op = '*' then .ok (wrap32 (left_val * right_val))
        else if op = '/' then
          if right_val = 0 then .exit .division_by_zero
          else if left_val = -2147483648 ∧ right_val = -1 then .exit .division_overflow
          else .ok (wrap32 (Int.tdiv left_val right_val))
        else .exit .invalid_expression_node
      | .exit e => .exit e
      | .out_of_fuel => .out_of_fuel
    | .exit e => .exit e
    | .out_of_fuel => .out_of_fuel
  | .assign _ _ => .exit .invalid_expression_node
  | .print _ => .exit .invalid_expression_node

/-- Execution of one statement on the symbol table and on the list of the
values printed so far by `printf("%d\n", value)`. -/
def execute_statement (vars : List Variable) (printed : List Int) :
    ASTNode → Outcome (List Variable × List Int)
  | .assign name right =>
    match evaluate_expression vars right with
    | .ok value => .ok (set_variable_value vars name value, printed)
    | .exit e => .exit e
    | .out_of_fuel => .out_of_fuel
  | .print right =>
    match evaluate_expression vars right with
    | .ok value => .ok (vars, printed ++ [value])
    | .exit e => .exit e
    | .out_of_fuel => .out_of_fuel
  | _ => .ok (vars, printed)

/-! ## Code generator -/

/-- Code generator for expressions: the text of the output file after the
`fprintf` calls for the node. -/
def generate_expression : ASTNode → List Char → List Char
  | .number value, output => output ++ value
  | .identifier value, output => output ++ value
  | .binary_op op left right, output =>
    let o1 := output ++ ['(']
    let o2 := generate_expression left o1
    let o3 := o2 ++ [' ', op, ' ']
    let o4 := generate_expression right o3
    o4 ++ [')']
  | _, output => output

/-- Code generator for statements. -/
def generate_statement : ASTNode → List Char → List Char
  | .assign name right, output =>
    let o1 := output ++ "    ".toList ++ name ++ " = ".toList
    let o2 := generate_expression right o1
    o2 ++ ";\n".toList
  | .print right, output =>
    let o1 := output ++ "    printf(\"%d\\n\", ".toList
    let o2 := generate_expression right o1
    o2 ++ ");\n".toList
  | _, output => output

/-! ## Driver -/

/-- The state of a run of `compile`: the lexer globals, the symbol table
(`vars`, the C array `variables`), the text written to the output file, the values printed on standard output, and
the local flag `first_var`. -/
structure Run where
  lexer : Lexer
  vars : List Variable
  output : List Char
  printed : List Int
  first_var : Bool
  deriving DecidableEq, Repr

/-- The loop that sets `found` in `compile`. -/
def find_variable : List Variable → List Char → Bool
  | [], _ => false
  | v :: rest, name => if v.name = name then true else find_variable rest name

/-- The block "Add variable declaration if needed" of `compile`.  A new name
is written to the declaration line and stored in slot `var_count`; the value
of that slot is not written, and it is still the 0 of static storage.  The C
code makes that write without comparing `var_count` with the 100 slots; the
list is its result when `var_count` is below 100, and `declare_write_index` is
the index written. -/
def declare_variable : Run → ASTNode → Run
  | ⟨lexer, vars, output, printed, first_var⟩, .assign name _ =>
    if find_variable vars name then ⟨lexer, vars, output, printed, first_var⟩
    else
      ⟨lexer, vars ++ [{ name := name, value := 0 }],
        output ++ (if first_var then [] else ", ".toList) ++ name, printed, false⟩
  | st, _ => st

/-- The statement "Skip semicolon if present" of both loops of `compile`. -/
def skip_semicolon (s : Lexer) : Outcome Lexer :=
  if s.current_token.type = .TOKEN_SEMICOLON then next_token s else .ok s

/-- The first loop of `compile`: parse, declare, execute. -/
def compile_pass1 : Nat → Run → Outcome Run
  | 0, _ => .out_of_fuel
  | fuel + 1, ⟨lexer, vars, output, printed, first_var⟩ =>
    if lexer.current_token.type = .TOKEN_EOF then
      .ok ⟨lexer, vars, output, printed, first_var⟩
    else if lexer.current_token.type = .TOKEN_NEWLINE then
      match next_token lexer with
      | .ok l => compile_pass1 fuel ⟨l, vars, output, printed, first_var⟩
      | .exit e => .exit e
      | .out_of_fuel => .out_of_fuel
    else
      match parse_statement fuel lexer with
      | .ok (stmt, l1) =>
        match declare_variable ⟨l1, vars, output, printed, first_var⟩ stmt with
        | ⟨_, vars1, output1, printed1, first_var1⟩ =>
          match skip_semicolon l1 with
          | .ok l2 =>
            match execute_statement vars1 printed1 stmt with
            | .ok (vars2, printed2) =>
              compile_pass1 fuel ⟨l2, vars2, output1, printed2, first_var1⟩
            | .exit e => .exit e
            | .out_of_fuel => .out_of_fuel
          | .exit e => .exit e
          | .out_of_fuel => .out_of_fuel
      | .exit e => .exit e
      | .out_of_fuel => .out_of_fuel

/-- The second loop of `compile`: parse, generate. -/
def compile_pass2 : Nat → Run → Outcome Run
  | 0, _ => .out_of_fuel
  | fuel + 1, ⟨lexer, vars, output, printed, first_var⟩ =>
    if lexer.current_token.type = .TOKEN_EOF then
      .ok ⟨lexer, vars, output, printed, first_var⟩
    else if lexer.current_token.type = .TOKEN_NEWLINE then
      match next_token lexer with
      | .ok l => compile_pass2 fuel ⟨l, vars, output, printed, first_var⟩
      | .exit e => .exit e
      | .out_of_fuel => .out_of_fuel
    else
      match parse_statement fuel lexer with
      | .ok (stmt, l1) =>
        let output1 := generate_statement stmt output
        match skip_semicolon l1 with
        | .ok l2 => compile_pass2 fuel ⟨l2, vars, output1, printed, first_var⟩
        | .exit e => .exit e
        | .out_of_fuel => .out_of_fuel
      | .exit e => .exit e
      | .out_of_fuel => .out_of_fuel

/-- The text `compile` writes before the first loop. -/
def output_header : List Char :=
  "#include <stdio.h>\n\nint main() \x7b\n".toList ++ "    int ".toList

/-- The first half of `compile` on the buffer `src`: first token, header,
first loop, end of the declaration line. -/
def compile_interpret (fuel : Nat) (src : List Char) : Outcome Run :=
  match next_token (initial_lexer src) with
  | .ok l0 =>
    match compile_pass1 fuel ⟨l0, [], output_header, [], true⟩ with
    | .ok ⟨lexer, vars, output, printed, first_var⟩ =>
      .ok ⟨lexer, vars, output ++ ";\n\n".toList, printed, first_var⟩
    | .exit e => .exit e
    | .out_of_fuel => .out_of_fuel
  | .exit e => .exit e
  | .out_of_fuel => .out_of_fuel

/-- Main compiler function on the buffer `src` read from the file. -/
def compile (fuel : Nat) (src : List Char) : Outcome Run :=
  match compile_interpret fuel src with
  | .ok ⟨lexer, vars, output, printed, first_var⟩ =>
    match next_token (reset lexer) with
    | .ok l =>
      match compile_pass2 fuel ⟨l, vars, output, printed, first_var⟩ with
      | .ok ⟨lexer2, vars2, output2, printed2, first_var2⟩ =>
        .ok ⟨lexer2, vars2, output2 ++ "    return 0;\n\x7d\n".toList, printed2, first_var2⟩
      | .exit e => .exit e
      | .out_of_fuel => .out_of_fuel
    | .exit e => .exit e
    | .out_of_fuel => .out_of_fuel
  | .exit e => .exit e
  | .out_of_fuel => .out_of_fuel

/-! ## Reference definitions

The definitions of this section are not translations of the C code.  They
write down what the specification says, to be compared with the code. -/

/-- The node is an expression tree: a number, an identifier, or a binary
operation on expression trees. -/
def is_expression : ASTNode → Bool
  | .number _ => true
  | .identifier _ => true
  | .binary_op _ left right => is_expression left && is_expression right
  | _ => false

/-- Reference rendering of an expression tree: a literal or an identifier is
its text, a binary operation is `(left OP right)`. -/
def render : ASTNode → List Char
  | .number value => value
  | .identifier value => value
  | .binary_op op left right =>
    ['('] ++ render left ++ [' '] ++ [op] ++ [' '] ++ render right ++ [')']
  | _ => []

/-- The digits of a C octal constant after its leading 0, most significant
first; `none` when a character is not an octal digit. -/
def c_octal_value : Int → List Char → Option Int
  | acc, [] => some acc
  | acc, c :: cs =>
    if 48 ≤ c.toNat ∧ c.toNat ≤ 55 then c_octal_value (acc * 8 + ((c.toNat : Int) - 48)) cs
    else none

/-- The digits of a C decimal constant, most significant first. -/
def c_decimal_value : Int → List Char → Option Int
  | acc, [] => some acc
  | acc, c :: cs =>
    if isdigit c then c_decimal_value (acc * 10 + ((c.toNat : Int) - 48)) cs else none

/-- The value the host language C gives to an integer constant written with
digits only: a constant that begins with the digit 0 is octal, any other one
is decimal; `none` when the text is not a constant of the language. -/
def c_integer_constant : List Char → Option Int
  | [] => none
  | '0' :: rest => c_octal_value 0 rest
  | text => c_decimal_value 0 text

/-- The value of the variable in the emitted program, `none` before its first
assignment. -/
def host_variable : List Variable → List Char → Option Int
  | [], _ => none
  | v :: rest, name => if v.name = name then some v.value else host_variable rest name

/-- The value the host language C gives to the text that `generate_expression`
emits for the tree: integer constants, `int` variables and the operators
`+ - * /` on `int`; `none` where the host program has no defined value. -/
def host_expression (env : List Variable) : ASTNode → Option Int
  | .number value => (c_integer_constant value).map wrap32
  | .identifier value => host_variable env value
  | .binary_op op left right =>
    match host_expression env left, host_expression env right with
    | some a, some b =>
      if op = '+' then some (wrap32 (a + b))
      else if op = '-' then some (wrap32 (a - b))
      else if op = '*' then some (wrap32 (a * b))
      else if op = '/' then (if b = 0 then none else some (wrap32 (Int.tdiv a b)))
      else none
    | _, _ => none
  | _ => none

/-- The operator is one of `+ - * /`. -/
def is_operator (op : Char) : Bool := op = '+' ∨ op = '-' ∨ op = '*' ∨ op = '/'

/-- The tree is an expression of the data model: number texts are non-empty
digit strings and operators are among `+ - * /`. -/
def valid_expression : ASTNode → Bool
  | .number value => value ≠ [] ∧ value.all isdigit
  | .identifier _ => true
  | .binary_op op left right =>
    is_operator op && valid_expression left && valid_expression right
  | _ => false

/-- The decimal value of a digit string. -/
def decimal_value (text : List Char) : Int :=
  text.foldl (fun acc c => acc * 10 + ((c.toNat : Int) - 48)) 0

/-- The value lies in the signed 32-bit range. -/
def in_int_range (x : Int) : Bool := -2147483648 ≤ x ∧ x ≤ 2147483647

/-- The value last written under the name, 0 for a name without an entry. -/
def lookup_value : List Variable → List Char → Int
  | [], _ => 0
  | v :: rest, name => if v.name = name then v.value else lookup_value rest name

/-- The exact integer value of an expression tree, in unbounded integers: a
literal is the decimal value of its digits, `+ - *` are exact and `/` is the
quotient truncated toward zero. -/
def exact_value (vars : List Variable) : ASTNode → Int
  | .number value => decimal_value value
  | .identifier value => lookup_value vars value
  | .binary_op op left right =>
    if op = '+' then exact_value vars left + exact_value vars right
    else if op = '-' then exact_value vars left - exact_value vars right
    else if op = '*' then exact_value vars left * exact_value vars right
    else Int.tdiv (exact_value vars left) (exact_value vars right)
  | _ => 0

/-- Every identifier of the tree has an entry in the symbol table. -/
def all_mapped (vars : List Variable) : ASTNode → Bool
  | .identifier value => find_variable vars value
  | .binary_op _ left right => all_mapped vars left && all_mapped vars right
  | _ => true

/-- No divisor of the tree has the value zero. -/
def no_zero_divisor (vars : List Variable) : ASTNode → Bool
  | .binary_op op left right =>
    no_zero_divisor vars left && no_zero_divisor vars right &&
      (op ≠ '/' ∨ exact_value vars right ≠ 0)
  | _ => true

/-- Every literal and every intermediate result of the tree lies in the
signed 32-bit range. -/
def all_in_int_range (vars : List Variable) : ASTNode → Bool
  | .number value => in_int_range (decimal_value value)
  | .binary_op op left right =>
    all_in_int_range vars left && all_in_int_range vars right &&
      in_int_range (exact_value vars (.binary_op op left right))
  | _ => true

/-- The statements the loops of `compile` parse, in order: the loop of either
pass without its action on the statement (skip newlines, parse one statement,
skip a semicolon). -/
def parse_program : Nat → Lexer → Outcome (List ASTNode)
  | 0, _ => .out_of_fuel
  | fuel + 1, s =>
    if s.current_token.type = .TOKEN_EOF then .ok []
    else if s.current_token.type = .TOKEN_NEWLINE then
      match next_token s with
      | .ok l => parse_program fuel l
      | .exit e => .exit e
      | .out_of_fuel => .out_of_fuel
    else
      match parse_statement fuel s with
      | .ok (stmt, l1) =>
        match skip_semicolon l1 with
        | .ok l2 =>
          match parse_program fuel l2 with
          | .ok rest => .ok (stmt :: rest)
          | .exit e => .exit e
          | .out_of_fuel => .out_of_fuel
        | .exit e => .exit e
        | .out_of_fuel => .out_of_fuel
      | .exit e => .exit e
      | .out_of_fuel => .out_of_fuel

/-- The target name of an Assignment statement. -/
def assignment_target : ASTNode → Option (List Char)
  | .assign name _ => some name
  | _ => none

/-- The distinct elements of a list, each at the place of its first
occurrence. -/
def first_occurrences : List (List Char) → List (List Char)
  | [] => []
  | n :: ns => n :: (first_occurrences ns).filter (fun m => decide (m ≠ n))

/-- The names joined by a comma and a space. -/
def join_names : List (List Char) → List Char
  | [] => []
  | [n] => n
  | n :: m :: rest => n ++ ", ".toList ++ join_names (m :: rest)

/-- One step of the declaration list: a name not yet in it goes to its end. -/
def add_name (acc : List (List Char)) (n : List Char) : List (List Char) :=
  if n ∈ acc then acc else acc ++ [n]

/-- The relation the first loop of `compile` keeps between the output file,
the flag `first_var` and the names of the symbol table. -/
def declaration_invariant (st : Run) : Prop :=
  st.output = output_header ++ join_names (st.vars.map Variable.name) ∧
    (st.first_var = true ↔ st.vars = [])

/-- The tokens consumed between two lexer states: each one was the current
token when a call of `next_token` replaced it. -/
inductive Consumes : Lexer → List Token → Lexer → Prop where
  | done (s : Lexer) : Consumes s [] s
  | step (s s1 s2 : Lexer) (ts : List Token) (h : next_token s = .ok s1)
      (rest : Consumes s1 ts s2) : Consumes s (s.current_token :: ts) s2

/-- The operator character of an operator token. -/
def operator_char : TokenType → Option Char
  | .TOKEN_PLUS => some '+'
  | .TOKEN_MINUS => some '-'
  | .TOKEN_MULTIPLY => some '*'
  | .TOKEN_DIVIDE => some '/'
  | _ => none

mutual

/-- Reference grammar, `factor := Number | Identifier | '(' expression ')'`:
the token sequence is a factor with the given tree.  Parentheses leave no
node. -/
inductive FactorOf : List Token → ASTNode → Prop where
  | number (t : Token) (h : t.type = .TOKEN_NUMBER) : FactorOf [t] (.number t.value)
  | identifier (t : Token) (h : t.type = .TOKEN_IDENTIFIER) :
      FactorOf [t] (.identifier t.value)
  | paren (l r : Token) (ts : List Token) (e : ASTNode) (hl : l.type = .TOKEN_LPAREN)
      (hr : r.type = .TOKEN_RPAREN) (he : ExpressionOf ts e) :
      FactorOf (l :: ts ++ [r]) e

/-- Reference grammar, `term := factor (('*' | '/') factor)*` with the chain
folded to the left: the chain read so far is the left operand of the next
operator, the next factor is its right operand. -/
inductive TermOf : List Token → ASTNode → Prop where
  | factor (ts : List Token) (e : ASTNode) (h : FactorOf ts e) : TermOf ts e
  | chain (ts1 ts2 : List Token) (o : Token) (c : Char) (l r : ASTNode)
      (ho : o.type = .TOKEN_MULTIPLY ∨ o.type = .TOKEN_DIVIDE)
      (hc : operator_char o.type = some c) (hl : TermOf ts1 l) (hr : FactorOf ts2 r) :
      TermOf (ts1 ++ o :: ts2) (.binary_op c l r)

/-- Reference grammar, `expression := term (('+' | '-') term)*` with the chain
folded to the left; every operand of the chain is a whole term. -/
inductive ExpressionOf : List Token → ASTNode → Prop where
  | term (ts : List Token) (e : ASTNode) (h : TermOf ts e) : ExpressionOf ts e
  | chain (ts1 ts2 : List Token) (o : Token) (c : Char) (l r : ASTNode)
      (ho : o.type = .TOKEN_PLUS ∨ o.type = .TOKEN_MINUS)
      (hc : operator_char o.type = some c) (hl : ExpressionOf ts1 l) (hr : TermOf ts2 r) :
      ExpressionOf (ts1 ++ o :: ts2) (.binary_op c l r)

end

/-- The text of an operator token begins with its operator character, as in
every token that `next_token` stores. -/
def token_text_ok (t : Token) : Prop :=
  ∀ c, operator_char t.type = some c → t.value.getD 0 NUL = c

/-- The token is none of `+ - * /`: it cannot continue an expression. -/
def ends_expression (t : Token) : Prop :=
  t.type ≠ .TOKEN_PLUS ∧ t.type ≠ .TOKEN_MINUS ∧ t.type ≠ .TOKEN_MULTIPLY ∧
    t.type ≠ .TOKEN_DIVIDE

/-- What a successful `parse_factor` with the given budget yields: the tree is
a factor of the consumed tokens. -/
def parse_factor_sound (fuel : Nat) : Prop :=
  ∀ s tree s1, parse_factor fuel s = .ok (tree, s1) →
    ∃ ts, Consumes s ts s1 ∧ FactorOf ts tree ∧ token_text_ok s1.current_token

/-- What a successful `parse_term_loop` with the given budget yields, when it
is entered with the tree `left` of the tokens `ts0`. -/
def parse_term_loop_sound (fuel : Nat) : Prop :=
  ∀ left s tree s1 ts0, parse_term_loop fuel left s = .ok (tree, s1) →
    token_text_ok s.current_token → TermOf ts0 left →
    ∃ ts, Consumes s ts s1 ∧ TermOf (ts0 ++ ts) tree ∧ token_text_ok s1.current_token ∧
      s1.current_token.type ≠ .TOKEN_MULTIPLY ∧ s1.current_token.type ≠ .TOKEN_DIVIDE

/-- What a successful `parse_term` with the given budget yields. -/
def parse_term_sound (fuel : Nat) : Prop :=
  ∀ s tree s1, parse_term fuel s = .ok (tree, s1) →
    ∃ ts, Consumes s ts s1 ∧ TermOf ts tree ∧ token_text_ok s1.current_token ∧
      s1.current_token.type ≠ .TOKEN_MULTIPLY ∧ s1.current_token.type ≠ .TOKEN_DIVIDE

/-- What a successful `parse_expression_loop` with the given budget yields,
when it is entered after a term with the tree `left` of the tokens `ts0`. -/
def parse_expression_loop_sound (fuel : Nat) : Prop :=
  ∀ left s tree s1 ts0, parse_expression_loop fuel left s = .ok (tree, s1) →
    token_text_ok s.current_token →
    s.current_token.type ≠ .TOKEN_MULTIPLY → s.current_token.type ≠ .TOKEN_DIVIDE →
    ExpressionOf ts0 left →
    ∃ ts, Consumes s ts s1 ∧ ExpressionOf (ts0 ++ ts) tree ∧
      token_text_ok s1.current_token ∧ ends_expression s1.current_token

/-- What a successful `parse_expression` with the given budget yields. -/
def parse_expression_sound (fuel : Nat) : Prop :=
  ∀ s tree s1, parse_expression fuel s = .ok (tree, s1) →
    ∃ ts, Consumes s ts s1 ∧ ExpressionOf ts tree ∧
      token_text_ok s1.current_token ∧ ends_expression s1.current_token

/-- The tree `parse_expression` returns for the text `src`, read from the
start of the buffer: the first token is lexed, then the expression is
parsed. -/
def parse_expression_of (fuel : Nat) (src : List Char) : Outcome ASTNode :=
  match next_token (initial_lexer src) with
  | .ok s => (parse_expression fuel s).map Prod.fst
  | .exit e => .exit e
  | .out_of_fuel => .out_of_fuel

/-- The `switch` of `next_token` as a table: the token type of each
one-character token. -/
def switch_token_type (c : Char) : Option TokenType :=
  if c = '=' then some .TOKEN_ASSIGN
  else if c = '+' then some .TOKEN_PLUS
  else if c = '-' then some .TOKEN_MINUS
  else if c = '*' then some .TOKEN_MULTIPLY
  else if c = '/' then some .TOKEN_DIVIDE
  else if c = '(' then some .TOKEN_LPAREN
  else if c = ')' then some .TOKEN_RPAREN
  else if c = ';' then some .TOKEN_SEMICOLON
  else none

/-- The character is one of `= + - * / ( ) ;`. -/
def is_single_char_token (c : Char) : Bool :=
  c = '=' ∨ c = '+' ∨ c = '-' ∨ c = '*' ∨ c = '/' ∨ c = '(' ∨ c = ')' ∨ c = ';'

/-- The first character after the run of spaces and tabs at the cursor. -/
def next_char (s : Lexer) : Char :=
  char_at s.source_code (skip_blanks s.source_code s.current_pos)

/-- The character is none of those that begin a token: not the NUL at the end
of the buffer, not a newline, not an ASCII digit or letter, and not one of
`= + - * / ( ) ;`. -/
def is_unknown_character (c : Char) : Bool :=
  c ≠ NUL ∧ c ≠ '\n' ∧ isdigit c = false ∧ isalpha c = false ∧
    is_single_char_token c = false

/-- The 1-based number of the source line that contains the character at
offset `i`: one plus the number of newline characters before it. -/
def line_of_offset (src : List Char) (i : Nat) : Nat :=
  1 + (src.take i).count '\n'

/-- A program of `n` assignments to `n` distinct names, `a0=0;a1=0;` and so
on up to `j9`, `k0`: a letter and a digit for each name. -/
def many_assignments (n : Nat) : List Char :=
  (List.range n).flatMap
    (fun i => [Char.ofNat (97 + i / 10), Char.ofNat (48 + i % 10)] ++ "=0;".toList)

/-- Sequencing of outcomes: the continuation runs on the returned value; an
exit or an exhausted budget ends the run. -/
def Outcome.bind {α β : Type} (o : Outcome α) (f : α → Outcome β) : Outcome β :=
  match o with
  | .ok a => f a
  | .exit e => .exit e
  | .out_of_fuel => .out_of_fuel

/-- The second outcome is the first one with a larger recursion budget: equal
to it unless the first one ran out of budget. -/
def Outcome.extends {α : Type} (o1 o2 : Outcome α) : Prop :=
  o1 = .out_of_fuel ∨ o1 = o2

/-- Two outcomes of the same kind: related values, the same diagnostic, or
twice the exhausted budget. -/
def Outcome.related {α β : Type} (R : α → β → Prop) : Outcome α → Outcome β → Prop
  | .ok a, .ok b => R a b
  | .exit e1, .exit e2 => e1 = e2
  | .out_of_fuel, .out_of_fuel => True
  | _, _ => False

/-- The states of the first loop of `compile` on the buffer `src`, each at
the head of the loop, with the statements executed so far.  The loop starts
after the first token is lexed; an iteration either skips a Newline token, or
parses a statement, declares its target, skips a semicolon and executes it. -/
inductive Pass1Reaches (src : List Char) : List ASTNode → Run → Prop where
  | start (l0 : Lexer) (h : next_token (initial_lexer src) = .ok l0) :
      Pass1Reaches src [] ⟨l0, [], output_header, [], true⟩
  | newline (stmts : List ASTNode) (st : Run) (l : Lexer)
      (hr : Pass1Reaches src stmts st)
      (hnl : st.lexer.current_token.type = .TOKEN_NEWLINE)
      (hn : next_token st.lexer = .ok l) :
      Pass1Reaches src stmts ⟨l, st.vars, st.output, st.printed, st.first_var⟩
  | statement (stmts : List ASTNode) (st : Run) (fuel : Nat) (stmt : ASTNode)
      (l1 l2 : Lexer) (vars2 : List Variable) (printed2 : List Int)
      (hr : Pass1Reaches src stmts st)
      (heof : st.lexer.current_token.type ≠ .TOKEN_EOF)
      (hnl : st.lexer.current_token.type ≠ .TOKEN_NEWLINE)
      (hp : parse_statement fuel st.lexer = .ok (stmt, l1))
      (hs : skip_semicolon l1 = .ok l2)
      (he : execute_statement
        (declare_variable ⟨l1, st.vars, st.output, st.printed, st.first_var⟩ stmt).vars
        (declare_variable ⟨l1, st.vars, st.output, st.printed, st.first_var⟩ stmt).printed
        stmt = .ok (vars2, printed2)) :
      Pass1Reaches src (stmts ++ [stmt])
        ⟨l2, vars2,
          (declare_variable ⟨l1, st.vars, st.output, st.printed, st.first_var⟩ stmt).output,
          printed2,
          (declare_variable ⟨l1, st.vars, st.output, st.printed, st.first_var⟩
            stmt).first_var⟩

/-- The Assignment targets of a list of statements, in order. -/
def assignment_targets (stmts : List ASTNode) : List (List Char) :=
  stmts.filterMap assignment_target

/-- Two lexer states that the parser cannot tell apart: the same buffer,
cursor, line and token type, and the same token text unless the token is
EndOfInput or Newline, for which the lexer stores no text. -/
def same_view (a b : Lexer) : Prop :=
  a.source_code = b.source_code ∧ a.current_pos = b.current_pos ∧
    a.current_line = b.current_line ∧ a.current_token.type = b.current_token.type ∧
    (a.current_token.type ≠ .TOKEN_EOF → a.current_token.type ≠ .TOKEN_NEWLINE →
      a.current_token.value = b.current_token.value)

/-- Two parser results with the same tree and indistinguishable lexer states. -/
def same_parse (x y : ASTNode × Lexer) : Prop :=
  x.1 = y.1 ∧ same_view x.2 y.2

/-- Reference text of the line generated for a statement: `    name = <expr>;`
for an Assignment and `    printf("%d\n", <expr>);` for a Print, with the
expression rendered. -/
def statement_line : ASTNode → List Char
  | .assign name e => "    ".toList ++ name ++ " = ".toList ++ render e ++ ";\n".toList
  | .print e => "    printf(\"%d\\n\", ".toList ++ render e ++ ");\n".toList
  | _ => []

/-- The statement is an Assignment or a Print of an expression tree. -/
def is_statement : ASTNode → Bool
  | .assign _ e => is_expression e
  | .print e => is_expression e
  | _ => false

/-- Measure of what a lexer state still has to read: the characters from the
cursor to the end of the buffer, plus one while the current token is not
EndOfInput. -/
def pending (s : Lexer) : Nat :=
  (s.source_code.length - s.current_pos) +
    (if s.current_token.type = .TOKEN_EOF then 0 else 1)

/-- The text of the buffer from the cursor on. -/
def remaining (s : Lexer) : List Char :=
  s.source_code.drop s.current_pos

/-- The tree is a well-formed expression: the text of a number is a non-empty
digit string; the name of an identifier starts with a letter, goes on with
letters, digits and underscores, and is not `print`; an operator is one of
`+ - * /`. -/
def well_formed : ASTNode → Bool
  | .number value => value ≠ [] && value.all isdigit
  | .identifier value =>
    (match value with
      | [] => false
      | c :: cs => isalpha c && cs.all is_ident_char) && value ≠ "print".toList
  | .binary_op op left right => is_operator op && well_formed left && well_formed right
  | _ => false

/-- A budget of nested calls that suffices for `parse_factor` on the rendering
of the tree. -/
def parse_fuel : ASTNode → Nat
  | .binary_op _ left right => max (parse_fuel left) (parse_fuel right) + 4
  | _ => 1

/-- The text cannot continue a number or an identifier: it is empty or starts
with a character that is neither a letter, a digit nor an underscore. -/
def delimits (rest : List Char) : Prop :=
  ∀ c, rest.head? = some c → is_ident_char c = false

/-- The index of `variables` that `set_variable_value` writes: that of the
first entry with the name, or `var_count` when no entry has it. -/
def set_write_index : List Variable → List Char → Nat
  | [], _ => 0
  | v :: rest, name => if v.name = name then 0 else set_write_index rest name + 1

/-- The index of `variables` that the declaration block of `compile` writes
for a statement: `var_count` for an Assignment whose target has no entry; for
any other statement the block writes nothing. -/
def declare_write_index (vars : List Variable) : ASTNode → Option Nat
  | .assign name _ => if find_variable vars name then none else some vars.length
  | _ => none

/-- The statements of the program `many_assignments n`. -/
def many_statements (n : Nat) : List ASTNode :=
  (List.range n).map
    (fun i => .assign [Char.ofNat (97 + i / 10), Char.ofNat (48 + i % 10)] (.number ['0']))

/-! ## Symbol table: read after write -/

theorem get_set_same (vars : List Variable) (n : List Char) (v : Int) :
    get_variable_value (set_variable_value vars n v) n = .ok v := by
  induction vars with
  | nil => simp [set_variable_value, get_variable_value]
  | cons x rest ih =>
    by_cases h : x.name = n
    · simp [set_variable_value, get_variable_value, h]
    · simp [set_variable_value, get_variable_value, h, ih]

theorem find_set_same (vars : List Variable) (n : List Char) (v : Int) :
    find_variable (set_variable_value vars n v) n = true := by
  induction vars with
  | nil => simp [set_variable_value, find_variable]
  | cons x rest ih =>
    by_cases h : x.name = n
    · simp [set_variable_value, find_variable, h]
    · simp [set_variable_value, find_variable, h, ih]

theorem set_length_of_find (vars : List Variable) (n : List Char) (v : Int)
    (h : find_variable vars n = true) :
    (set_variable_value vars n v).length = vars.length := by
  induction vars with
  | nil => simp [find_variable] at h
  | cons x rest ih =>
    by_cases hx : x.name = n
    · simp [set_variable_value, hx]
    · simp [find_variable, hx] at h
      simp [set_variable_value, hx, ih h]

/-! ## Generated text -/

theorem generate_expression_eq (node : ASTNode) :
    is_expression node = true →
      ∀ output, generate_expression node output = output ++ render node := by
  induction node with
  | number value => intro _ output; simp [generate_expression, render]
  | identifier value => intro _ output; simp [generate_expression, render]
  | binary_op op left right ihl ihr =>
    intro h output
    simp only [is_expression, Bool.and_eq_true] at h
    simp [generate_expression, render, ihl h.1, ihr h.2]
  | assign value right _ => intro h; simp [is_expression] at h
  | print right _ => intro h; simp [is_expression] at h

/-! ## Claims -/

/-- C1 fails on the code for a number literal with a leading zero.  The source
`print 010` is a valid program: the first pass completes and the interpreter
prints 10, because `atoi` reads the literal as decimal.  The emitted program
contains the statement `printf("%d\n", 010);`, and the host language reads
`010` as an octal constant, so the emitted program prints 8. -/
theorem C1_leading_zero_diverges :
    (compile 8 "print 010".toList).map Run.printed = .ok [10] ∧
    (compile 8 "print 010".toList).map Run.output =
      .ok ("#include <stdio.h>\n\nint main() \x7b\n    int ;\n\n" ++
        "    printf(\"%d\\n\", 010);\n    return 0;\n\x7d\n").toList ∧
    generate_expression (.number "010".toList) [] = "010".toList ∧
    evaluate_expression [] (.number "010".toList) = .ok 10 ∧
    host_expression [] (.number "010".toList) = some 8 := by
  refine ⟨?_, ?_, ?_, ?_, ?_⟩ <;> decide!

/-- C2 fails on the code for a name read on the right-hand side of its own
first assignment.  In `x = x + 1` followed by `print x` the driver stores `x`
in the symbol table before the statement is executed, so the read of `x` finds
the entry and yields the 0 of static storage: the run completes and prints 1,
with no undefined-variable error.  In the table as it was before the
statement, the same read is the undefined-variable error. -/
theorem C2_first_assignment_reads_zero :
    (compile_interpret 8 "x = x + 1\nprint x".toList).map Run.printed = .ok [1] ∧
    evaluate_expression [] (.identifier ['x']) = .exit (.undefined_variable ['x']) := by
  refine ⟨?_, ?_⟩ <;> decide!

/-- C3 fails on the code when the token after the identifier is the keyword
`print`.  On `x print 5`, with `x` as current token, `parse_statement` returns
the node of `print 5`: after the identifier it finds no `=`, leaves the first
`if` and meets the test for `print`.  No "Invalid statement" error is
raised. -/
theorem C3_identifier_then_print_is_accepted :
    (next_token (initial_lexer "x print 5".toList)).map (fun s => s.current_token.type) =
      .ok .TOKEN_IDENTIFIER ∧
    (match next_token (initial_lexer "x print 5".toList) with
      | .ok s => (parse_statement 4 s).map Prod.fst
      | .exit e => .exit e
      | .out_of_fuel => .out_of_fuel) = .ok (.print (.number ['5'])) := by
  refine ⟨?_, ?_⟩ <;> decide!

/-- C6: in a symbol table with pairwise distinct names and fewer than 100
entries, reading `n` after `set_variable_value(n, v1)` gives `v1`; after a
further `set_variable_value(n, v2)` it gives `v2`, and the second write leaves
the number of entries unchanged. -/
theorem C6_read_after_write (vars : List Variable) (n : List Char) (v1 v2 : Int)
    (_hdistinct : (vars.map Variable.name).Nodup) (_hroom : vars.length < MAX_VARIABLES) :
    get_variable_value (set_variable_value vars n v1) n = .ok v1 ∧
    get_variable_value (set_variable_value (set_variable_value vars n v1) n v2) n = .ok v2 ∧
    (set_variable_value (set_variable_value vars n v1) n v2).length =
      (set_variable_value vars n v1).length :=
  ⟨get_set_same vars n v1, get_set_same _ n v2,
    set_length_of_find _ n v2 (find_set_same vars n v1)⟩

/-- C6 at the table `[a = 1]`, the name `b` and the values 7 and 9. -/
theorem C6_read_after_write_witness :
    get_variable_value (set_variable_value [⟨['a'], 1⟩] ['b'] 7) ['b'] = .ok 7 ∧
    get_variable_value
      (set_variable_value (set_variable_value [⟨['a'], 1⟩] ['b'] 7) ['b'] 9) ['b'] = .ok 9 ∧
    (set_variable_value (set_variable_value [⟨['a'], 1⟩] ['b'] 7) ['b'] 9).length =
      (set_variable_value [⟨['a'], 1⟩] ['b'] 7).length :=
  C6_read_after_write [⟨['a'], 1⟩] ['b'] 7 9 (by decide) (by decide)

/-- C7: when the left operand of a division evaluates to a value and the right
operand evaluates to 0, `evaluate_expression` stops with the division-by-zero
error and returns no value; when the right operand evaluates to a non-zero
value, the outcome is not that error: it is the quotient truncated toward
zero, except for `INT_MIN / -1`, where the division traps. -/
theorem C7_division_by_zero (vars : List Variable) (l r : ASTNode) (a : Int)
    (hl : evaluate_expression vars l = .ok a) :
    (evaluate_expression vars r = .ok 0 →
      evaluate_expression vars (.binary_op '/' l r) = .exit .division_by_zero) ∧
    (∀ b, b ≠ 0 → evaluate_expression vars r = .ok b →
      evaluate_expression vars (.binary_op '/' l r) ≠ .exit .division_by_zero ∧
      (¬(a = -2147483648 ∧ b = -1) →
        evaluate_expression vars (.binary_op '/' l r) = .ok (wrap32 (Int.tdiv a b))) ∧
      (a = -2147483648 ∧ b = -1 →
        evaluate_expression vars (.binary_op '/' l r) = .exit .division_overflow)) := by
  constructor
  · intro hr
    simp [evaluate_expression, hl, hr]
  · intro b hb hr
    by_cases hq : a = -2147483648 ∧ b = -1
    · simp [evaluate_expression, hl, hr, hb, hq]
    · refine ⟨?_, fun _ => ?_, fun h => absurd h hq⟩ <;>
        simp [evaluate_expression, hl, hr, hb, hq]

/-- C7 at the table `[x = 5]`, for `1 / (x - x)`: the divisor is a computed
sub-expression that evaluates to 0.  The divisors `0` and `2 * 0` give the
same error, `7 / 2` gives 3, and `(0 - 2147483647 - 1) / (0 - 1)` traps. -/
theorem C7_division_by_zero_witness :
    evaluate_expression [⟨['x'], 5⟩]
      (.binary_op '/' (.number ['1'])
        (.binary_op '-' (.identifier ['x']) (.identifier ['x']))) =
      .exit .division_by_zero ∧
    evaluate_expression [] (.binary_op '/' (.number ['1']) (.number ['0'])) =
      .exit .division_by_zero ∧
    evaluate_expression []
      (.binary_op '/' (.number ['1']) (.binary_op '*' (.number ['2']) (.number ['0']))) =
      .exit .division_by_zero ∧
    evaluate_expression [] (.binary_op '/' (.number ['7']) (.number ['2'])) = .ok 3 ∧
    evaluate_expression []
      (.binary_op '/'
        (.binary_op '-' (.binary_op '-' (.number ['0']) (.number "2147483647".toList))
          (.number ['1']))
        (.binary_op '-' (.number ['0']) (.number ['1']))) = .exit .division_overflow :=
  ⟨(C7_division_by_zero [⟨['x'], 5⟩] (.number ['1'])
    (.binary_op '-' (.identifier ['x']) (.identifier ['x'])) 1 (by decide!)).1 (by decide!),
    by decide!, by decide!, by decide!, by decide!⟩

/-! ## Interpreter: exact arithmetic within the range of `int` -/

theorem wrap32_of_in_range (x : Int) (h : in_int_range x = true) : wrap32 x = x := by
  simp only [in_int_range, decide_eq_true_eq] at h
  unfold wrap32
  omega

theorem atoi_digits_eq_foldl (text : List Char) (h : text.all isdigit = true) (acc : Int) :
    atoi_digits acc text =
      text.foldl (fun acc c => acc * 10 + ((c.toNat : Int) - 48)) acc := by
  induction text generalizing acc with
  | nil => rfl
  | cons c cs ih =>
    simp only [List.all_cons, Bool.and_eq_true] at h
    simp [atoi_digits, h.1, ih h.2]

theorem isdigit_not_space (c : Char) (h : isdigit c = true) :
    isspace c = false ∧ c ≠ '-' ∧ c ≠ '+' := by
  simp only [isdigit, decide_eq_true_eq] at h
  refine ⟨?_, ?_, ?_⟩
  · simp only [isspace, decide_eq_false_iff_not]
    rintro (rfl | h2)
    · simp at h
    · omega
  · rintro rfl
    simp at h
  · rintro rfl
    simp at h

theorem saturate_long_of_in_range (x : Int) (h : in_int_range x = true) :
    saturate_long x = x := by
  simp only [in_int_range, decide_eq_true_eq] at h
  unfold saturate_long
  rw [if_neg (by omega), if_neg (by omega)]

theorem atoi_of_digits (text : List Char) (hne : text ≠ []) (h : text.all isdigit = true)
    (hr : in_int_range (decimal_value text) = true) :
    atoi text = decimal_value text := by
  cases text with
  | nil => exact absurd rfl hne
  | cons c cs =>
    have hc : isdigit c = true := by
      simp only [List.all_cons, Bool.and_eq_true] at h
      exact h.1
    obtain ⟨h1, h2, h3⟩ := isdigit_not_space c hc
    have hdrop : List.dropWhile isspace (c :: cs) = c :: cs := by
      simp [List.dropWhile, h1]
    unfold atoi
    simp only [hdrop, List.head?_cons, Option.some.injEq, h2, h3, if_false]
    rw [atoi_digits_eq_foldl _ h]
    show wrap32 (saturate_long (decimal_value (c :: cs))) = decimal_value (c :: cs)
    rw [saturate_long_of_in_range _ hr, wrap32_of_in_range _ hr]

theorem get_of_find (vars : List Variable) (name : List Char)
    (h : find_variable vars name = true) :
    get_variable_value vars name = .ok (lookup_value vars name) := by
  induction vars with
  | nil => simp [find_variable] at h
  | cons v rest ih =>
    by_cases hv : v.name = name
    · simp [get_variable_value, lookup_value, hv]
    · simp [find_variable, hv] at h
      simp [get_variable_value, lookup_value, hv, ih h]

theorem evaluate_exact (vars : List Variable) (node : ASTNode) :
    valid_expression node = true → all_mapped vars node = true →
      no_zero_divisor vars node = true → all_in_int_range vars node = true →
      evaluate_expression vars node = .ok (exact_value vars node) := by
  induction node with
  | number value =>
    intro hv _ _ hr
    simp only [valid_expression, Bool.decide_and, Bool.and_eq_true, decide_eq_true_eq] at hv
    simp only [all_in_int_range] at hr
    simp [evaluate_expression, exact_value, atoi_of_digits value hv.1 hv.2 hr]
  | identifier value =>
    intro _ hm _ _
    simp only [all_mapped] at hm
    simp [evaluate_expression, exact_value, get_of_find vars value hm]
  | binary_op op left right ihl ihr =>
    intro hv hm hz hr
    simp only [valid_expression, Bool.and_eq_true] at hv
    simp only [all_mapped, Bool.and_eq_true] at hm
    simp only [no_zero_divisor, Bool.and_eq_true, decide_eq_true_eq] at hz
    simp only [all_in_int_range, Bool.and_eq_true] at hr
    obtain ⟨⟨hop, hvl⟩, hvr⟩ := hv
    have el := ihl hvl hm.1 hz.1.1 hr.1.1
    have er := ihr hvr hm.2 hz.1.2 hr.1.2
    have hres := hr.2
    simp only [is_operator, Bool.decide_or, Bool.or_eq_true, decide_eq_true_eq] at hop
    simp only [evaluate_expression, el, er]
    rcases hop with rfl | rfl | rfl | rfl
    · simp only [exact_value] at hres ⊢
      simp only [if_true] at hres ⊢
      rw [wrap32_of_in_range _ hres]
    · have h1 : ('-' : Char) ≠ '+' := by decide
      simp only [exact_value, h1, if_false, if_true] at hres ⊢
      rw [wrap32_of_in_range _ hres]
    · have h1 : ('*' : Char) ≠ '+' := by decide
      have h2 : ('*' : Char) ≠ '-' := by decide
      simp only [exact_value, h1, h2, if_false, if_true] at hres ⊢
      rw [wrap32_of_in_range _ hres]
    · have h1 : ('/' : Char) ≠ '+' := by decide
      have h2 : ('/' : Char) ≠ '-' := by decide
      have h3 : ('/' : Char) ≠ '*' := by decide
      have hz2 : exact_value vars right ≠ 0 := hz.2.resolve_left (fun h => h rfl)
      simp only [exact_value, h1, h2, h3, if_false, if_true, hz2] at hres ⊢
      have hq : ¬(exact_value vars left = -2147483648 ∧ exact_value vars right = -1) := by
        rintro ⟨ha, hb⟩
        rw [ha, hb] at hres
        exact absurd hres (by decide)
      rw [if_neg hq, wrap32_of_in_range _ hres]
  | assign value right _ => intro h; simp [valid_expression] at h
  | print right _ => intro h; simp [valid_expression] at h

/-- C9: for an expression tree whose identifiers are all mapped, whose divisors
are all non-zero and whose literals and intermediate results all lie in the
signed 32-bit range, `evaluate_expression` returns the exact integer value: the
decimal value of a literal, exact `+ - *`, and the quotient truncated toward
zero for `/`.  The left operand is evaluated before the right one, for every
binary operation: when the left operand stops with an error, that error is the
outcome, also when the right operand would stop with another error; an error
of the right operand is the outcome only when the left operand has returned a
value. -/
theorem C9_evaluate_exact (vars : List Variable) (node : ASTNode)
    (hvalid : valid_expression node = true) (hmapped : all_mapped vars node = true)
    (hdivisor : no_zero_divisor vars node = true)
    (hrange : all_in_int_range vars node = true) :
    evaluate_expression vars node = .ok (exact_value vars node) ∧
    (∀ op left right e1, evaluate_expression vars left = .exit e1 →
      evaluate_expression vars (.binary_op op left right) = .exit e1) ∧
    (∀ op left right e1 e2, evaluate_expression vars left = .exit e1 →
      evaluate_expression vars right = .exit e2 →
      evaluate_expression vars (.binary_op op left right) = .exit e1) ∧
    (∀ op left right a e2, evaluate_expression vars left = .ok a →
      evaluate_expression vars right = .exit e2 →
      evaluate_expression vars (.binary_op op left right) = .exit e2) ∧
    (∀ op right e2, evaluate_expression vars right = .exit e2 →
      evaluate_expression vars (.binary_op op node right) = .exit e2) := by
  have h1 := evaluate_exact vars node hvalid hmapped hdivisor hrange
  refine ⟨h1, ?_, ?_, ?_, ?_⟩
  · intro op left right e1 h
    simp [evaluate_expression, h]
  · intro op left right e1 e2 h _
    simp [evaluate_expression, h]
  · intro op left right a e2 hl hr
    simp [evaluate_expression, hl, hr]
  · intro op right e2 hr
    simp [evaluate_expression, h1, hr]

/-- C9 at the table `[x = 10, y = 20]` for `x + y * 2`, whose value is 50,
and at `(0 - 7) / 2`, whose value is -3; `(2 + 3) * 4` has the value 20.  In
`u + 1 / 0` and in `1 / 0 + u`, with `u` undefined, the error is that of the
left operand. -/
theorem C9_evaluate_exact_witness :
    evaluate_expression [⟨['x'], 10⟩, ⟨['y'], 20⟩]
      (.binary_op '+' (.identifier ['x'])
        (.binary_op '*' (.identifier ['y']) (.number ['2']))) = .ok 50 ∧
    evaluate_expression []
      (.binary_op '/' (.binary_op '-' (.number ['0']) (.number ['7'])) (.number ['2'])) =
      .ok (-3) ∧
    evaluate_expression []
      (.binary_op '*' (.binary_op '+' (.number ['2']) (.number ['3'])) (.number ['4'])) =
      .ok 20 ∧
    evaluate_expression []
      (.binary_op '+' (.identifier ['u'])
        (.binary_op '/' (.number ['1']) (.number ['0']))) =
      .exit (.undefined_variable ['u']) ∧
    evaluate_expression []
      (.binary_op '+' (.binary_op '/' (.number ['1']) (.number ['0']))
        (.identifier ['u'])) = .exit .division_by_zero :=
  ⟨(C9_evaluate_exact [⟨['x'], 10⟩, ⟨['y'], 20⟩]
    (.binary_op '+' (.identifier ['x'])
      (.binary_op '*' (.identifier ['y']) (.number ['2'])))
    (by decide!) (by decide!) (by decide!) (by decide!)).1.trans (by decide!),
  (C9_evaluate_exact []
    (.binary_op '/' (.binary_op '-' (.number ['0']) (.number ['7'])) (.number ['2']))
    (by decide!) (by decide!) (by decide!) (by decide!)).1.trans (by decide!),
  by decide!,
  (C9_evaluate_exact [] (.number ['1']) (by decide!) (by decide!) (by decide!)
    (by decide!)).2.2.1 '+' (.identifier ['u'])
    (.binary_op '/' (.number ['1']) (.number ['0'])) (.undefined_variable ['u'])
    .division_by_zero (by decide!) (by decide!),
  (C9_evaluate_exact [] (.number ['1']) (by decide!) (by decide!) (by decide!)
    (by decide!)).2.1 '+' (.binary_op '/' (.number ['1']) (.number ['0']))
    (.identifier ['u']) .division_by_zero (by decide!)⟩

/-! ## Lexer: identifiers and the keyword -/

theorem isalpha_excludes (c : Char) (h : isalpha c = true) :
    c ≠ NUL ∧ c ≠ '\n' ∧ isdigit c = false := by
  simp only [isalpha, Bool.decide_or, Bool.decide_and, Bool.or_eq_true, Bool.and_eq_true,
    decide_eq_true_eq] at h
  refine ⟨?_, ?_, ?_⟩
  · rintro rfl
    simp [NUL] at h
  · rintro rfl
    simp at h
  · simp only [isdigit, Bool.decide_and, Bool.and_eq_false_iff, decide_eq_false_iff_not]
    omega

theorem scan_run_spec (test : Char → Bool) (src : List Char) (pos : Nat) :
    src.drop pos = scan_run test src pos ++ (src.drop pos).dropWhile test ∧
    (∀ c ∈ scan_run test src pos, test c = true) ∧
    (∀ c, ((src.drop pos).dropWhile test).head? = some c → test c = false) := by
  refine ⟨?_, ?_, ?_⟩
  · simp [scan_run]
  · intro c hc
    exact List.mem_takeWhile_imp hc
  · intro c hc
    have := List.head?_dropWhile_not test (src.drop pos)
    rw [hc] at this
    simpa using this

theorem drop_of_char_at (src : List Char) (pos : Nat) (h : char_at src pos ≠ NUL) :
    src.drop pos = char_at src pos :: src.drop (pos + 1) := by
  by_cases hp : pos < src.length
  · have hc : char_at src pos = src[pos] := List.getD_eq_getElem _ _ hp
    rw [hc]
    exact List.drop_eq_getElem_cons hp
  · exact absurd (List.getD_eq_default _ _ (Nat.le_of_not_lt hp)) h

theorem scan_run_head (test : Char → Bool) (src : List Char) (pos : Nat)
    (h : char_at src pos ≠ NUL) (ht : test (char_at src pos) = true) :
    (scan_run test src pos).head? = some (char_at src pos) := by
  unfold scan_run
  rw [drop_of_char_at src pos h]
  simp [List.takeWhile_cons, ht]

theorem next_token_of_alpha (s : Lexer)
    (h : isalpha (char_at s.source_code (skip_blanks s.source_code s.current_pos)) = true) :
    next_token s = .ok
      ⟨s.source_code,
        skip_blanks s.source_code s.current_pos +
          (scan_run is_ident_char s.source_code
            (skip_blanks s.source_code s.current_pos)).length,
        s.current_line,
        ⟨if scan_run is_ident_char s.source_code
              (skip_blanks s.source_code s.current_pos) = "print".toList
          then .TOKEN_PRINT else .TOKEN_IDENTIFIER,
          scan_run is_ident_char s.source_code (skip_blanks s.source_code s.current_pos),
          s.current_token.line⟩⟩ := by
  obtain ⟨h1, h2, h3⟩ := isalpha_excludes _ h
  obtain ⟨src, pos, line, ⟨ty, val, tl⟩⟩ := s
  simp only at h h1 h2 h3
  simp only [next_token, h1, h2, h3, h, if_false, if_true]
  rfl

/-- C10: when the first character after the blanks at the cursor is an ASCII
letter, `next_token` returns; the token text is the longest run of letters,
digits and underscores that starts with that letter, the cursor is on the
first character after the run, and the token is `TOKEN_PRINT` exactly when the text is `print`
and `TOKEN_IDENTIFIER` for every other text. -/
theorem C10_identifier_or_print (s : Lexer)
    (h : isalpha (char_at s.source_code (skip_blanks s.source_code s.current_pos)) = true) :
    ∃ s1 run rest,
      next_token s = .ok s1 ∧
      s.source_code.drop (skip_blanks s.source_code s.current_pos) = run ++ rest ∧
      run.head? = some (char_at s.source_code (skip_blanks s.source_code s.current_pos)) ∧
      (∀ c ∈ run, is_ident_char c = true) ∧
      (∀ c, rest.head? = some c → is_ident_char c = false) ∧
      s1.current_token.value = run ∧
      s1.current_pos = skip_blanks s.source_code s.current_pos + run.length ∧
      s1.source_code = s.source_code ∧
      (s1.current_token.type = .TOKEN_PRINT ↔ run = "print".toList) ∧
      (run ≠ "print".toList → s1.current_token.type = .TOKEN_IDENTIFIER) := by
  obtain ⟨r1, r2, r3⟩ :=
    scan_run_spec is_ident_char s.source_code (skip_blanks s.source_code s.current_pos)
  have hident : is_ident_char
      (char_at s.source_code (skip_blanks s.source_code s.current_pos)) = true := by
    simp [is_ident_char, isalnum, h]
  have r0 := scan_run_head is_ident_char s.source_code _ (isalpha_excludes _ h).1 hident
  refine ⟨_, _, _, next_token_of_alpha s h, r1, r0, r2, r3, rfl, rfl, rfl, ?_, ?_⟩
  · by_cases hp :
      scan_run is_ident_char s.source_code (skip_blanks s.source_code s.current_pos) =
        "print".toList
    · simp [hp]
    · simp [hp]
  · intro hp
    exact if_neg hp

/-- C10 at the buffer `  print_ = 1`: the run `print_` is an identifier; so
are `printx`, `print1`, `Print` and `prin`, and `print` alone is the
keyword. -/
theorem C10_identifier_or_print_witness :
    (∃ s1 run rest,
      next_token (initial_lexer "  print_ = 1".toList) = .ok s1 ∧
      "  print_ = 1".toList.drop 2 = run ++ rest ∧
      run.head? = some 'p' ∧
      (∀ c ∈ run, is_ident_char c = true) ∧
      (∀ c, rest.head? = some c → is_ident_char c = false) ∧
      s1.current_token.value = run ∧
      s1.current_pos = 2 + run.length ∧
      s1.source_code = "  print_ = 1".toList ∧
      (s1.current_token.type = .TOKEN_PRINT ↔ run = "print".toList) ∧
      (run ≠ "print".toList → s1.current_token.type = .TOKEN_IDENTIFIER)) ∧
    (next_token (initial_lexer "  print_ = 1".toList)).map
        (fun s => (s.current_token.type, s.current_token.value, s.current_pos)) =
      .ok (.TOKEN_IDENTIFIER, "print_".toList, 8) ∧
    (next_token (initial_lexer "printx".toList)).map (fun s => s.current_token.type) =
      .ok .TOKEN_IDENTIFIER ∧
    (next_token (initial_lexer "print1".toList)).map (fun s => s.current_token.type) =
      .ok .TOKEN_IDENTIFIER ∧
    (next_token (initial_lexer "Print".toList)).map (fun s => s.current_token.type) =
      .ok .TOKEN_IDENTIFIER ∧
    (next_token (initial_lexer "prin".toList)).map (fun s => s.current_token.type) =
      .ok .TOKEN_IDENTIFIER ∧
    (next_token (initial_lexer "print x".toList)).map
        (fun s => (s.current_token.type, s.current_token.value, s.current_pos)) =
      .ok (.TOKEN_PRINT, "print".toList, 5) :=
  ⟨C10_identifier_or_print (initial_lexer "  print_ = 1".toList) (by decide!),
    by decide!, by decide!, by decide!, by decide!, by decide!, by decide!⟩

/-! ## Driver: the declaration line -/

theorem find_iff_mem (vars : List Variable) (n : List Char) :
    find_variable vars n = true ↔ n ∈ vars.map Variable.name := by
  induction vars with
  | nil => simp [find_variable]
  | cons v rest ih =>
    by_cases hv : v.name = n
    · simp [find_variable, hv]
    · have hv2 : ¬ n = v.name := fun h => hv h.symm
      simp [find_variable, hv, hv2, ih]

theorem set_names_of_find (vars : List Variable) (n : List Char) (v : Int)
    (h : find_variable vars n = true) :
    (set_variable_value vars n v).map Variable.name = vars.map Variable.name := by
  induction vars with
  | nil => simp [find_variable] at h
  | cons x rest ih =>
    by_cases hx : x.name = n
    · simp [set_variable_value, hx]
    · simp [find_variable, hx] at h
      simp [set_variable_value, hx, ih h]

theorem join_names_append (ns : List (List Char)) (n : List Char) :
    join_names (ns ++ [n]) = join_names ns ++ (if ns = [] then [] else ", ".toList) ++ n := by
  induction ns with
  | nil => simp [join_names]
  | cons a rest ih =>
    cases rest with
    | nil => simp [join_names]
    | cons b rest2 =>
      simp only [List.cons_append] at ih ⊢
      simp only [join_names, ih]
      simp

theorem foldl_add_name (ns acc : List (List Char)) :
    ns.foldl add_name acc =
      acc ++ (first_occurrences ns).filter (fun m => decide (m ∉ acc)) := by
  induction ns generalizing acc with
  | nil => simp [first_occurrences]
  | cons n ns ih =>
    simp only [List.foldl_cons, ih, first_occurrences]
    by_cases hn : n ∈ acc
    · simp only [add_name, hn, if_true, List.filter_cons, not_true_eq_false, decide_False,
        Bool.false_eq_true, if_false, List.filter_filter]
      congr 1
      apply List.filter_congr
      intro m _
      by_cases hm : m ∈ acc
      · simp [hm]
      · have : m ≠ n := fun h => hm (h ▸ hn)
        simp [hm, this]
    · simp only [add_name, hn, if_false, List.filter_cons, not_false_eq_true, decide_True,
        if_true, List.filter_filter, List.append_assoc, List.singleton_append]
      congr 2
      apply List.filter_congr
      intro m _
      by_cases hm : m ∈ acc
      · simp [hm]
      · by_cases hmn : m = n
        · simp [hm, hmn]
        · simp [hm, hmn]

theorem first_occurrences_mem (ns : List (List Char)) (m : List Char) :
    m ∈ first_occurrences ns ↔ m ∈ ns := by
  induction ns with
  | nil => simp [first_occurrences]
  | cons n ns ih =>
    simp only [first_occurrences, List.mem_cons, List.mem_filter, ih, decide_eq_true_eq]
    by_cases h : m = n
    · simp [h]
    · simp [h]

theorem first_occurrences_nodup (ns : List (List Char)) : (first_occurrences ns).Nodup := by
  induction ns with
  | nil => simp [first_occurrences]
  | cons n ns ih =>
    simp only [first_occurrences, List.nodup_cons, List.mem_filter, decide_eq_true_eq]
    exact ⟨fun h => h.2 rfl, ih.filter _⟩

theorem declare_variable_spec (st : Run) (stmt : ASTNode) (h : declaration_invariant st) :
    declaration_invariant (declare_variable st stmt) ∧
    (declare_variable st stmt).vars.map Variable.name =
      (match assignment_target stmt with
        | some n => add_name (st.vars.map Variable.name) n
        | none => st.vars.map Variable.name) ∧
    (declare_variable st stmt).lexer = st.lexer ∧
    (∀ n, assignment_target stmt = some n →
      find_variable (declare_variable st stmt).vars n = true) ∧
    (declare_variable st stmt).printed = st.printed := by
  obtain ⟨lexer, vars, output, printed, first_var⟩ := st
  cases stmt with
  | assign name right =>
    by_cases hf : find_variable vars name = true
    · have hm := (find_iff_mem vars name).1 hf
      simp only [declare_variable, hf, if_true, assignment_target, add_name, hm]
      refine ⟨h, trivial, trivial, ?_, trivial⟩
      intro n hn
      simp only [Option.some.injEq] at hn
      subst hn
      exact hf
    · have hm : name ∉ vars.map Variable.name := fun hmem =>
        hf ((find_iff_mem vars name).2 hmem)
      obtain ⟨hout, hfirst⟩ := h
      simp only at hout hfirst
      simp only [declare_variable, hf, Bool.false_eq_true, if_false, assignment_target,
        add_name, hm, List.map_append, List.map_cons, List.map_nil]
      refine ⟨⟨?_, ?_⟩, trivial, trivial, ?_, trivial⟩
      · simp only [List.map_append, List.map_cons, List.map_nil, join_names_append, hout,
          List.append_assoc]
        by_cases hv : vars = []
        · simp [hv, hfirst.2 hv]
        · have hfv : first_var = false := by
            cases hb : first_var with
            | false => rfl
            | true => exact absurd (hfirst.1 hb) hv
          simp [hv, hfv]
      · simp
      · intro n hn
        simp only [Option.some.injEq] at hn
        subst hn
        rw [find_iff_mem]
        simp
  | number value => exact ⟨h, rfl, rfl, by simp [assignment_target], rfl⟩
  | identifier value => exact ⟨h, rfl, rfl, by simp [assignment_target], rfl⟩
  | binary_op op left right => exact ⟨h, rfl, rfl, by simp [assignment_target], rfl⟩
  | print right => exact ⟨h, rfl, rfl, by simp [assignment_target], rfl⟩

theorem execute_statement_names (vars vars1 : List Variable) (printed printed1 : List Int)
    (stmt : ASTNode)
    (hfind : ∀ n, assignment_target stmt = some n → find_variable vars n = true)
    (h : execute_statement vars printed stmt = .ok (vars1, printed1)) :
    vars1.map Variable.name = vars.map Variable.name := by
  cases stmt with
  | assign name right =>
    simp only [execute_statement] at h
    cases he : evaluate_expression vars right with
    | ok value =>
      rw [he] at h
      simp only [Outcome.ok.injEq, Prod.mk.injEq] at h
      rw [← h.1]
      exact set_names_of_find vars name value (hfind name rfl)
    | exit e => rw [he] at h; simp at h
    | out_of_fuel => rw [he] at h; simp at h
  | print right =>
    simp only [execute_statement] at h
    cases he : evaluate_expression vars right with
    | ok value =>
      rw [he] at h
      simp only [Outcome.ok.injEq, Prod.mk.injEq] at h
      rw [← h.1]
    | exit e => rw [he] at h; simp at h
    | out_of_fuel => rw [he] at h; simp at h
  | number value =>
    simp only [execute_statement, Outcome.ok.injEq, Prod.mk.injEq] at h
    rw [← h.1]
  | identifier value =>
    simp only [execute_statement, Outcome.ok.injEq, Prod.mk.injEq] at h
    rw [← h.1]
  | binary_op op left right =>
    simp only [execute_statement, Outcome.ok.injEq, Prod.mk.injEq] at h
    rw [← h.1]

theorem Outcome.ok_of_map_unit {α : Type} {o : Outcome α}
    (h : o.map (fun _ => ()) = .ok ()) : ∃ a, o = .ok a := by
  cases o with
  | ok a => exact ⟨a, rfl⟩
  | exit e => simp [Outcome.map] at h
  | out_of_fuel => simp [Outcome.map] at h

theorem Consumes.one (s s1 : Lexer) (h : next_token s = .ok s1) :
    Consumes s [s.current_token] s1 :=
  Consumes.step s s1 s1 [] h (Consumes.done s1)

theorem Consumes.append {s s1 s2 : Lexer} {ts1 ts2 : List Token}
    (h1 : Consumes s ts1 s1) (h2 : Consumes s1 ts2 s2) : Consumes s (ts1 ++ ts2) s2 := by
  induction h1 with
  | done s => simpa using h2
  | step s sa sb ts h _ ih => exact Consumes.step s sa s2 (ts ++ ts2) h (ih h2)

theorem next_token_text_ok (s s1 : Lexer) (h : next_token s = .ok s1) :
    token_text_ok s1.current_token := by
  obtain ⟨src, pos, line, ⟨ty, val, tl⟩⟩ := s
  unfold next_token at h
  simp only [] at h
  intro c hc
  generalize char_at src (skip_blanks src pos) = ch at h
  by_cases h1 : ch = NUL
  · rw [if_pos h1] at h
    simp only [Outcome.ok.injEq] at h
    subst h
    simp [operator_char] at hc
  rw [if_neg h1] at h
  by_cases h2 : ch = '\n'
  · rw [if_pos h2] at h
    simp only [Outcome.ok.injEq] at h
    subst h
    simp [operator_char] at hc
  rw [if_neg h2] at h
  by_cases h3 : isdigit ch = true
  · rw [if_pos h3] at h
    simp only [Outcome.ok.injEq] at h
    subst h
    simp [operator_char] at hc
  rw [if_neg h3] at h
  by_cases h4 : isalpha ch = true
  · rw [if_pos h4] at h
    simp only [Outcome.ok.injEq] at h
    subst h
    by_cases hp : scan_run is_ident_char src (skip_blanks src pos) = "print".toList
    · simp only [if_pos hp, operator_char] at hc
      simp at hc
    · simp only [if_neg hp, operator_char] at hc
      simp at hc
  rw [if_neg h4] at h
  by_cases h5 : ch = '='
  · rw [if_pos h5] at h
    simp only [Outcome.ok.injEq] at h
    subst h
    simp [single_char_token, operator_char] at hc
  rw [if_neg h5] at h
  by_cases h6 : ch = '+'
  · rw [if_pos h6] at h
    simp only [Outcome.ok.injEq] at h
    subst h
    simp only [single_char_token, operator_char, Option.some.injEq] at hc
    subst hc
    simp [single_char_token, h6]
  rw [if_neg h6] at h
  by_cases h7 : ch = '-'
  · rw [if_pos h7] at h
    simp only [Outcome.ok.injEq] at h
    subst h
    simp only [single_char_token, operator_char, Option.some.injEq] at hc
    subst hc
    simp [single_char_token, h7]
  rw [if_neg h7] at h
  by_cases h8 : ch = '*'
  · rw [if_pos h8] at h
    simp only [Outcome.ok.injEq] at h
    subst h
    simp only [single_char_token, operator_char, Option.some.injEq] at hc
    subst hc
    simp [single_char_token, h8]
  rw [if_neg h8] at h
  by_cases h9 : ch = '/'
  · rw [if_pos h9] at h
    simp only [Outcome.ok.injEq] at h
    subst h
    simp only [single_char_token, operator_char, Option.some.injEq] at hc
    subst hc
    simp [single_char_token, h9]
  rw [if_neg h9] at h
  by_cases h10 : ch = '('
  · rw [if_pos h10] at h
    simp only [Outcome.ok.injEq] at h
    subst h
    simp [single_char_token, operator_char] at hc
  rw [if_neg h10] at h
  by_cases h11 : ch = ')'
  · rw [if_pos h11] at h
    simp only [Outcome.ok.injEq] at h
    subst h
    simp [single_char_token, operator_char] at hc
  rw [if_neg h11] at h
  by_cases h12 : ch = ';'
  · rw [if_pos h12] at h
    simp only [Outcome.ok.injEq] at h
    subst h
    simp [single_char_token, operator_char] at hc
  rw [if_neg h12] at h
  simp at h
theorem parse_factor_sound_succ (fuel : Nat) (ih : parse_expression_sound fuel) :
    parse_factor_sound (fuel + 1) := by
  intro s tree s1 h
  simp only [parse_factor] at h
  by_cases hnum : s.current_token.type = .TOKEN_NUMBER
  · rw [if_pos hnum] at h
    cases hn : next_token s with
    | ok s2 =>
      rw [hn] at h
      simp only [Outcome.ok.injEq, Prod.mk.injEq] at h
      obtain ⟨rfl, rfl⟩ := h
      exact ⟨_, Consumes.one s s2 hn, FactorOf.number _ hnum, next_token_text_ok s s2 hn⟩
    | exit e => rw [hn] at h; simp at h
    | out_of_fuel => rw [hn] at h; simp at h
  rw [if_neg hnum] at h
  by_cases hid : s.current_token.type = .TOKEN_IDENTIFIER
  · rw [if_pos hid] at h
    cases hn : next_token s with
    | ok s2 =>
      rw [hn] at h
      simp only [Outcome.ok.injEq, Prod.mk.injEq] at h
      obtain ⟨rfl, rfl⟩ := h
      exact ⟨_, Consumes.one s s2 hn, FactorOf.identifier _ hid, next_token_text_ok s s2 hn⟩
    | exit e => rw [hn] at h; simp at h
    | out_of_fuel => rw [hn] at h; simp at h
  rw [if_neg hid] at h
  by_cases hlp : s.current_token.type = .TOKEN_LPAREN
  · rw [if_pos hlp] at h
    cases hn : next_token s with
    | ok s2 =>
      rw [hn] at h
      simp only at h
      cases he : parse_expression fuel s2 with
      | ok r =>
        obtain ⟨node, s3⟩ := r
        rw [he] at h
        simp only at h
        by_cases hrp : s3.current_token.type = .TOKEN_RPAREN
        · simp only [hrp, ne_eq, not_true_eq_false, if_false] at h
          cases hn3 : next_token s3 with
          | ok s4 =>
            rw [hn3] at h
            simp only [Outcome.ok.injEq, Prod.mk.injEq] at h
            obtain ⟨rfl, rfl⟩ := h
            obtain ⟨ts, hc, hg, _, _⟩ := ih s2 node s3 he
            refine ⟨s.current_token :: ts ++ [s3.current_token], ?_, ?_,
              next_token_text_ok s3 s4 hn3⟩
            · exact Consumes.step s s2 s4 _ hn (hc.append (Consumes.one s3 s4 hn3))
            · exact FactorOf.paren _ _ ts node hlp hrp hg
          | exit e => rw [hn3] at h; simp at h
          | out_of_fuel => rw [hn3] at h; simp at h
        · simp [hrp] at h
      | exit e => rw [he] at h; simp at h
      | out_of_fuel => rw [he] at h; simp at h
    | exit e => rw [hn] at h; simp at h
    | out_of_fuel => rw [hn] at h; simp at h
  rw [if_neg hlp] at h
  simp at h

theorem parse_term_loop_sound_succ (fuel : Nat) (ihf : parse_factor_sound fuel)
    (ihl : parse_term_loop_sound fuel) : parse_term_loop_sound (fuel + 1) := by
  intro left s tree s1 ts0 h hok hleft
  simp only [parse_term_loop] at h
  by_cases hop : s.current_token.type = .TOKEN_MULTIPLY ∨ s.current_token.type = .TOKEN_DIVIDE
  · rw [if_pos hop] at h
    cases hn : next_token s with
    | ok s2 =>
      rw [hn] at h
      simp only at h
      cases hf : parse_factor fuel s2 with
      | ok r =>
        obtain ⟨right, s3⟩ := r
        rw [hf] at h
        simp only at h
        obtain ⟨tsr, hcr, hgr, hokr⟩ := ihf s2 right s3 hf
        have hchar : ∃ c, operator_char s.current_token.type = some c := by
          rcases hop with ho | ho <;> rw [ho] <;> exact ⟨_, rfl⟩
        obtain ⟨c, hc⟩ := hchar
        rw [hok c hc] at h
        have hnew : TermOf (ts0 ++ s.current_token :: tsr) (.binary_op c left right) :=
          TermOf.chain ts0 tsr s.current_token c left right hop hc hleft hgr
        obtain ⟨ts, hcs, hg, hok1, hne⟩ := ihl _ s3 tree s1 _ h hokr hnew
        refine ⟨s.current_token :: tsr ++ ts, ?_, ?_, hok1, hne⟩
        · exact Consumes.step s s2 s1 _ hn (hcr.append hcs)
        · simpa using hg
      | exit e => rw [hf] at h; simp at h
      | out_of_fuel => rw [hf] at h; simp at h
    | exit e => rw [hn] at h; simp at h
    | out_of_fuel => rw [hn] at h; simp at h
  · rw [if_neg hop] at h
    simp only [Outcome.ok.injEq, Prod.mk.injEq] at h
    obtain ⟨rfl, rfl⟩ := h
    refine ⟨[], Consumes.done _, by simpa using hleft, hok, ?_, ?_⟩
    · exact fun hm => hop (Or.inl hm)
    · exact fun hd => hop (Or.inr hd)

theorem parse_term_sound_succ (fuel : Nat) (ihf : parse_factor_sound fuel)
    (ihl : parse_term_loop_sound fuel) : parse_term_sound (fuel + 1) := by
  intro s tree s1 h
  simp only [parse_term] at h
  cases hf : parse_factor fuel s with
  | ok r =>
    obtain ⟨left, s2⟩ := r
    rw [hf] at h
    simp only at h
    obtain ⟨ts0, hc0, hg0, hok0⟩ := ihf s left s2 hf
    obtain ⟨ts, hcs, hg, hok1, hne⟩ := ihl left s2 tree s1 ts0 h hok0 (TermOf.factor _ _ hg0)
    exact ⟨ts0 ++ ts, hc0.append hcs, hg, hok1, hne⟩
  | exit e => rw [hf] at h; simp at h
  | out_of_fuel => rw [hf] at h; simp at h

theorem parse_expression_loop_sound_succ (fuel : Nat) (iht : parse_term_sound fuel)
    (ihl : parse_expression_loop_sound fuel) : parse_expression_loop_sound (fuel + 1) := by
  intro left s tree s1 ts0 h hok hnm hnd hleft
  simp only [parse_expression_loop] at h
  by_cases hop : s.current_token.type = .TOKEN_PLUS ∨ s.current_token.type = .TOKEN_MINUS
  · rw [if_pos hop] at h
    cases hn : next_token s with
    | ok s2 =>
      rw [hn] at h
      simp only at h
      cases hf : parse_term fuel s2 with
      | ok r =>
        obtain ⟨right, s3⟩ := r
        rw [hf] at h
        simp only at h
        obtain ⟨tsr, hcr, hgr, hokr, hnm3, hnd3⟩ := iht s2 right s3 hf
        have hchar : ∃ c, operator_char s.current_token.type = some c := by
          rcases hop with ho | ho <;> rw [ho] <;> exact ⟨_, rfl⟩
        obtain ⟨c, hc⟩ := hchar
        rw [hok c hc] at h
        have hnew : ExpressionOf (ts0 ++ s.current_token :: tsr) (.binary_op c left right) :=
          ExpressionOf.chain ts0 tsr s.current_token c left right hop hc hleft hgr
        obtain ⟨ts, hcs, hg, hok1, hend⟩ := ihl _ s3 tree s1 _ h hokr hnm3 hnd3 hnew
        refine ⟨s.current_token :: tsr ++ ts, ?_, ?_, hok1, hend⟩
        · exact Consumes.step s s2 s1 _ hn (hcr.append hcs)
        · simpa using hg
      | exit e => rw [hf] at h; simp at h
      | out_of_fuel => rw [hf] at h; simp at h
    | exit e => rw [hn] at h; simp at h
    | out_of_fuel => rw [hn] at h; simp at h
  · rw [if_neg hop] at h
    simp only [Outcome.ok.injEq, Prod.mk.injEq] at h
    obtain ⟨rfl, rfl⟩ := h
    refine ⟨[], Consumes.done _, by simpa using hleft, hok, ?_, ?_, hnm, hnd⟩
    · exact fun hp => hop (Or.inl hp)
    · exact fun hm => hop (Or.inr hm)

theorem parse_expression_sound_succ (fuel : Nat) (iht : parse_term_sound fuel)
    (ihl : parse_expression_loop_sound fuel) : parse_expression_sound (fuel + 1) := by
  intro s tree s1 h
  simp only [parse_expression] at h
  cases hf : parse_term fuel s with
  | ok r =>
    obtain ⟨left, s2⟩ := r
    rw [hf] at h
    simp only at h
    obtain ⟨ts0, hc0, hg0, hok0, hnm, hnd⟩ := iht s left s2 hf
    obtain ⟨ts, hcs, hg, hok1, hend⟩ :=
      ihl left s2 tree s1 ts0 h hok0 hnm hnd (ExpressionOf.term _ _ hg0)
    exact ⟨ts0 ++ ts, hc0.append hcs, hg, hok1, hend⟩
  | exit e => rw [hf] at h; simp at h
  | out_of_fuel => rw [hf] at h; simp at h

theorem parser_sound (fuel : Nat) :
    parse_factor_sound fuel ∧ parse_term_loop_sound fuel ∧ parse_term_sound fuel ∧
      parse_expression_loop_sound fuel ∧ parse_expression_sound fuel := by
  induction fuel with
  | zero =>
    refine ⟨?_, ?_, ?_, ?_, ?_⟩
    · intro s tree s1 h
      simp [parse_factor] at h
    · intro left s tree s1 ts0 h
      simp [parse_term_loop] at h
    · intro s tree s1 h
      simp [parse_term] at h
    · intro left s tree s1 ts0 h
      simp [parse_expression_loop] at h
    · intro s tree s1 h
      simp [parse_expression] at h
  | succ n ih =>
    obtain ⟨hf, htl, ht, hel, he⟩ := ih
    exact ⟨parse_factor_sound_succ n he, parse_term_loop_sound_succ n hf htl,
      parse_term_sound_succ n hf htl, parse_expression_loop_sound_succ n ht hel,
      parse_expression_sound_succ n ht hel⟩

/-- C4: when `parse_expression` returns a tree, the tree is the tree the
grammar `expression := term (('+'|'-') term)*`, `term := factor (('*'|'/')
factor)*` gives to the tokens consumed, with every operator chain folded to the
left and every `*`/`/` chain a single operand of the `+`/`-` chain around it;
the token the parser stops at is none of `+ - * /`, so the chain is complete. -/
theorem C4_parse_expression_grammar (fuel : Nat) (s s1 : Lexer) (tree : ASTNode)
    (h : parse_expression fuel s = .ok (tree, s1)) :
    ∃ ts, Consumes s ts s1 ∧ ExpressionOf ts tree ∧ ends_expression s1.current_token := by
  obtain ⟨ts, hc, hg, _, hend⟩ := (parser_sound fuel).2.2.2.2 s tree s1 h
  exact ⟨ts, hc, hg, hend⟩

/-- C4 at the text `a - b - c`, with `a` as current token: the tree is
`((a - b) - c)`.  Also `a / b * c` gives `((a / b) * c)`, `a + b * c` gives
`(a + (b * c))` and `a * b + c` gives `((a * b) + c)`. -/
theorem C4_parse_expression_grammar_witness :
    (∃ ts,
      Consumes ⟨"a - b - c".toList, 1, 1, ⟨.TOKEN_IDENTIFIER, ['a'], 0⟩⟩ ts
        ⟨"a - b - c".toList, 9, 1, ⟨.TOKEN_EOF, ['c'], 1⟩⟩ ∧
      ExpressionOf ts
        (.binary_op '-' (.binary_op '-' (.identifier ['a']) (.identifier ['b']))
          (.identifier ['c'])) ∧
      ends_expression (⟨.TOKEN_EOF, ['c'], 1⟩ : Token)) ∧
    parse_expression_of 10 "a - b - c".toList =
      .ok (.binary_op '-' (.binary_op '-' (.identifier ['a']) (.identifier ['b']))
        (.identifier ['c'])) ∧
    parse_expression_of 10 "a / b * c".toList =
      .ok (.binary_op '*' (.binary_op '/' (.identifier ['a']) (.identifier ['b']))
        (.identifier ['c'])) ∧
    parse_expression_of 10 "a + b * c".toList =
      .ok (.binary_op '+' (.identifier ['a'])
        (.binary_op '*' (.identifier ['b']) (.identifier ['c']))) ∧
    parse_expression_of 10 "a * b + c".toList =
      .ok (.binary_op '+' (.binary_op '*' (.identifier ['a']) (.identifier ['b']))
        (.identifier ['c'])) :=
  ⟨C4_parse_expression_grammar 10
      ⟨"a - b - c".toList, 1, 1, ⟨.TOKEN_IDENTIFIER, ['a'], 0⟩⟩
      ⟨"a - b - c".toList, 9, 1, ⟨.TOKEN_EOF, ['c'], 1⟩⟩
      (.binary_op '-' (.binary_op '-' (.identifier ['a']) (.identifier ['b']))
        (.identifier ['c']))
      (by decide!),
    by decide!, by decide!, by decide!, by decide!⟩

/-! ## Error paths next to the claims that fail -/

/-- An identifier followed by a token that is neither `=` nor `print` is the
"Invalid statement" error; the line is the lexer's line after that token was
read. -/
theorem parse_statement_invalid (fuel : Nat) (s s1 : Lexer)
    (hid : s.current_token.type = .TOKEN_IDENTIFIER) (hn : next_token s = .ok s1)
    (hassign : s1.current_token.type ≠ .TOKEN_ASSIGN)
    (hprint : s1.current_token.type ≠ .TOKEN_PRINT) :
    parse_statement fuel s = .exit (.invalid_statement s1.current_line) := by
  simp [parse_statement, parse_statement_print, hid, hn, hassign, hprint]

/-- An identifier followed by the keyword `print` is parsed as the `print`
statement that starts at the keyword. -/
theorem parse_statement_identifier_print (fuel : Nat) (s s1 : Lexer)
    (hid : s.current_token.type = .TOKEN_IDENTIFIER) (hn : next_token s = .ok s1)
    (hprint : s1.current_token.type = .TOKEN_PRINT) :
    parse_statement fuel s = parse_statement_print fuel s1 := by
  simp [parse_statement, hid, hn, hprint]

/-- Reading a name without an entry in the symbol table is the
"Undefined variable" error. -/
theorem evaluate_identifier_unmapped (vars : List Variable) (name : List Char)
    (h : find_variable vars name = false) :
    evaluate_expression vars (.identifier name) = .exit (.undefined_variable name) := by
  simp only [evaluate_expression]
  induction vars with
  | nil => rfl
  | cons v rest ih =>
    by_cases hv : v.name = name
    · simp [find_variable, hv] at h
    · simp only [find_variable, hv, if_false] at h
      simp [get_variable_value, hv, ih h]

/-- The declaration block of the driver gives every Assignment target an entry
before the statement is executed; a target that had none reads as 0. -/
theorem declare_variable_registers (st : Run) (name : List Char) (right : ASTNode)
    (h : find_variable st.vars name = false) :
    get_variable_value (declare_variable st (.assign name right)).vars name = .ok 0 := by
  obtain ⟨lexer, vars, output, printed, first_var⟩ := st
  simp only at h
  simp only [declare_variable, h, Bool.false_eq_true, if_false]
  induction vars with
  | nil => simp [get_variable_value]
  | cons v rest ih =>
    by_cases hv : v.name = name
    · simp [find_variable, hv] at h
    · simp only [find_variable, hv, if_false] at h
      simp [get_variable_value, hv, ih h]

/-! ## Shape of the reference grammar -/

/-- In the reference grammar a factor whose tree is a binary operation is a
parenthesised expression. -/
theorem FactorOf.binary_is_paren {ts : List Token} {c : Char} {l r : ASTNode}
    (h : FactorOf ts (.binary_op c l r)) :
    ∃ lp rp inner, ts = lp :: inner ++ [rp] ∧ lp.type = .TOKEN_LPAREN ∧
      rp.type = .TOKEN_RPAREN ∧ ExpressionOf inner (.binary_op c l r) := by
  cases h with
  | paren lp rp inner e hl hr he => exact ⟨lp, rp, inner, rfl, hl, hr, he⟩

/-- In the reference grammar a term whose tree is an addition or a subtraction
is a parenthesised expression: an operand of `*` or `/`, and the right operand
of `+` or `-`, is never an open `+`/`-` chain. -/
theorem TermOf.additive_is_paren {ts : List Token} {c : Char} {l r : ASTNode}
    (h : TermOf ts (.binary_op c l r)) (hc : c = '+' ∨ c = '-') :
    ∃ lp rp inner, ts = lp :: inner ++ [rp] ∧ lp.type = .TOKEN_LPAREN ∧
      rp.type = .TOKEN_RPAREN ∧ ExpressionOf inner (.binary_op c l r) := by
  cases h with
  | factor _ _ hf => exact hf.binary_is_paren
  | chain ts1 ts2 o _ _ _ ho hoc hl hr =>
    exfalso
    rcases ho with ho | ho <;> rw [ho] at hoc <;>
      simp only [operator_char, Option.some.injEq] at hoc <;> subst hoc <;>
      rcases hc with hc | hc <;> exact absurd hc (by decide)

/-! ## Code generation is independent of the interpreter state -/

theorem compile_pass2_ignores_table (fuel : Nat) :
    ∀ (lexer : Lexer) (vars vars1 : List Variable) (output : List Char)
      (printed printed1 : List Int) (first_var first_var1 : Bool),
      (compile_pass2 fuel ⟨lexer, vars, output, printed, first_var⟩).map Run.output =
        (compile_pass2 fuel ⟨lexer, vars1, output, printed1, first_var1⟩).map Run.output := by
  induction fuel with
  | zero => intros; rfl
  | succ n ih =>
    intro lexer vars vars1 output printed printed1 first_var first_var1
    simp only [compile_pass2]
    by_cases heof : lexer.current_token.type = .TOKEN_EOF
    · simp [heof, Outcome.map]
    · by_cases hnl : lexer.current_token.type = .TOKEN_NEWLINE
      · simp only [heof, hnl, if_false, if_true]
        cases next_token lexer with
        | ok l => exact ih l vars vars1 output printed printed1 first_var first_var1
        | exit e => rfl
        | out_of_fuel => rfl
      · simp only [heof, hnl, if_false]
        cases parse_statement n lexer with
        | ok r =>
          obtain ⟨stmt, l1⟩ := r
          simp only
          cases skip_semicolon l1 with
          | ok l2 => exact ih l2 vars vars1 _ printed printed1 first_var first_var1
          | exit e => rfl
          | out_of_fuel => rfl
        | exit e => rfl
        | out_of_fuel => rfl

/-- C8: for every expression tree, `generate_expression` appends to the output
exactly the reference rendering: the text of a literal or identifier, and
`(left OP right)` for a binary operation.  The function receives the tree and
the output only; it evaluates nothing and reads no symbol table, and the text
the second loop of `compile` writes is the same for every symbol table. -/
theorem C8_generate_expression_renders (node : ASTNode) (output : List Char)
    (h : is_expression node = true) :
    generate_expression node output = output ++ render node ∧
    ∀ (fuel : Nat) (lexer : Lexer) (vars vars1 : List Variable) (out : List Char)
      (printed printed1 : List Int) (first_var first_var1 : Bool),
      (compile_pass2 fuel ⟨lexer, vars, out, printed, first_var⟩).map Run.output =
        (compile_pass2 fuel ⟨lexer, vars1, out, printed1, first_var1⟩).map Run.output :=
  ⟨generate_expression_eq node h output, fun fuel => compile_pass2_ignores_table fuel⟩

/-- C8 at the statement parsed from `x = (2 + 3) * 4`: its expression renders
as `((2 + 3) * 4)`. -/
theorem C8_generate_expression_renders_witness :
    (match next_token (initial_lexer "x = (2 + 3) * 4".toList) with
      | .ok s => (parse_statement 8 s).map Prod.fst
      | .exit e => .exit e
      | .out_of_fuel => .out_of_fuel) =
      .ok (.assign ['x']
        (.binary_op '*' (.binary_op '+' (.number ['2']) (.number ['3'])) (.number ['4']))) ∧
    generate_expression
        (.binary_op '*' (.binary_op '+' (.number ['2']) (.number ['3'])) (.number ['4'])) [] =
      [] ++ "((2 + 3) * 4)".toList :=
  ⟨by decide!,
    (C8_generate_expression_renders
      (.binary_op '*' (.binary_op '+' (.number ['2']) (.number ['3'])) (.number ['4'])) []
      (by decide!)).1.trans (by decide!)⟩

/-! ## Lexer: the branches of `next_token` -/

theorem next_token_eq (s : Lexer) :
    next_token s =
      if next_char s = NUL then
        .ok ⟨s.source_code, skip_blanks s.source_code s.current_pos, s.current_line,
          ⟨.TOKEN_EOF, s.current_token.value, s.current_token.line⟩⟩
      else if next_char s = '\n' then
        .ok ⟨s.source_code, skip_blanks s.source_code s.current_pos + 1, s.current_line + 1,
          ⟨.TOKEN_NEWLINE, s.current_token.value, s.current_token.line⟩⟩
      else if isdigit (next_char s) = true then
        .ok ⟨s.source_code,
          skip_blanks s.source_code s.current_pos +
            (scan_run isdigit s.source_code
              (skip_blanks s.source_code s.current_pos)).length,
          s.current_line,
          ⟨.TOKEN_NUMBER,
            scan_run isdigit s.source_code (skip_blanks s.source_code s.current_pos),
            s.current_token.line⟩⟩
      else if isalpha (next_char s) = true then
        .ok ⟨s.source_code,
          skip_blanks s.source_code s.current_pos +
            (scan_run is_ident_char s.source_code
              (skip_blanks s.source_code s.current_pos)).length,
          s.current_line,
          ⟨if scan_run is_ident_char s.source_code
                (skip_blanks s.source_code s.current_pos) = "print".toList
            then .TOKEN_PRINT else .TOKEN_IDENTIFIER,
            scan_run is_ident_char s.source_code (skip_blanks s.source_code s.current_pos),
            s.current_token.line⟩⟩
      else
        match switch_token_type (next_char s) with
        | some t =>
          .ok (single_char_token s.source_code
            (skip_blanks s.source_code s.current_pos) s.current_line t (next_char s))
        | none => .exit (.unknown_character (next_char s) s.current_line) := by
  obtain ⟨src, pos, line, ⟨ty, val, tl⟩⟩ := s
  unfold next_token next_char
  simp only []
  generalize char_at src (skip_blanks src pos) = ch
  by_cases h1 : ch = NUL
  · rw [if_pos h1, if_pos h1]
  rw [if_neg h1, if_neg h1]
  by_cases h2 : ch = '\n'
  · rw [if_pos h2, if_pos h2]
  rw [if_neg h2, if_neg h2]
  by_cases h3 : isdigit ch = true
  · rw [if_pos h3, if_pos h3]
  rw [if_neg h3, if_neg h3]
  by_cases h4 : isalpha ch = true
  · rw [if_pos h4, if_pos h4]
  rw [if_neg h4, if_neg h4]
  unfold switch_token_type
  by_cases h5 : ch = '='
  · rw [if_pos h5, if_pos h5]
  rw [if_neg h5, if_neg h5]
  by_cases h6 : ch = '+'
  · rw [if_pos h6, if_pos h6]
  rw [if_neg h6, if_neg h6]
  by_cases h7 : ch = '-'
  · rw [if_pos h7, if_pos h7]
  rw [if_neg h7, if_neg h7]
  by_cases h8 : ch = '*'
  · rw [if_pos h8, if_pos h8]
  rw [if_neg h8, if_neg h8]
  by_cases h9 : ch = '/'
  · rw [if_pos h9, if_pos h9]
  rw [if_neg h9, if_neg h9]
  by_cases h10 : ch = '('
  · rw [if_pos h10, if_pos h10]
  rw [if_neg h10, if_neg h10]
  by_cases h11 : ch = ')'
  · rw [if_pos h11, if_pos h11]
  rw [if_neg h11, if_neg h11]
  by_cases h12 : ch = ';'
  · rw [if_pos h12, if_pos h12]
  rw [if_neg h12, if_neg h12]

theorem switch_token_type_none (c : Char) :
    switch_token_type c = none ↔ is_single_char_token c = false := by
  unfold switch_token_type is_single_char_token
  by_cases h5 : c = '='
  · simp [h5]
  by_cases h6 : c = '+'
  · simp [h6]
  by_cases h7 : c = '-'
  · simp [h7]
  by_cases h8 : c = '*'
  · simp [h8]
  by_cases h9 : c = '/'
  · simp [h9]
  by_cases h10 : c = '('
  · simp [h10]
  by_cases h11 : c = ')'
  · simp [h11]
  by_cases h12 : c = ';'
  · simp [h12]
  simp [h5, h6, h7, h8, h9, h10, h11, h12]

theorem next_token_exit_iff (s : Lexer) (e : Fatal) :
    next_token s = .exit e ↔
      is_unknown_character (next_char s) = true ∧
        e = .unknown_character (next_char s) s.current_line := by
  rw [next_token_eq]
  unfold is_unknown_character
  by_cases h1 : next_char s = NUL
  · rw [if_pos h1]
    simp [h1]
  rw [if_neg h1]
  by_cases h2 : next_char s = '\n'
  · rw [if_pos h2]
    simp [h2]
  rw [if_neg h2]
  by_cases h3 : isdigit (next_char s) = true
  · rw [if_pos h3]
    simp [h3]
  rw [if_neg h3]
  by_cases h4 : isalpha (next_char s) = true
  · rw [if_pos h4]
    simp [h4]
  rw [if_neg h4]
  cases hs : switch_token_type (next_char s) with
  | none =>
    have := (switch_token_type_none _).1 hs
    simp only [Outcome.exit.injEq]
    simp [h1, h2, h3, h4, this, eq_comm]
  | some t =>
    have hne : ¬ is_single_char_token (next_char s) = false := fun hf =>
      by rw [(switch_token_type_none _).2 hf] at hs; exact absurd hs (by simp)
    simp [hne]

theorem next_token_ok_iff (s : Lexer) :
    (∃ s1, next_token s = .ok s1) ↔ is_unknown_character (next_char s) = false := by
  constructor
  · rintro ⟨s1, h⟩
    cases hu : is_unknown_character (next_char s) with
    | false => rfl
    | true =>
      have := (next_token_exit_iff s _).2 ⟨hu, rfl⟩
      rw [h] at this
      exact absurd this (by simp)
  · intro hu
    cases h : next_token s with
    | ok s1 => exact ⟨s1, rfl⟩
    | exit e =>
      have := ((next_token_exit_iff s e).1 h).1
      rw [hu] at this
      exact absurd this (by simp)
    | out_of_fuel =>
      rw [next_token_eq] at h
      split_ifs at h
      split at h <;> simp at h

/-- C11: with `c` the first character after the blanks at the cursor,
`next_token` stops with the unknown-character error, for `c` and the current
line, exactly when `c` is not the NUL at the end of the buffer, not a newline,
not an ASCII digit, not an ASCII letter and not one of `= + - * / ( ) ;`; it
stops with no other error, and in every other case it returns a token. -/
theorem C11_unknown_character (s : Lexer) :
    (next_token s = .exit (.unknown_character (next_char s) s.current_line) ↔
      is_unknown_character (next_char s) = true) ∧
    (∀ e, next_token s = .exit e →
      e = .unknown_character (next_char s) s.current_line) ∧
    ((∃ s1, next_token s = .ok s1) ↔ is_unknown_character (next_char s) = false) ∧
    (is_unknown_character (next_char s) = true ↔
      next_char s ≠ NUL ∧ next_char s ≠ '\n' ∧ isdigit (next_char s) = false ∧
        isalpha (next_char s) = false ∧ next_char s ≠ '=' ∧ next_char s ≠ '+' ∧
        next_char s ≠ '-' ∧ next_char s ≠ '*' ∧ next_char s ≠ '/' ∧ next_char s ≠ '(' ∧
        next_char s ≠ ')' ∧ next_char s ≠ ';') := by
  refine ⟨?_, ?_, next_token_ok_iff s, ?_⟩
  · rw [next_token_exit_iff]
    simp
  · intro e h
    exact ((next_token_exit_iff s e).1 h).2
  · simp [is_unknown_character, is_single_char_token]

/-- C11 at the buffer `  _x`: the leading underscore is rejected, and so are a
carriage return, `.`, `#` and `%`; a letter, a digit, `;`, a newline and the
end of the buffer give a token. -/
theorem C11_unknown_character_witness :
    next_token (initial_lexer "  _x".toList) = .exit (.unknown_character '_' 1) ∧
    next_token (initial_lexer "\r".toList) = .exit (.unknown_character '\r' 1) ∧
    next_token (initial_lexer ".5".toList) = .exit (.unknown_character '.' 1) ∧
    next_token (initial_lexer "#".toList) = .exit (.unknown_character '#' 1) ∧
    next_token (initial_lexer "%".toList) = .exit (.unknown_character '%' 1) ∧
    (next_token (initial_lexer "x_".toList)).map (fun s => s.current_token.type) =
      .ok .TOKEN_IDENTIFIER ∧
    (next_token (initial_lexer " \t;".toList)).map (fun s => s.current_token.type) =
      .ok .TOKEN_SEMICOLON ∧
    (next_token (initial_lexer "\n".toList)).map (fun s => s.current_token.type) =
      .ok .TOKEN_NEWLINE ∧
    (next_token (initial_lexer "  ".toList)).map (fun s => s.current_token.type) =
      .ok .TOKEN_EOF :=
  ⟨(C11_unknown_character (initial_lexer "  _x".toList)).1.2 (by decide!),
    by decide!, by decide!, by decide!, by decide!, by decide!, by decide!, by decide!,
    by decide!⟩

/-! ## Parser: tokens that start no factor -/

theorem get_set_other (vars : List Variable) (n m : List Char) (v : Int) (h : m ≠ n) :
    get_variable_value (set_variable_value vars n v) m = get_variable_value vars m := by
  induction vars with
  | nil =>
    have h2 : ¬ n = m := fun e => h e.symm
    simp [set_variable_value, get_variable_value, h2]
  | cons x rest ih =>
    have hnm : ¬ n = m := fun e => h e.symm
    by_cases hx : x.name = n
    · simp [set_variable_value, get_variable_value, hx, hnm]
    · by_cases hxm : x.name = m
      · simp [set_variable_value, get_variable_value, hx, hxm, h]
      · simp [set_variable_value, get_variable_value, hx, hxm, ih]

theorem set_names_of_not_find (vars : List Variable) (n : List Char) (v : Int)
    (h : find_variable vars n = false) :
    (set_variable_value vars n v).map Variable.name = vars.map Variable.name ++ [n] := by
  induction vars with
  | nil => simp [set_variable_value]
  | cons x rest ih =>
    by_cases hx : x.name = n
    · simp [find_variable, hx] at h
    · simp only [find_variable, hx, if_false] at h
      simp [set_variable_value, hx, ih h]

/-- C13: in a symbol table with pairwise distinct names and fewer than 100
entries, `set_variable_value(n, v)` leaves the result of
`get_variable_value(m)` as it was for every name `m` other than `n`, value or
undefined-variable error alike; when `n` had an entry the sequence of names is
unchanged, and when it had none the new sequence is the old one with `n` at
the end. -/
theorem C13_set_variable_frame (vars : List Variable) (n : List Char) (v : Int)
    (_hdistinct : (vars.map Variable.name).Nodup) (_hroom : vars.length < MAX_VARIABLES) :
    (∀ m, m ≠ n →
      get_variable_value (set_variable_value vars n v) m = get_variable_value vars m) ∧
    (find_variable vars n = true →
      (set_variable_value vars n v).map Variable.name = vars.map Variable.name) ∧
    (find_variable vars n = false →
      (set_variable_value vars n v).map Variable.name = vars.map Variable.name ++ [n]) :=
  ⟨fun m hm => get_set_other vars n m v hm, set_names_of_find vars n v,
    set_names_of_not_find vars n v⟩

/-- C13 at the table `[a = 1, b = 2]`: writing `b` keeps the names and the
value of `a`, writing `c` puts `c` at the end, and `d` is undefined before and
after. -/
theorem C13_set_variable_frame_witness :
    ((∀ m, m ≠ ['b'] →
      get_variable_value (set_variable_value [⟨['a'], 1⟩, ⟨['b'], 2⟩] ['b'] 7) m =
        get_variable_value [⟨['a'], 1⟩, ⟨['b'], 2⟩] m) ∧
    (find_variable [⟨['a'], 1⟩, ⟨['b'], 2⟩] ['b'] = true →
      (set_variable_value [⟨['a'], 1⟩, ⟨['b'], 2⟩] ['b'] 7).map Variable.name =
        ([⟨['a'], 1⟩, ⟨['b'], 2⟩] : List Variable).map Variable.name) ∧
    (find_variable [⟨['a'], 1⟩, ⟨['b'], 2⟩] ['b'] = false →
      (set_variable_value [⟨['a'], 1⟩, ⟨['b'], 2⟩] ['b'] 7).map Variable.name =
        ([⟨['a'], 1⟩, ⟨['b'], 2⟩] : List Variable).map Variable.name ++ [['b']])) ∧
    set_variable_value [⟨['a'], 1⟩, ⟨['b'], 2⟩] ['b'] 7 = [⟨['a'], 1⟩, ⟨['b'], 7⟩] ∧
    set_variable_value [⟨['a'], 1⟩, ⟨['b'], 2⟩] ['c'] 7 =
      [⟨['a'], 1⟩, ⟨['b'], 2⟩, ⟨['c'], 7⟩] ∧
    get_variable_value (set_variable_value [⟨['a'], 1⟩, ⟨['b'], 2⟩] ['c'] 7) ['d'] =
      .exit (.undefined_variable ['d']) :=
  ⟨C13_set_variable_frame [⟨['a'], 1⟩, ⟨['b'], 2⟩] ['b'] 7 (by decide) (by decide),
    by decide!, by decide!, by decide!⟩

/-! ## Parser: parenthesised factors -/

/-- C17: with `(` as current token and the next token lexed, `parse_factor`
succeeds exactly when `parse_expression` succeeds on what follows the `(`, the
token it stops at is `)`, and the lexer call that consumes the `)` returns;
the result is the tree of the inner expression, unchanged.  When the inner
expression is followed by another token the outcome is the "Expected ')'"
error, and an error of the inner expression is the error of the factor. -/
theorem C17_parenthesised_factor (fuel : Nat) (s s1 : Lexer)
    (hlp : s.current_token.type = .TOKEN_LPAREN) (hn : next_token s = .ok s1) :
    (∀ tree s3, parse_factor (fuel + 1) s = .ok (tree, s3) ↔
      ∃ s2, parse_expression fuel s1 = .ok (tree, s2) ∧
        s2.current_token.type = .TOKEN_RPAREN ∧ next_token s2 = .ok s3) ∧
    (∀ tree s2, parse_expression fuel s1 = .ok (tree, s2) →
      s2.current_token.type ≠ .TOKEN_RPAREN →
      parse_factor (fuel + 1) s = .exit (.expected_rparen s2.current_line)) ∧
    (∀ e, parse_expression fuel s1 = .exit e → parse_factor (fuel + 1) s = .exit e) := by
  have hnum : s.current_token.type ≠ .TOKEN_NUMBER := by rw [hlp]; decide
  have hid : s.current_token.type ≠ .TOKEN_IDENTIFIER := by rw [hlp]; decide
  refine ⟨?_, ?_, ?_⟩
  · intro tree s3
    simp only [parse_factor, hnum, hid, if_false]
    simp only [hlp, if_true, hn]
    cases he : parse_expression fuel s1 with
    | ok r =>
      obtain ⟨node, s2⟩ := r
      simp only
      by_cases hrp : s2.current_token.type = .TOKEN_RPAREN
      · simp only [hrp, ne_eq, not_true_eq_false, if_false]
        cases hn3 : next_token s2 with
        | ok s4 =>
          simp only [Outcome.ok.injEq, Prod.mk.injEq]
          constructor
          · rintro ⟨rfl, rfl⟩
            exact ⟨s2, ⟨rfl, rfl⟩, hrp, hn3⟩
          · rintro ⟨s2a, ⟨rfl, rfl⟩, _, h3⟩
            rw [hn3] at h3
            simp only [Outcome.ok.injEq] at h3
            exact ⟨rfl, h3⟩
        | exit e =>
          simp only [Outcome.ok.injEq, Prod.mk.injEq]
          constructor
          · intro h
            exact absurd h (by simp)
          · rintro ⟨s2a, ⟨_, rfl⟩, _, h3⟩
            rw [hn3] at h3
            exact absurd h3 (by simp)
        | out_of_fuel =>
          simp only [Outcome.ok.injEq, Prod.mk.injEq]
          constructor
          · intro h
            exact absurd h (by simp)
          · rintro ⟨s2a, ⟨_, rfl⟩, _, h3⟩
            rw [hn3] at h3
            exact absurd h3 (by simp)
      · simp only [hrp, ne_eq, not_false_eq_true, if_true, Outcome.ok.injEq, Prod.mk.injEq]
        constructor
        · intro h
          exact absurd h (by simp)
        · rintro ⟨s2a, ⟨_, rfl⟩, h2, _⟩
          exact absurd h2 hrp
    | exit e => simp
    | out_of_fuel => simp
  · intro tree s2 he hrp
    simp only [parse_factor, hnum, hid, if_false]
    simp [hlp, hn, he, hrp]
  · intro e he
    simp only [parse_factor, hnum, hid, if_false]
    simp [hlp, hn, he]

/-- C17 at the text `(2)`: the factor is the tree of `2`.  The texts
`((2)) + 3` and `2 + 3` parse to the same tree, and `(2 3` is the
"Expected ')'" error. -/
theorem C17_parenthesised_factor_witness :
    (∀ tree s3,
      parse_factor 4 ⟨"(2)".toList, 1, 1, ⟨.TOKEN_LPAREN, ['('], 1⟩⟩ = .ok (tree, s3) ↔
      ∃ s2, parse_expression 3 ⟨"(2)".toList, 2, 1, ⟨.TOKEN_NUMBER, ['2'], 1⟩⟩ =
          .ok (tree, s2) ∧
        s2.current_token.type = .TOKEN_RPAREN ∧ next_token s2 = .ok s3) ∧
    parse_factor 4 ⟨"(2)".toList, 1, 1, ⟨.TOKEN_LPAREN, ['('], 1⟩⟩ =
      .ok (.number ['2'], ⟨"(2)".toList, 3, 1, ⟨.TOKEN_EOF, [')'], 1⟩⟩) ∧
    parse_expression_of 12 "((2)) + 3".toList =
      .ok (.binary_op '+' (.number ['2']) (.number ['3'])) ∧
    parse_expression_of 12 "2 + 3".toList =
      .ok (.binary_op '+' (.number ['2']) (.number ['3'])) ∧
    parse_expression_of 12 "(2 3".toList = .exit (.expected_rparen 1) :=
  ⟨(C17_parenthesised_factor 3 ⟨"(2)".toList, 1, 1, ⟨.TOKEN_LPAREN, ['('], 1⟩⟩
      ⟨"(2)".toList, 2, 1, ⟨.TOKEN_NUMBER, ['2'], 1⟩⟩ (by decide) (by decide!)).1,
    by decide!, by decide!, by decide!, by decide!⟩

/-! ## Diagnostics: the line that is reported -/

/-- C14 fails on the code when the offending token is a Newline.  In
`x = (1 + 2` followed by a newline, the token found in place of `)` is the
Newline lexed at offset 10, a character of line 1; lexing it has already
incremented `current_line`, and the diagnostic is "Expected ')' at line 2".
The same happens for the "Unexpected token" and "Invalid statement"
diagnostics.  When the offending token is on the line of the tokens before it
the line reported is its own. -/
theorem C14_newline_reported_on_next_line :
    compile 20 "x = (1 + 2\n".toList = .exit (.expected_rparen 2) ∧
    next_token ⟨"x = (1 + 2\n".toList, 10, 1, ⟨.TOKEN_NUMBER, ['2'], 1⟩⟩ =
      .ok ⟨"x = (1 + 2\n".toList, 11, 2, ⟨.TOKEN_NEWLINE, ['2'], 1⟩⟩ ∧
    char_at "x = (1 + 2\n".toList 10 = '\n' ∧
    line_of_offset "x = (1 + 2\n".toList 10 = 1 ∧
    compile 20 "x = 1 +\n2".toList = .exit (.unexpected_token 2) ∧
    line_of_offset "x = 1 +\n2".toList 7 = 1 ∧
    compile 20 "x\n= 5".toList = .exit (.invalid_statement 2) ∧
    line_of_offset "x\n= 5".toList 1 = 1 ∧
    compile 20 "x = (1 + 2 3".toList = .exit (.expected_rparen 1) ∧
    compile 20 "x = 1\ny = #".toList = .exit (.unknown_character '#' 2) := by
  refine ⟨?_, ?_, ?_, ?_, ?_, ?_, ?_, ?_, ?_, ?_⟩ <;> decide!

/-! ## Symbol table: no capacity check -/

/-- A write of a name without an entry makes the table one entry longer, at
every length: `set_variable_value` compares nothing with the 100 slots. -/
theorem set_length_of_not_find (vars : List Variable) (n : List Char) (v : Int)
    (h : find_variable vars n = false) :
    (set_variable_value vars n v).length = vars.length + 1 := by
  induction vars with
  | nil => simp [set_variable_value]
  | cons x rest ih =>
    by_cases hx : x.name = n
    · simp [find_variable, hx] at h
    · simp only [find_variable, hx, if_false] at h
      simp [set_variable_value, hx, ih h]

/-- The declaration block of the driver stores a new name in slot `var_count`
at every length of the table. -/
theorem declare_variable_length (st : Run) (name : List Char) (right : ASTNode)
    (h : find_variable st.vars name = false) :
    (declare_variable st (.assign name right)).vars.length = st.vars.length + 1 := by
  obtain ⟨lexer, vars, output, printed, first_var⟩ := st
  simp only at h
  simp [declare_variable, h]

/-! ## The parser and the driver as sequences of steps -/

theorem parse_factor_succ (fuel : Nat) (s : Lexer) :
    parse_factor (fuel + 1) s =
      if s.current_token.type = .TOKEN_NUMBER then
        (next_token s).bind (fun s1 => .ok (.number s.current_token.value, s1))
      else if s.current_token.type = .TOKEN_IDENTIFIER then
        (next_token s).bind (fun s1 => .ok (.identifier s.current_token.value, s1))
      else if s.current_token.type = .TOKEN_LPAREN then
        (next_token s).bind (fun s1 =>
          (parse_expression fuel s1).bind (fun r =>
            if r.2.current_token.type ≠ .TOKEN_RPAREN then
              .exit (.expected_rparen r.2.current_line)
            else (next_token r.2).bind (fun s3 => .ok (r.1, s3))))
      else .exit (.unexpected_token s.current_line) := by
  simp only [parse_factor]
  split_ifs
  · cases next_token s <;> rfl
  · cases next_token s <;> rfl
  · cases next_token s with
    | ok s1 =>
      simp only [Outcome.bind]
      cases parse_expression fuel s1 with
      | ok r =>
        obtain ⟨node, s2⟩ := r
        simp only
        split_ifs
        · rfl
        · cases next_token s2 <;> rfl
      | exit e => rfl
      | out_of_fuel => rfl
    | exit e => rfl
    | out_of_fuel => rfl
  · rfl

theorem parse_term_loop_succ (fuel : Nat) (left : ASTNode) (s : Lexer) :
    parse_term_loop (fuel + 1) left s =
      if s.current_token.type = .TOKEN_MULTIPLY ∨ s.current_token.type = .TOKEN_DIVIDE then
        (next_token s).bind (fun s1 =>
          (parse_factor fuel s1).bind (fun r =>
            parse_term_loop fuel
              (.binary_op (s.current_token.value.getD 0 NUL) left r.1) r.2))
      else .ok (left, s) := by
  simp only [parse_term_loop]
  split_ifs
  · cases next_token s with
    | ok s1 =>
      simp only [Outcome.bind]
      cases parse_factor fuel s1 with
      | ok r => rfl
      | exit e => rfl
      | out_of_fuel => rfl
    | exit e => rfl
    | out_of_fuel => rfl
  · rfl

theorem parse_term_succ (fuel : Nat) (s : Lexer) :
    parse_term (fuel + 1) s =
      (parse_factor fuel s).bind (fun r => parse_term_loop fuel r.1 r.2) := by
  simp only [parse_term]
  cases parse_factor fuel s <;> rfl

theorem parse_expression_loop_succ (fuel : Nat) (left : ASTNode) (s : Lexer) :
    parse_expression_loop (fuel + 1) left s =
      if s.current_token.type = .TOKEN_PLUS ∨ s.current_token.type = .TOKEN_MINUS then
        (next_token s).bind (fun s1 =>
          (parse_term fuel s1).bind (fun r =>
            parse_expression_loop fuel
              (.binary_op (s.current_token.value.getD 0 NUL) left r.1) r.2))
      else .ok (left, s) := by
  simp only [parse_expression_loop]
  split_ifs
  · cases next_token s with
    | ok s1 =>
      simp only [Outcome.bind]
      cases parse_term fuel s1 with
      | ok r => rfl
      | exit e => rfl
      | out_of_fuel => rfl
    | exit e => rfl
    | out_of_fuel => rfl
  · rfl

theorem parse_expression_succ (fuel : Nat) (s : Lexer) :
    parse_expression (fuel + 1) s =
      (parse_term fuel s).bind (fun r => parse_expression_loop fuel r.1 r.2) := by
  simp only [parse_expression]
  cases parse_term fuel s <;> rfl

theorem parse_statement_print_eq (fuel : Nat) (s : Lexer) :
    parse_statement_print fuel s =
      if s.current_token.type = .TOKEN_PRINT then
        (next_token s).bind (fun s1 =>
          (parse_expression fuel s1).bind (fun r => .ok (.print r.1, r.2)))
      else .exit (.invalid_statement s.current_line) := by
  simp only [parse_statement_print]
  split_ifs
  · cases next_token s with
    | ok s1 =>
      simp only [Outcome.bind]
      cases parse_expression fuel s1 <;> rfl
    | exit e => rfl
    | out_of_fuel => rfl
  · rfl

theorem parse_statement_eq (fuel : Nat) (s : Lexer) :
    parse_statement fuel s =
      if s.current_token.type = .TOKEN_IDENTIFIER then
        (next_token s).bind (fun s1 =>
          if s1.current_token.type = .TOKEN_ASSIGN then
            (next_token s1).bind (fun s2 =>
              (parse_expression fuel s2).bind (fun r =>
                .ok (.assign s.current_token.value r.1, r.2)))
          else parse_statement_print fuel s1)
      else parse_statement_print fuel s := by
  simp only [parse_statement]
  split_ifs
  · cases next_token s with
    | ok s1 =>
      simp only [Outcome.bind]
      split_ifs
      · cases next_token s1 with
        | ok s2 =>
          simp only
          cases parse_expression fuel s2 <;> rfl
        | exit e => rfl
        | out_of_fuel => rfl
      · rfl
    | exit e => rfl
    | out_of_fuel => rfl
  · rfl

theorem parse_program_succ (fuel : Nat) (s : Lexer) :
    parse_program (fuel + 1) s =
      if s.current_token.type = .TOKEN_EOF then .ok []
      else if s.current_token.type = .TOKEN_NEWLINE then
        (next_token s).bind (fun l => parse_program fuel l)
      else
        (parse_statement fuel s).bind (fun r =>
          (skip_semicolon r.2).bind (fun l2 =>
            (parse_program fuel l2).bind (fun rest => .ok (r.1 :: rest)))) := by
  simp only [parse_program]
  split_ifs
  · rfl
  · cases next_token s <;> rfl
  · cases parse_statement fuel s with
    | ok r =>
      obtain ⟨stmt, l1⟩ := r
      simp only [Outcome.bind]
      cases skip_semicolon l1 with
      | ok l2 =>
        simp only
        cases parse_program fuel l2 <;> rfl
      | exit e => rfl
      | out_of_fuel => rfl
    | exit e => rfl
    | out_of_fuel => rfl

theorem compile_pass1_succ (fuel : Nat) (st : Run) :
    compile_pass1 (fuel + 1) st =
      if st.lexer.current_token.type = .TOKEN_EOF then .ok st
      else if st.lexer.current_token.type = .TOKEN_NEWLINE then
        (next_token st.lexer).bind (fun l =>
          compile_pass1 fuel ⟨l, st.vars, st.output, st.printed, st.first_var⟩)
      else
        (parse_statement fuel st.lexer).bind (fun r =>
          (skip_semicolon r.2).bind (fun l2 =>
            (execute_statement
                (declare_variable ⟨r.2, st.vars, st.output, st.printed, st.first_var⟩ r.1).vars
                (declare_variable ⟨r.2, st.vars, st.output, st.printed, st.first_var⟩
                  r.1).printed r.1).bind (fun x =>
              compile_pass1 fuel
                ⟨l2, x.1,
                  (declare_variable ⟨r.2, st.vars, st.output, st.printed, st.first_var⟩
                    r.1).output,
                  x.2,
                  (declare_variable ⟨r.2, st.vars, st.output, st.printed, st.first_var⟩
                    r.1).first_var⟩))) := by
  obtain ⟨lexer, vars, output, printed, first_var⟩ := st
  simp only [compile_pass1]
  split_ifs
  · rfl
  · cases next_token lexer <;> rfl
  · cases parse_statement fuel lexer with
    | ok r =>
      obtain ⟨stmt, l1⟩ := r
      simp only [Outcome.bind]
      cases hd : declare_variable ⟨l1, vars, output, printed, first_var⟩ stmt with
      | mk lexer1 vars1 output1 printed1 first_var1 =>
        simp only
        cases skip_semicolon l1 with
        | ok l2 =>
          simp only
          cases execute_statement vars1 printed1 stmt with
          | ok x => rfl
          | exit e => rfl
          | out_of_fuel => rfl
        | exit e => rfl
        | out_of_fuel => rfl
    | exit e => rfl
    | out_of_fuel => rfl

theorem compile_pass2_succ (fuel : Nat) (st : Run) :
    compile_pass2 (fuel + 1) st =
      if st.lexer.current_token.type = .TOKEN_EOF then .ok st
      else if st.lexer.current_token.type = .TOKEN_NEWLINE then
        (next_token st.lexer).bind (fun l =>
          compile_pass2 fuel ⟨l, st.vars, st.output, st.printed, st.first_var⟩)
      else
        (parse_statement fuel st.lexer).bind (fun r =>
          (skip_semicolon r.2).bind (fun l2 =>
            compile_pass2 fuel
              ⟨l2, st.vars, generate_statement r.1 st.output, st.printed, st.first_var⟩)) := by
  obtain ⟨lexer, vars, output, printed, first_var⟩ := st
  simp only [compile_pass2]
  split_ifs
  · rfl
  · cases next_token lexer <;> rfl
  · cases parse_statement fuel lexer with
    | ok r =>
      obtain ⟨stmt, l1⟩ := r
      simp only [Outcome.bind]
      cases skip_semicolon l1 <;> rfl
    | exit e => rfl
    | out_of_fuel => rfl

theorem compile_interpret_eq (fuel : Nat) (src : List Char) :
    compile_interpret fuel src =
      (next_token (initial_lexer src)).bind (fun l0 =>
        (compile_pass1 fuel ⟨l0, [], output_header, [], true⟩).bind (fun st =>
          .ok ⟨st.lexer, st.vars, st.output ++ ";\n\n".toList, st.printed, st.first_var⟩)) := by
  unfold compile_interpret
  cases next_token (initial_lexer src) with
  | ok l0 =>
    simp only [Outcome.bind]
    cases compile_pass1 fuel ⟨l0, [], output_header, [], true⟩ with
    | ok st => rfl
    | exit e => rfl
    | out_of_fuel => rfl
  | exit e => rfl
  | out_of_fuel => rfl

theorem compile_eq (fuel : Nat) (src : List Char) :
    compile fuel src =
      (compile_interpret fuel src).bind (fun st1 =>
        (next_token (reset st1.lexer)).bind (fun l =>
          (compile_pass2 fuel ⟨l, st1.vars, st1.output, st1.printed, st1.first_var⟩).bind
            (fun st2 =>
              .ok ⟨st2.lexer, st2.vars, st2.output ++ "    return 0;\n\x7d\n".toList,
                st2.printed, st2.first_var⟩))) := by
  unfold compile
  cases compile_interpret fuel src with
  | ok st1 =>
    obtain ⟨lexer, vars, output, printed, first_var⟩ := st1
    simp only [Outcome.bind]
    cases next_token (reset lexer) with
    | ok l =>
      simp only
      cases compile_pass2 fuel ⟨l, vars, output, printed, first_var⟩ with
      | ok st2 => rfl
      | exit e => rfl
      | out_of_fuel => rfl
    | exit e => rfl
    | out_of_fuel => rfl
  | exit e => rfl
  | out_of_fuel => rfl

/-! ## A larger recursion budget never changes a result -/

theorem Outcome.extends_refl {α : Type} (o : Outcome α) : o.extends o := Or.inr rfl

theorem Outcome.extends_bind {α β : Type} {o1 o2 : Outcome α} {f g : α → Outcome β}
    (h : o1.extends o2) (hf : ∀ a, (f a).extends (g a)) :
    (o1.bind f).extends (o2.bind g) := by
  rcases h with rfl | rfl
  · exact Or.inl rfl
  · cases o1 with
    | ok a => exact hf a
    | exit e => exact Or.inr rfl
    | out_of_fuel => exact Or.inl rfl

theorem Outcome.extends_ite {α : Type} {c : Prop} [Decidable c] {a b a1 b1 : Outcome α}
    (h1 : a.extends b) (h2 : a1.extends b1) :
    (if c then a else a1).extends (if c then b else b1) := by
  split_ifs
  · exact h1
  · exact h2

theorem Outcome.extends_trans {α : Type} {o1 o2 o3 : Outcome α}
    (h1 : o1.extends o2) (h2 : o2.extends o3) : o1.extends o3 := by
  rcases h1 with rfl | rfl
  · exact Or.inl rfl
  · exact h2

theorem parser_extends (fuel : Nat) :
    (∀ s, (parse_factor fuel s).extends (parse_factor (fuel + 1) s)) ∧
    (∀ left s, (parse_term_loop fuel left s).extends (parse_term_loop (fuel + 1) left s)) ∧
    (∀ s, (parse_term fuel s).extends (parse_term (fuel + 1) s)) ∧
    (∀ left s,
      (parse_expression_loop fuel left s).extends (parse_expression_loop (fuel + 1) left s)) ∧
    (∀ s, (parse_expression fuel s).extends (parse_expression (fuel + 1) s)) := by
  induction fuel with
  | zero =>
    refine ⟨?_, ?_, ?_, ?_, ?_⟩ <;> intros <;> exact Or.inl (by simp [parse_factor,
      parse_term_loop, parse_term, parse_expression_loop, parse_expression])
  | succ n ih =>
    obtain ⟨hf, htl, ht, hel, he⟩ := ih
    refine ⟨?_, ?_, ?_, ?_, ?_⟩
    · intro s
      rw [parse_factor_succ n, parse_factor_succ (n + 1)]
      refine Outcome.extends_ite (Outcome.extends_refl _) ?_
      refine Outcome.extends_ite (Outcome.extends_refl _) ?_
      refine Outcome.extends_ite ?_ (Outcome.extends_refl _)
      refine Outcome.extends_bind (Outcome.extends_refl _) (fun s1 => ?_)
      exact Outcome.extends_bind (he s1) (fun r => Outcome.extends_refl _)
    · intro left s
      rw [parse_term_loop_succ n, parse_term_loop_succ (n + 1)]
      refine Outcome.extends_ite ?_ (Outcome.extends_refl _)
      refine Outcome.extends_bind (Outcome.extends_refl _) (fun s1 => ?_)
      exact Outcome.extends_bind (hf s1) (fun r => htl _ _)
    · intro s
      rw [parse_term_succ n, parse_term_succ (n + 1)]
      exact Outcome.extends_bind (hf s) (fun r => htl _ _)
    · intro left s
      rw [parse_expression_loop_succ n, parse_expression_loop_succ (n + 1)]
      refine Outcome.extends_ite ?_ (Outcome.extends_refl _)
      refine Outcome.extends_bind (Outcome.extends_refl _) (fun s1 => ?_)
      exact Outcome.extends_bind (ht s1) (fun r => hel _ _)
    · intro s
      rw [parse_expression_succ n, parse_expression_succ (n + 1)]
      exact Outcome.extends_bind (ht s) (fun r => hel _ _)

theorem parse_statement_extends (fuel : Nat) (s : Lexer) :
    (parse_statement fuel s).extends (parse_statement (fuel + 1) s) := by
  have he := (parser_extends fuel).2.2.2.2
  have hp : ∀ s, (parse_statement_print fuel s).extends (parse_statement_print (fuel + 1) s) := by
    intro s
    rw [parse_statement_print_eq, parse_statement_print_eq]
    refine Outcome.extends_ite ?_ (Outcome.extends_refl _)
    refine Outcome.extends_bind (Outcome.extends_refl _) (fun s1 => ?_)
    exact Outcome.extends_bind (he s1) (fun r => Outcome.extends_refl _)
  rw [parse_statement_eq, parse_statement_eq]
  refine Outcome.extends_ite ?_ (hp s)
  refine Outcome.extends_bind (Outcome.extends_refl _) (fun s1 => ?_)
  refine Outcome.extends_ite ?_ (hp s1)
  refine Outcome.extends_bind (Outcome.extends_refl _) (fun s2 => ?_)
  exact Outcome.extends_bind (he s2) (fun r => Outcome.extends_refl _)

theorem parse_program_extends (fuel : Nat) :
    ∀ s, (parse_program fuel s).extends (parse_program (fuel + 1) s) := by
  induction fuel with
  | zero => intro s; exact Or.inl (by simp [parse_program])
  | succ n ih =>
    intro s
    rw [parse_program_succ n, parse_program_succ (n + 1)]
    refine Outcome.extends_ite (Outcome.extends_refl _) ?_
    refine Outcome.extends_ite ?_ ?_
    · exact Outcome.extends_bind (Outcome.extends_refl _) (fun l => ih l)
    · refine Outcome.extends_bind (parse_statement_extends n s) (fun r => ?_)
      refine Outcome.extends_bind (Outcome.extends_refl _) (fun l2 => ?_)
      exact Outcome.extends_bind (ih l2) (fun rest => Outcome.extends_refl _)

theorem compile_pass1_extends (fuel : Nat) :
    ∀ st, (compile_pass1 fuel st).extends (compile_pass1 (fuel + 1) st) := by
  induction fuel with
  | zero => intro st; exact Or.inl (by simp [compile_pass1])
  | succ n ih =>
    intro st
    rw [compile_pass1_succ n, compile_pass1_succ (n + 1)]
    refine Outcome.extends_ite (Outcome.extends_refl _) ?_
    refine Outcome.extends_ite ?_ ?_
    · exact Outcome.extends_bind (Outcome.extends_refl _) (fun l => ih _)
    · refine Outcome.extends_bind (parse_statement_extends n _) (fun r => ?_)
      refine Outcome.extends_bind (Outcome.extends_refl _) (fun l2 => ?_)
      exact Outcome.extends_bind (Outcome.extends_refl _) (fun x => ih _)

theorem compile_pass2_extends (fuel : Nat) :
    ∀ st, (compile_pass2 fuel st).extends (compile_pass2 (fuel + 1) st) := by
  induction fuel with
  | zero => intro st; exact Or.inl (by simp [compile_pass2])
  | succ n ih =>
    intro st
    rw [compile_pass2_succ n, compile_pass2_succ (n + 1)]
    refine Outcome.extends_ite (Outcome.extends_refl _) ?_
    refine Outcome.extends_ite ?_ ?_
    · exact Outcome.extends_bind (Outcome.extends_refl _) (fun l => ih _)
    · refine Outcome.extends_bind (parse_statement_extends n _) (fun r => ?_)
      exact Outcome.extends_bind (Outcome.extends_refl _) (fun l2 => ih _)

theorem compile_extends (fuel : Nat) (src : List Char) :
    (compile fuel src).extends (compile (fuel + 1) src) := by
  rw [compile_eq, compile_eq, compile_interpret_eq, compile_interpret_eq]
  refine Outcome.extends_bind ?_ (fun st1 => ?_)
  · refine Outcome.extends_bind (Outcome.extends_refl _) (fun l0 => ?_)
    exact Outcome.extends_bind (compile_pass1_extends fuel _) (fun st => Outcome.extends_refl _)
  · refine Outcome.extends_bind (Outcome.extends_refl _) (fun l => ?_)
    exact Outcome.extends_bind (compile_pass2_extends fuel _) (fun st => Outcome.extends_refl _)

/-- A result of `compile` that is not the exhausted budget is the result for
every larger budget. -/
theorem compile_fuel_mono (src : List Char) (fuel more : Nat)
    (h : compile fuel src ≠ .out_of_fuel) :
    compile (fuel + more) src = compile fuel src := by
  induction more with
  | zero => rfl
  | succ k ih =>
    rcases compile_extends (fuel + k) src with h1 | h1
    · rw [ih] at h1
      exact absurd h1 h
    · rw [← Nat.add_assoc, ← h1, ih]

/-! ## Lexer: the cursor -/

theorem Outcome.bind_eq_ok {α β : Type} {o : Outcome α} {f : α → Outcome β} {b : β} :
    o.bind f = .ok b ↔ ∃ a, o = .ok a ∧ f a = .ok b := by
  cases o with
  | ok a => simp [Outcome.bind]
  | exit e => simp [Outcome.bind]
  | out_of_fuel => simp [Outcome.bind]


theorem skip_blanks_ge (src : List Char) (pos : Nat) : pos ≤ skip_blanks src pos :=
  Nat.le_add_right _ _

theorem scan_run_bound (test : Char → Bool) (src : List Char) (pos : Nat)
    (h : pos ≤ src.length) : pos + (scan_run test src pos).length ≤ src.length := by
  have h1 : (scan_run test src pos).length ≤ (src.drop pos).length := by
    unfold scan_run
    exact (List.takeWhile_sublist _).length_le
  rw [List.length_drop] at h1
  omega

theorem skip_blanks_le (src : List Char) (pos : Nat) (h : pos ≤ src.length) :
    skip_blanks src pos ≤ src.length :=
  scan_run_bound is_blank src pos h

theorem char_at_lt (src : List Char) (pos : Nat) (h : char_at src pos ≠ NUL) :
    pos < src.length := by
  by_contra hp
  exact h (List.getD_eq_default _ _ (Nat.le_of_not_lt hp))

theorem scan_run_pos (test : Char → Bool) (src : List Char) (pos : Nat)
    (h : char_at src pos ≠ NUL) (ht : test (char_at src pos) = true) :
    1 ≤ (scan_run test src pos).length := by
  have := scan_run_head test src pos h ht
  cases hr : scan_run test src pos with
  | nil => rw [hr] at this; simp at this
  | cons c cs => simp

/-- What a returning call of `next_token` does to the globals: the buffer is
kept, the cursor stays within the buffer and does not move backwards, and it
advances by at least one character unless the token is EndOfInput; the line
counter does not decrease. -/
theorem next_token_progress (s s1 : Lexer) (h : next_token s = .ok s1) :
    s1.source_code = s.source_code ∧
    s.current_pos ≤ s1.current_pos ∧
    (s.current_pos ≤ s.source_code.length → s1.current_pos ≤ s.source_code.length) ∧
    (s1.current_token.type ≠ .TOKEN_EOF →
      s.current_pos < s1.current_pos ∧ s1.current_pos ≤ s.source_code.length) ∧
    s.current_line ≤ s1.current_line := by
  rw [next_token_eq] at h
  have hge := skip_blanks_ge s.source_code s.current_pos
  by_cases h1 : next_char s = NUL
  · rw [if_pos h1] at h
    simp only [Outcome.ok.injEq] at h
    subst h
    exact ⟨rfl, hge, fun hp => skip_blanks_le _ _ hp, fun hne => absurd rfl hne, le_refl _⟩
  rw [if_neg h1] at h
  have hlt : skip_blanks s.source_code s.current_pos < s.source_code.length :=
    char_at_lt _ _ h1
  by_cases h2 : next_char s = '\n'
  · rw [if_pos h2] at h
    simp only [Outcome.ok.injEq] at h
    subst h
    refine ⟨rfl, ?_, fun _ => ?_, fun _ => ⟨?_, ?_⟩, Nat.le_succ _⟩ <;> simp only <;> omega
  rw [if_neg h2] at h
  by_cases h3 : isdigit (next_char s) = true
  · rw [if_pos h3] at h
    simp only [Outcome.ok.injEq] at h
    subst h
    have hb := scan_run_bound isdigit s.source_code _ (Nat.le_of_lt hlt)
    have hp := scan_run_pos isdigit s.source_code _ h1 h3
    refine ⟨rfl, ?_, fun _ => ?_, fun _ => ⟨?_, ?_⟩, le_refl _⟩ <;> simp only <;> omega
  rw [if_neg h3] at h
  by_cases h4 : isalpha (next_char s) = true
  · rw [if_pos h4] at h
    simp only [Outcome.ok.injEq] at h
    subst h
    have hident : is_ident_char (next_char s) = true := by
      simp [is_ident_char, isalnum, h4]
    have hb := scan_run_bound is_ident_char s.source_code _ (Nat.le_of_lt hlt)
    have hp := scan_run_pos is_ident_char s.source_code _ h1 hident
    refine ⟨rfl, ?_, fun _ => ?_, fun _ => ⟨?_, ?_⟩, le_refl _⟩ <;> simp only <;> omega
  rw [if_neg h4] at h
  cases hs : switch_token_type (next_char s) with
  | none => rw [hs] at h; simp at h
  | some t =>
    rw [hs] at h
    simp only [Outcome.ok.injEq] at h
    subst h
    refine ⟨rfl, ?_, fun _ => ?_, fun _ => ⟨?_, ?_⟩, le_refl _⟩ <;>
      simp only [single_char_token] <;> omega

theorem next_token_source (s s1 : Lexer) (h : next_token s = .ok s1) :
    s1.source_code = s.source_code :=
  (next_token_progress s s1 h).1

theorem Consumes.source {s s1 : Lexer} {ts : List Token} (h : Consumes s ts s1) :
    s1.source_code = s.source_code := by
  induction h with
  | done s => rfl
  | step s sa sb ts hn _ ih => rw [ih, next_token_source s sa hn]

theorem skip_semicolon_source (s s1 : Lexer) (h : skip_semicolon s = .ok s1) :
    s1.source_code = s.source_code := by
  unfold skip_semicolon at h
  split_ifs at h
  · exact next_token_source s s1 h
  · simp only [Outcome.ok.injEq] at h
    rw [← h]

theorem grammar_facts {ts : List Token} {e : ASTNode} (h : ExpressionOf ts e) :
    is_expression e = true ∧ ts ≠ [] :=
  @ExpressionOf.rec
    (fun ts e _ => is_expression e = true ∧ ts ≠ [])
    (fun ts e _ => is_expression e = true ∧ ts ≠ [])
    (fun ts e _ => is_expression e = true ∧ ts ≠ [])
    (fun t _ => ⟨rfl, by simp⟩)
    (fun t _ => ⟨rfl, by simp⟩)
    (fun l r ts e _ _ _ ih => ⟨ih.1, by simp⟩)
    (fun ts e _ ih => ih)
    (fun ts1 ts2 o c l r _ _ _ _ ih1 ih2 => ⟨by simp [is_expression, ih1.1, ih2.1], by simp⟩)
    (fun ts e _ ih => ih)
    (fun ts1 ts2 o c l r _ _ _ _ ih1 ih2 => ⟨by simp [is_expression, ih1.1, ih2.1], by simp⟩)
    ts e h

/-- A statement that `parse_statement` returns is an Assignment or a Print of
an expression tree, and at least one token was consumed for it. -/
theorem parse_statement_sound (fuel : Nat) (s s1 : Lexer) (stmt : ASTNode)
    (h : parse_statement fuel s = .ok (stmt, s1)) :
    ∃ ts e, Consumes s ts s1 ∧ ts ≠ [] ∧ is_expression e = true ∧
      (stmt = .assign s.current_token.value e ∨ stmt = .print e) := by
  have hexpr := fun f a t b (hh : parse_expression f a = .ok (t, b)) =>
    (parser_sound f).2.2.2.2 a t b hh
  have hprint : ∀ a, parse_statement_print fuel a = .ok (stmt, s1) →
      ∃ ts e, Consumes a ts s1 ∧ ts ≠ [] ∧ is_expression e = true ∧ stmt = .print e := by
    intro a ha
    rw [parse_statement_print_eq] at ha
    split_ifs at ha with hp
    obtain ⟨a1, hn, h2⟩ := Outcome.bind_eq_ok.1 ha
    obtain ⟨r, he, h3⟩ := Outcome.bind_eq_ok.1 h2
    simp only [Outcome.ok.injEq, Prod.mk.injEq] at h3
    obtain ⟨ts, hc, hg, _, _⟩ := hexpr fuel a1 r.1 r.2 he
    refine ⟨a.current_token :: ts, r.1, ?_, by simp, (grammar_facts hg).1, h3.1.symm⟩
    rw [← h3.2]
    exact Consumes.step a a1 r.2 ts hn hc
  rw [parse_statement_eq] at h
  split_ifs at h with hid
  · obtain ⟨a1, hn, h2⟩ := Outcome.bind_eq_ok.1 h
    split_ifs at h2 with hassign
    · obtain ⟨a2, hn2, h3⟩ := Outcome.bind_eq_ok.1 h2
      obtain ⟨r, he, h4⟩ := Outcome.bind_eq_ok.1 h3
      simp only [Outcome.ok.injEq, Prod.mk.injEq] at h4
      obtain ⟨ts, hc, hg, _, _⟩ := hexpr fuel a2 r.1 r.2 he
      refine ⟨s.current_token :: a1.current_token :: ts, r.1, ?_, by simp,
        (grammar_facts hg).1, Or.inl h4.1.symm⟩
      rw [← h4.2]
      exact Consumes.step s a1 r.2 _ hn (Consumes.step a1 a2 r.2 ts hn2 hc)
    · obtain ⟨ts, e, hc, _, he, hst⟩ := hprint a1 h2
      exact ⟨s.current_token :: ts, e, Consumes.step s a1 s1 ts hn hc, by simp, he,
        Or.inr hst⟩
  · obtain ⟨ts, e, hc, hne, he, hst⟩ := hprint s h
    exact ⟨ts, e, hc, hne, he, Or.inr hst⟩
/-! ## Driver: the symbol table during the first pass -/

theorem pass1_reaches (src : List Char) : ∀ (fuel : Nat) (st st1 : Run) (stmts : List ASTNode),
    compile_pass1 fuel st = .ok st1 → Pass1Reaches src stmts st →
    ∃ stmts1, Pass1Reaches src stmts1 st1
  | 0, st, st1, stmts, h, _ => by simp [compile_pass1] at h
  | fuel + 1, st, st1, stmts, h, hr => by
    rw [compile_pass1_succ] at h
    by_cases heof : st.lexer.current_token.type = .TOKEN_EOF
    · rw [if_pos heof] at h
      simp only [Outcome.ok.injEq] at h
      subst h
      exact ⟨stmts, hr⟩
    rw [if_neg heof] at h
    by_cases hnl : st.lexer.current_token.type = .TOKEN_NEWLINE
    · rw [if_pos hnl] at h
      obtain ⟨l, hn, h2⟩ := Outcome.bind_eq_ok.1 h
      exact pass1_reaches src fuel _ st1 stmts h2 (Pass1Reaches.newline stmts st l hr hnl hn)
    rw [if_neg hnl] at h
    obtain ⟨r, hp, h2⟩ := Outcome.bind_eq_ok.1 h
    obtain ⟨l2, hs, h3⟩ := Outcome.bind_eq_ok.1 h2
    obtain ⟨x, he, h4⟩ := Outcome.bind_eq_ok.1 h3
    exact pass1_reaches src fuel _ st1 _ h4
      (Pass1Reaches.statement stmts st fuel r.1 r.2 l2 x.1 x.2 hr heof hnl hp hs he)

theorem first_occurrences_eq_foldl (ns : List (List Char)) :
    ns.foldl add_name [] = first_occurrences ns := by
  rw [foldl_add_name]
  simp

theorem first_occurrences_length (ns : List (List Char)) :
    (first_occurrences ns).length = ns.toFinset.card := by
  rw [← List.toFinset_card_of_nodup (first_occurrences_nodup ns)]
  congr 1
  ext m
  simp [first_occurrences_mem]

theorem declaration_invariant_of_fields (st st1 : Run) (h : declaration_invariant st)
    (hv : st1.vars = st.vars) (ho : st1.output = st.output)
    (hf : st1.first_var = st.first_var) : declaration_invariant st1 := by
  unfold declaration_invariant at h ⊢
  rw [hv, ho, hf]
  exact h

theorem pass1_declared_names (st : Run) (stmts : List ASTNode) (stmt : ASTNode) (l1 : Lexer)
    (hi : declaration_invariant st)
    (hn : st.vars.map Variable.name = (assignment_targets stmts).foldl add_name []) :
    declaration_invariant
        (declare_variable ⟨l1, st.vars, st.output, st.printed, st.first_var⟩ stmt) ∧
      (declare_variable ⟨l1, st.vars, st.output, st.printed, st.first_var⟩ stmt).vars.map
          Variable.name =
        (assignment_targets (stmts ++ [stmt])).foldl add_name [] ∧
      (∀ n, assignment_target stmt = some n →
        find_variable
          (declare_variable ⟨l1, st.vars, st.output, st.printed, st.first_var⟩ stmt).vars
          n = true) := by
  have hi1 : declaration_invariant ⟨l1, st.vars, st.output, st.printed, st.first_var⟩ :=
    declaration_invariant_of_fields st _ hi rfl rfl rfl
  obtain ⟨hd1, hd2, _, hd4, _⟩ := declare_variable_spec _ stmt hi1
  refine ⟨hd1, ?_, hd4⟩
  rw [hd2]
  simp only [assignment_targets, List.filterMap_append, List.foldl_append] at hn ⊢
  rw [← hn]
  cases hat : assignment_target stmt with
  | none => simp [List.filterMap_cons, hat]
  | some n => simp [List.filterMap_cons, hat]

theorem pass1_invariant (src : List Char) (stmts : List ASTNode) (st : Run)
    (h : Pass1Reaches src stmts st) :
    declaration_invariant st ∧
      st.vars.map Variable.name = (assignment_targets stmts).foldl add_name [] ∧
      st.lexer.source_code = src := by
  induction h with
  | start l0 h0 =>
    exact ⟨by simp [declaration_invariant, join_names], rfl, next_token_source _ _ h0⟩
  | newline stmts st l hr hnl hn ih =>
    exact ⟨declaration_invariant_of_fields st _ ih.1 rfl rfl rfl, ih.2.1,
      (next_token_source _ _ hn).trans ih.2.2⟩
  | statement stmts st fuel stmt l1 l2 vars2 printed2 hr heof hnl hp hs he ih =>
    obtain ⟨hd1, hd2, hd4⟩ := pass1_declared_names st stmts stmt l1 ih.1 ih.2.1
    have hnm := execute_statement_names _ _ _ _ stmt hd4 he
    obtain ⟨ts, e, hc, _, _, _⟩ := parse_statement_sound fuel _ _ _ hp
    refine ⟨⟨?_, ?_⟩, ?_, (skip_semicolon_source _ _ hs).trans (hc.source.trans ih.2.2)⟩
    · show _ = output_header ++ join_names (vars2.map Variable.name)
      rw [hnm]
      exact hd1.1
    · show _ ↔ vars2 = []
      rw [hd1.2]
      constructor
      · intro hv
        rw [hv] at hnm
        simpa using hnm
      · intro hv
        rw [hv] at hnm
        simpa using hnm.symm
    · show vars2.map Variable.name = _
      rw [hnm, hd2]

/-- In a state of the first pass `var_count` is the number of distinct
Assignment targets seen so far. -/
theorem pass1_table_length (src : List Char) (stmts : List ASTNode) (st : Run)
    (h : Pass1Reaches src stmts st) :
    st.vars.length = (assignment_targets stmts).toFinset.card := by
  obtain ⟨_, hn, _⟩ := pass1_invariant src stmts st h
  rw [first_occurrences_eq_foldl] at hn
  rw [← first_occurrences_length, ← hn, List.length_map]

theorem Outcome.related_bind {α β γ δ : Type} {R : α → β → Prop} {S : γ → δ → Prop}
    {o1 : Outcome α} {o2 : Outcome β} {f : α → Outcome γ} {g : β → Outcome δ}
    (h : Outcome.related R o1 o2)
    (hf : ∀ a b, R a b → Outcome.related S (f a) (g b)) :
    Outcome.related S (o1.bind f) (o2.bind g) := by
  cases o1 <;> cases o2 <;> simp only [Outcome.related] at h <;>
    first
    | exact hf _ _ h
    | exact h

theorem Outcome.related_eq {α : Type} {o1 o2 : Outcome α}
    (h : Outcome.related (fun a b => a = b) o1 o2) : o1 = o2 := by
  cases o1 <;> cases o2 <;> simp only [Outcome.related] at h <;>
    first
    | rw [h]
    | rfl

theorem same_view_refl (a : Lexer) : same_view a a :=
  ⟨rfl, rfl, rfl, rfl, fun _ _ => rfl⟩

theorem next_token_related (a b : Lexer) (h1 : a.source_code = b.source_code)
    (h2 : a.current_pos = b.current_pos) (h3 : a.current_line = b.current_line) :
    Outcome.related same_view (next_token a) (next_token b) := by
  have hc : next_char a = next_char b := by
    unfold next_char
    rw [h1, h2]
  rw [next_token_eq a, next_token_eq b, ← hc, ← h1, ← h2, ← h3]
  by_cases c1 : next_char a = NUL
  · rw [if_pos c1, if_pos c1]
    exact ⟨rfl, rfl, rfl, rfl, fun hne => absurd rfl hne⟩
  rw [if_neg c1, if_neg c1]
  by_cases c2 : next_char a = '\n'
  · rw [if_pos c2, if_pos c2]
    exact ⟨rfl, rfl, rfl, rfl, fun _ hne => absurd rfl hne⟩
  rw [if_neg c2, if_neg c2]
  by_cases c3 : isdigit (next_char a) = true
  · rw [if_pos c3, if_pos c3]
    exact ⟨rfl, rfl, rfl, rfl, fun _ _ => rfl⟩
  rw [if_neg c3, if_neg c3]
  by_cases c4 : isalpha (next_char a) = true
  · rw [if_pos c4, if_pos c4]
    exact ⟨rfl, rfl, rfl, rfl, fun _ _ => rfl⟩
  rw [if_neg c4, if_neg c4]
  cases switch_token_type (next_char a) with
  | none => exact rfl
  | some t => exact ⟨rfl, rfl, rfl, rfl, fun _ _ => rfl⟩

theorem next_token_same_view (a b : Lexer) (h : same_view a b) :
    Outcome.related same_view (next_token a) (next_token b) :=
  next_token_related a b h.1 h.2.1 h.2.2.1

theorem same_view_value (a b : Lexer) (h : same_view a b)
    (h1 : a.current_token.type ≠ .TOKEN_EOF) (h2 : a.current_token.type ≠ .TOKEN_NEWLINE) :
    a.current_token.value = b.current_token.value :=
  h.2.2.2.2 h1 h2

theorem parser_related (fuel : Nat) :
    (∀ a b, same_view a b →
      Outcome.related same_parse (parse_factor fuel a) (parse_factor fuel b)) ∧
    (∀ left a b, same_view a b →
      Outcome.related same_parse (parse_term_loop fuel left a)
        (parse_term_loop fuel left b)) ∧
    (∀ a b, same_view a b →
      Outcome.related same_parse (parse_term fuel a) (parse_term fuel b)) ∧
    (∀ left a b, same_view a b →
      Outcome.related same_parse (parse_expression_loop fuel left a)
        (parse_expression_loop fuel left b)) ∧
    (∀ a b, same_view a b →
      Outcome.related same_parse (parse_expression fuel a) (parse_expression fuel b)) := by
  induction fuel with
  | zero =>
    refine ⟨?_, ?_, ?_, ?_, ?_⟩ <;> intros <;>
      simp [parse_factor, parse_term_loop, parse_term, parse_expression_loop,
        parse_expression, Outcome.related]
  | succ n ih =>
    obtain ⟨hf, htl, ht, hel, he⟩ := ih
    refine ⟨?_, ?_, ?_, ?_, ?_⟩
    · intro a b h
      have hty := h.2.2.2.1
      rw [parse_factor_succ n a, parse_factor_succ n b, ← hty, ← h.2.2.1]
      by_cases c1 : a.current_token.type = .TOKEN_NUMBER
      · rw [if_pos c1, if_pos c1]
        refine Outcome.related_bind (next_token_same_view a b h) (fun x y hxy => ?_)
        have hv := same_view_value a b h (by rw [c1]; decide) (by rw [c1]; decide)
        exact ⟨by rw [hv], hxy⟩
      rw [if_neg c1, if_neg c1]
      by_cases c2 : a.current_token.type = .TOKEN_IDENTIFIER
      · rw [if_pos c2, if_pos c2]
        refine Outcome.related_bind (next_token_same_view a b h) (fun x y hxy => ?_)
        have hv := same_view_value a b h (by rw [c2]; decide) (by rw [c2]; decide)
        exact ⟨by rw [hv], hxy⟩
      rw [if_neg c2, if_neg c2]
      by_cases c3 : a.current_token.type = .TOKEN_LPAREN
      · rw [if_pos c3, if_pos c3]
        refine Outcome.related_bind (next_token_same_view a b h) (fun x y hxy => ?_)
        refine Outcome.related_bind (he x y hxy) (fun r1 r2 hr => ?_)
        rw [← hr.2.2.2.2.1, ← hr.2.2.2.1]
        by_cases c4 : r1.2.current_token.type ≠ .TOKEN_RPAREN
        · rw [if_pos c4, if_pos c4]
          exact rfl
        · rw [if_neg c4, if_neg c4]
          refine Outcome.related_bind (next_token_same_view _ _ hr.2) (fun u v huv => ?_)
          exact ⟨hr.1, huv⟩
      rw [if_neg c3, if_neg c3]
      exact rfl
    · intro left a b h
      have hty := h.2.2.2.1
      rw [parse_term_loop_succ n left a, parse_term_loop_succ n left b, ← hty]
      by_cases c1 : a.current_token.type = .TOKEN_MULTIPLY ∨
          a.current_token.type = .TOKEN_DIVIDE
      · rw [if_pos c1, if_pos c1]
        have hv : a.current_token.value = b.current_token.value := by
          rcases c1 with c | c <;>
            exact same_view_value a b h (by rw [c]; decide) (by rw [c]; decide)
        rw [← hv]
        refine Outcome.related_bind (next_token_same_view a b h) (fun x y hxy => ?_)
        refine Outcome.related_bind (hf x y hxy) (fun r1 r2 hr => ?_)
        rw [← hr.1]
        exact htl _ _ _ hr.2
      · rw [if_neg c1, if_neg c1]
        exact ⟨rfl, h⟩
    · intro a b h
      rw [parse_term_succ n a, parse_term_succ n b]
      refine Outcome.related_bind (hf a b h) (fun r1 r2 hr => ?_)
      rw [← hr.1]
      exact htl _ _ _ hr.2
    · intro left a b h
      have hty := h.2.2.2.1
      rw [parse_expression_loop_succ n left a, parse_expression_loop_succ n left b, ← hty]
      by_cases c1 : a.current_token.type = .TOKEN_PLUS ∨
          a.current_token.type = .TOKEN_MINUS
      · rw [if_pos c1, if_pos c1]
        have hv : a.current_token.value = b.current_token.value := by
          rcases c1 with c | c <;>
            exact same_view_value a b h (by rw [c]; decide) (by rw [c]; decide)
        rw [← hv]
        refine Outcome.related_bind (next_token_same_view a b h) (fun x y hxy => ?_)
        refine Outcome.related_bind (ht x y hxy) (fun r1 r2 hr => ?_)
        rw [← hr.1]
        exact hel _ _ _ hr.2
      · rw [if_neg c1, if_neg c1]
        exact ⟨rfl, h⟩
    · intro a b h
      rw [parse_expression_succ n a, parse_expression_succ n b]
      refine Outcome.related_bind (ht a b h) (fun r1 r2 hr => ?_)
      rw [← hr.1]
      exact hel _ _ _ hr.2
theorem parse_statement_print_related (fuel : Nat) (a b : Lexer) (h : same_view a b) :
    Outcome.related same_parse (parse_statement_print fuel a)
      (parse_statement_print fuel b) := by
  rw [parse_statement_print_eq fuel a, parse_statement_print_eq fuel b, ← h.2.2.2.1,
    ← h.2.2.1]
  by_cases c : a.current_token.type = .TOKEN_PRINT
  · rw [if_pos c, if_pos c]
    refine Outcome.related_bind (next_token_same_view a b h) (fun x y hxy => ?_)
    refine Outcome.related_bind ((parser_related fuel).2.2.2.2 x y hxy) (fun r1 r2 hr => ?_)
    exact ⟨by rw [hr.1], hr.2⟩
  · rw [if_neg c, if_neg c]
    exact rfl

theorem parse_statement_related (fuel : Nat) (a b : Lexer) (h : same_view a b) :
    Outcome.related same_parse (parse_statement fuel a) (parse_statement fuel b) := by
  rw [parse_statement_eq fuel a, parse_statement_eq fuel b, ← h.2.2.2.1]
  by_cases c : a.current_token.type = .TOKEN_IDENTIFIER
  · rw [if_pos c, if_pos c]
    have hv := same_view_value a b h (by rw [c]; decide) (by rw [c]; decide)
    rw [← hv]
    refine Outcome.related_bind (next_token_same_view a b h) (fun x y hxy => ?_)
    rw [← hxy.2.2.2.1]
    by_cases c2 : x.current_token.type = .TOKEN_ASSIGN
    · rw [if_pos c2, if_pos c2]
      refine Outcome.related_bind (next_token_same_view x y hxy) (fun u v huv => ?_)
      refine Outcome.related_bind ((parser_related fuel).2.2.2.2 u v huv)
        (fun r1 r2 hr => ?_)
      exact ⟨by rw [hr.1], hr.2⟩
    · rw [if_neg c2, if_neg c2]
      exact parse_statement_print_related fuel x y hxy
  · rw [if_neg c, if_neg c]
    exact parse_statement_print_related fuel a b h

theorem skip_semicolon_related (a b : Lexer) (h : same_view a b) :
    Outcome.related same_view (skip_semicolon a) (skip_semicolon b) := by
  unfold skip_semicolon
  rw [← h.2.2.2.1]
  by_cases c : a.current_token.type = .TOKEN_SEMICOLON
  · rw [if_pos c, if_pos c]
    exact next_token_same_view a b h
  · rw [if_neg c, if_neg c]
    exact h

theorem parse_program_related : ∀ (fuel : Nat) (a b : Lexer), same_view a b →
    Outcome.related (fun x y => x = y) (parse_program fuel a) (parse_program fuel b)
  | 0, a, b, _ => by simp [parse_program, Outcome.related]
  | fuel + 1, a, b, h => by
    rw [parse_program_succ fuel a, parse_program_succ fuel b, ← h.2.2.2.1]
    by_cases c1 : a.current_token.type = .TOKEN_EOF
    · rw [if_pos c1, if_pos c1]
      exact rfl
    rw [if_neg c1, if_neg c1]
    by_cases c2 : a.current_token.type = .TOKEN_NEWLINE
    · rw [if_pos c2, if_pos c2]
      exact Outcome.related_bind (next_token_same_view a b h)
        (fun x y hxy => parse_program_related fuel x y hxy)
    rw [if_neg c2, if_neg c2]
    refine Outcome.related_bind (parse_statement_related fuel a b h) (fun r1 r2 hr => ?_)
    refine Outcome.related_bind (skip_semicolon_related _ _ hr.2) (fun x y hxy => ?_)
    refine Outcome.related_bind (parse_program_related fuel x y hxy) (fun u v huv => ?_)
    show r1.1 :: u = r2.1 :: v
    rw [hr.1, huv]

theorem parse_program_same_view (fuel : Nat) (a b : Lexer) (h : same_view a b) :
    parse_program fuel a = parse_program fuel b :=
  Outcome.related_eq (parse_program_related fuel a b h)

/-! ## Code generator: the text of a statement -/

theorem generate_expression_render (node : ASTNode) :
    ∀ output, generate_expression node output = output ++ render node := by
  induction node with
  | number value => intro output; simp [generate_expression, render]
  | identifier value => intro output; simp [generate_expression, render]
  | binary_op op left right ihl ihr =>
    intro output
    simp [generate_expression, render, ihl, ihr]
  | assign value right _ => intro output; simp [generate_expression, render]
  | print right _ => intro output; simp [generate_expression, render]

theorem generate_statement_line (stmt : ASTNode) (output : List Char) :
    generate_statement stmt output = output ++ statement_line stmt := by
  cases stmt with
  | assign name right =>
    simp [generate_statement, statement_line, generate_expression_render]
  | print right =>
    simp [generate_statement, statement_line, generate_expression_render]
  | number value => simp [generate_statement, statement_line]
  | identifier value => simp [generate_statement, statement_line]
  | binary_op op left right => simp [generate_statement, statement_line]

/-! ## Driver: the second pass -/

theorem pass2_output : ∀ (fuel : Nat) (st : Run) (stmts : List ASTNode),
    parse_program fuel st.lexer = .ok stmts →
    ∃ l2, compile_pass2 fuel st =
        .ok ⟨l2, st.vars, st.output ++ (stmts.map statement_line).flatten, st.printed,
          st.first_var⟩ ∧
      l2.current_token.type = .TOKEN_EOF
  | 0, st, stmts, h => by simp [parse_program] at h
  | fuel + 1, st, stmts, h => by
    rw [parse_program_succ] at h
    rw [compile_pass2_succ]
    by_cases c1 : st.lexer.current_token.type = .TOKEN_EOF
    · rw [if_pos c1] at h ⊢
      simp only [Outcome.ok.injEq] at h
      subst h
      exact ⟨st.lexer, by simp, c1⟩
    rw [if_neg c1] at h ⊢
    by_cases c2 : st.lexer.current_token.type = .TOKEN_NEWLINE
    · rw [if_pos c2] at h ⊢
      obtain ⟨l, hn, h2⟩ := Outcome.bind_eq_ok.1 h
      rw [hn]
      exact pass2_output fuel ⟨l, st.vars, st.output, st.printed, st.first_var⟩ stmts h2
    rw [if_neg c2] at h ⊢
    obtain ⟨r, hp, h2⟩ := Outcome.bind_eq_ok.1 h
    obtain ⟨l2, hs, h3⟩ := Outcome.bind_eq_ok.1 h2
    obtain ⟨rest, hr, h4⟩ := Outcome.bind_eq_ok.1 h3
    simp only [Outcome.ok.injEq] at h4
    subst h4
    rw [hp]
    simp only [Outcome.bind]
    rw [hs]
    simp only []
    obtain ⟨l3, h5, h6⟩ := pass2_output fuel
      ⟨l2, st.vars, generate_statement r.1 st.output, st.printed, st.first_var⟩ rest hr
    refine ⟨l3, ?_, h6⟩
    rw [h5, generate_statement_line]
    simp

theorem parse_program_statements : ∀ (fuel : Nat) (s : Lexer) (stmts : List ASTNode),
    parse_program fuel s = .ok stmts → ∀ stmt ∈ stmts, is_statement stmt = true
  | 0, s, stmts, h => by simp [parse_program] at h
  | fuel + 1, s, stmts, h => by
    rw [parse_program_succ] at h
    by_cases c1 : s.current_token.type = .TOKEN_EOF
    · rw [if_pos c1] at h
      simp only [Outcome.ok.injEq] at h
      subst h
      simp
    rw [if_neg c1] at h
    by_cases c2 : s.current_token.type = .TOKEN_NEWLINE
    · rw [if_pos c2] at h
      obtain ⟨l, _, h2⟩ := Outcome.bind_eq_ok.1 h
      exact parse_program_statements fuel l stmts h2
    rw [if_neg c2] at h
    obtain ⟨r, hp, h2⟩ := Outcome.bind_eq_ok.1 h
    obtain ⟨l2, _, h3⟩ := Outcome.bind_eq_ok.1 h2
    obtain ⟨rest, hr, h4⟩ := Outcome.bind_eq_ok.1 h3
    simp only [Outcome.ok.injEq] at h4
    subst h4
    intro stmt hm
    rcases List.mem_cons.1 hm with hm | hm
    · obtain ⟨ts, e, _, _, he, hst⟩ := parse_statement_sound fuel s r.2 r.1 hp
      rw [hm]
      rcases hst with hst | hst <;> rw [hst] <;> simpa [is_statement] using he
    · exact parse_program_statements fuel l2 rest hr stmt hm

theorem pass1_statements (src : List Char) :
    ∀ (fuel : Nat) (st st1 : Run) (before : List ASTNode),
    compile_pass1 fuel st = .ok st1 → Pass1Reaches src before st →
    ∃ stmts, parse_program fuel st.lexer = .ok stmts ∧ Pass1Reaches src (before ++ stmts) st1
  | 0, st, st1, before, h, _ => by simp [compile_pass1] at h
  | fuel + 1, st, st1, before, h, hr => by
    rw [compile_pass1_succ] at h
    rw [parse_program_succ]
    by_cases heof : st.lexer.current_token.type = .TOKEN_EOF
    · rw [if_pos heof] at h ⊢
      simp only [Outcome.ok.injEq] at h
      subst h
      exact ⟨[], rfl, by simpa using hr⟩
    rw [if_neg heof] at h ⊢
    by_cases hnl : st.lexer.current_token.type = .TOKEN_NEWLINE
    · rw [if_pos hnl] at h ⊢
      obtain ⟨l, hn, h2⟩ := Outcome.bind_eq_ok.1 h
      rw [hn]
      exact pass1_statements src fuel _ st1 before h2
        (Pass1Reaches.newline before st l hr hnl hn)
    rw [if_neg hnl] at h ⊢
    obtain ⟨r, hp, h2⟩ := Outcome.bind_eq_ok.1 h
    obtain ⟨l2, hs, h3⟩ := Outcome.bind_eq_ok.1 h2
    obtain ⟨x, he, h4⟩ := Outcome.bind_eq_ok.1 h3
    obtain ⟨rest, hrest, hreach⟩ := pass1_statements src fuel _ st1 _ h4
      (Pass1Reaches.statement before st fuel r.1 r.2 l2 x.1 x.2 hr heof hnl hp hs he)
    refine ⟨r.1 :: rest, ?_, by simpa using hreach⟩
    rw [hp]
    simp only [Outcome.bind]
    rw [hs]
    simp only []
    rw [hrest]
/-- Claim C15.  Let the first pass complete on the buffer `src`, ending in state
`st1`.  Then the statements it parsed, `stmts`, are what the statement loop
parses from the first token, each is an Assignment or a Print of an expression
tree, and the second pass, started after `reset` from any cursor, line, stale
token, symbol table and output, lexes its first token, parses the same list
`stmts` and ends at EndOfInput having appended exactly one `statement_line` per
statement, in order; so `compile` returns, and its output is that of the first
pass, the end of the declaration line, these lines and the closing text. -/
theorem C15_second_pass_parses_alike (src : List Char) (fuel : Nat) (l0 : Lexer) (st1 : Run)
    (h0 : next_token (initial_lexer src) = .ok l0)
    (h1 : compile_pass1 fuel ⟨l0, [], output_header, [], true⟩ = .ok st1) :
    ∃ stmts, Pass1Reaches src stmts st1 ∧ parse_program fuel l0 = .ok stmts ∧
      (∀ stmt ∈ stmts, is_statement stmt = true) ∧
      (∀ (pos line : Nat) (tok : Token) (vars : List Variable) (out : List Char)
          (printed : List Int) (fv : Bool),
        ∃ l l2, next_token (reset ⟨src, pos, line, tok⟩) = .ok l ∧
          parse_program fuel l = .ok stmts ∧
          compile_pass2 fuel ⟨l, vars, out, printed, fv⟩ =
            .ok ⟨l2, vars, out ++ (stmts.map statement_line).flatten, printed, fv⟩ ∧
          l2.current_token.type = .TOKEN_EOF) ∧
      ∃ l2, compile fuel src =
        .ok ⟨l2, st1.vars,
          st1.output ++ ";\n\n".toList ++ (stmts.map statement_line).flatten ++
            "    return 0;\n\x7d\n".toList,
          st1.printed, st1.first_var⟩ := by
  obtain ⟨stmts, hp, hr⟩ := pass1_statements src fuel _ st1 [] h1 (Pass1Reaches.start l0 h0)
  simp only [List.nil_append] at hr
  have hsecond : ∀ (pos line : Nat) (tok : Token) (vars : List Variable) (out : List Char)
      (printed : List Int) (fv : Bool),
      ∃ l l2, next_token (reset ⟨src, pos, line, tok⟩) = .ok l ∧
        parse_program fuel l = .ok stmts ∧
        compile_pass2 fuel ⟨l, vars, out, printed, fv⟩ =
          .ok ⟨l2, vars, out ++ (stmts.map statement_line).flatten, printed, fv⟩ ∧
        l2.current_token.type = .TOKEN_EOF := by
    intro pos line tok vars out printed fv
    have hrel := next_token_related (initial_lexer src) (reset ⟨src, pos, line, tok⟩)
      rfl rfl rfl
    rw [h0] at hrel
    cases hn : next_token (reset ⟨src, pos, line, tok⟩) with
    | ok l =>
      rw [hn] at hrel
      have hsame : same_view l0 l := hrel
      have hpl : parse_program fuel l = .ok stmts := by
        rw [← parse_program_same_view fuel l0 l hsame]
        exact hp
      obtain ⟨l2, h2, h3⟩ := pass2_output fuel ⟨l, vars, out, printed, fv⟩ stmts hpl
      exact ⟨l, l2, rfl, hpl, h2, h3⟩
    | exit e =>
      rw [hn] at hrel
      exact hrel.elim
    | out_of_fuel =>
      rw [hn] at hrel
      exact hrel.elim
  refine ⟨stmts, hr, hp, parse_program_statements fuel l0 stmts hp, hsecond, ?_⟩
  have hsrc := (pass1_invariant src stmts st1 hr).2.2
  obtain ⟨lexer, vars, output, printed, first_var⟩ := st1
  obtain ⟨sc, pos, line, tok⟩ := lexer
  simp only at hsrc
  subst hsrc
  obtain ⟨l, l2, hn, _, h2, _⟩ := hsecond pos line tok vars (output ++ ";\n\n".toList)
    printed first_var
  refine ⟨l2, ?_⟩
  rw [compile_eq, compile_interpret_eq, h0]
  simp only [Outcome.bind]
  rw [h1]
  simp only []
  rw [hn]
  simp only []
  rw [h2]

theorem C15_second_pass_parses_alike_witness :
    next_token (initial_lexer "x = 2 * (3 + 4)\nprint x - 1\n".toList) =
        .ok ⟨"x = 2 * (3 + 4)\nprint x - 1\n".toList, 1, 1, ⟨.TOKEN_IDENTIFIER, ['x'], 0⟩⟩ ∧
      compile_pass1 20
          ⟨⟨"x = 2 * (3 + 4)\nprint x - 1\n".toList, 1, 1, ⟨.TOKEN_IDENTIFIER, ['x'], 0⟩⟩, [],
            output_header, [], true⟩ =
        .ok ⟨⟨"x = 2 * (3 + 4)\nprint x - 1\n".toList, 28, 3, ⟨.TOKEN_EOF, ['1'], 2⟩⟩,
          [⟨['x'], 14⟩], output_header ++ ['x'], [13], false⟩ ∧
      (compile 20 "x = 2 * (3 + 4)\nprint x - 1\n".toList).map Run.output =
        .ok (output_header ++ "x;\n\n".toList ++
          "    x = (2 * (3 + 4));\n    printf(\"%d\\n\", (x - 1));\n".toList ++
          "    return 0;\n\x7d\n".toList) ∧
      ∃ stmts,
        Pass1Reaches "x = 2 * (3 + 4)\nprint x - 1\n".toList stmts
          ⟨⟨"x = 2 * (3 + 4)\nprint x - 1\n".toList, 28, 3, ⟨.TOKEN_EOF, ['1'], 2⟩⟩,
            [⟨['x'], 14⟩], output_header ++ ['x'], [13], false⟩ ∧
        parse_program 20
            ⟨"x = 2 * (3 + 4)\nprint x - 1\n".toList, 1, 1, ⟨.TOKEN_IDENTIFIER, ['x'], 0⟩⟩ =
          .ok stmts ∧
        (∀ stmt ∈ stmts, is_statement stmt = true) ∧
        (∀ (pos line : Nat) (tok : Token) (vars : List Variable) (out : List Char)
            (printed : List Int) (fv : Bool),
          ∃ l l2, next_token (reset ⟨"x = 2 * (3 + 4)\nprint x - 1\n".toList, pos, line, tok⟩) =
              .ok l ∧
            parse_program 20 l = .ok stmts ∧
            compile_pass2 20 ⟨l, vars, out, printed, fv⟩ =
              .ok ⟨l2, vars, out ++ (stmts.map statement_line).flatten, printed, fv⟩ ∧
            l2.current_token.type = .TOKEN_EOF) ∧
        ∃ l2, compile 20 "x = 2 * (3 + 4)\nprint x - 1\n".toList =
          .ok ⟨l2, [⟨['x'], 14⟩],
            output_header ++ ['x'] ++ ";\n\n".toList ++ (stmts.map statement_line).flatten ++
              "    return 0;\n\x7d\n".toList,
            [13], false⟩ :=
  ⟨by decide!, by decide!, by decide!,
    C15_second_pass_parses_alike "x = 2 * (3 + 4)\nprint x - 1\n".toList 20
      ⟨"x = 2 * (3 + 4)\nprint x - 1\n".toList, 1, 1, ⟨.TOKEN_IDENTIFIER, ['x'], 0⟩⟩
      ⟨⟨"x = 2 * (3 + 4)\nprint x - 1\n".toList, 28, 3, ⟨.TOKEN_EOF, ['1'], 2⟩⟩,
        [⟨['x'], 14⟩], output_header ++ ['x'], [13], false⟩
      (by decide!) (by decide!)⟩

/-! ## Termination -/

theorem Outcome.bind_ne_out_of_fuel {α β : Type} {o : Outcome α} {f : α → Outcome β}
    (h : o ≠ .out_of_fuel) (hf : ∀ a, o = .ok a → f a ≠ .out_of_fuel) :
    o.bind f ≠ .out_of_fuel := by
  cases o with
  | ok a => exact hf a rfl
  | exit e => simp [Outcome.bind]
  | out_of_fuel => exact absurd rfl h

theorem next_token_returns (s : Lexer) : next_token s ≠ .out_of_fuel := by
  rw [next_token_eq]
  split_ifs <;> cases switch_token_type (next_char s) <;> simp

theorem next_token_pending (s s1 : Lexer) (h : next_token s = .ok s1) :
    pending s1 ≤ s.source_code.length - s.current_pos := by
  obtain ⟨hsrc, hle, _, hadv, _⟩ := next_token_progress s s1 h
  unfold pending
  rw [hsrc]
  by_cases c : s1.current_token.type = .TOKEN_EOF
  · rw [if_pos c]
    omega
  · rw [if_neg c]
    have := hadv c
    omega

theorem next_token_pending_le (s s1 : Lexer) (h : next_token s = .ok s1) :
    pending s1 ≤ pending s :=
  le_trans (next_token_pending s s1 h) (Nat.le_add_right _ _)

theorem next_token_pending_lt (s s1 : Lexer) (h : next_token s = .ok s1)
    (hne : s.current_token.type ≠ .TOKEN_EOF) : pending s1 < pending s := by
  have h1 := next_token_pending s s1 h
  have h2 : pending s = s.source_code.length - s.current_pos + 1 := by
    unfold pending
    rw [if_neg hne]
  omega

theorem Consumes.pending_le {s s1 : Lexer} {ts : List Token} (h : Consumes s ts s1) :
    pending s1 ≤ pending s := by
  induction h with
  | done s => exact le_refl _
  | step s sa sb ts hn _ ih => exact le_trans ih (next_token_pending_le s sa hn)

theorem Consumes.pending_lt {s s1 : Lexer} {ts : List Token} (h : Consumes s ts s1)
    (hts : ts ≠ []) (hne : s.current_token.type ≠ .TOKEN_EOF) : pending s1 < pending s := by
  cases h with
  | done s => exact absurd rfl hts
  | step s sa sb ts hn hrest =>
    exact lt_of_le_of_lt hrest.pending_le (next_token_pending_lt s sa hn hne)

theorem parser_pending (fuel : Nat) :
    (∀ s r, parse_factor fuel s = .ok r → pending r.2 ≤ pending s) ∧
    (∀ left s r, parse_term_loop fuel left s = .ok r → pending r.2 ≤ pending s) ∧
    (∀ s r, parse_term fuel s = .ok r → pending r.2 ≤ pending s) ∧
    (∀ left s r, parse_expression_loop fuel left s = .ok r → pending r.2 ≤ pending s) ∧
    (∀ s r, parse_expression fuel s = .ok r → pending r.2 ≤ pending s) := by
  induction fuel with
  | zero =>
    refine ⟨?_, ?_, ?_, ?_, ?_⟩ <;> intros <;>
      simp_all [parse_factor, parse_term_loop, parse_term, parse_expression_loop,
        parse_expression]
  | succ n ih =>
    obtain ⟨hf, htl, ht, hel, he⟩ := ih
    refine ⟨?_, ?_, ?_, ?_, ?_⟩
    · intro s r h
      rw [parse_factor_succ] at h
      split_ifs at h with c1 c2 c3
      · obtain ⟨x, hx, h2⟩ := Outcome.bind_eq_ok.1 h
        simp only [Outcome.ok.injEq] at h2
        subst h2
        exact next_token_pending_le s x hx
      · obtain ⟨x, hx, h2⟩ := Outcome.bind_eq_ok.1 h
        simp only [Outcome.ok.injEq] at h2
        subst h2
        exact next_token_pending_le s x hx
      · obtain ⟨x, hx, h2⟩ := Outcome.bind_eq_ok.1 h
        obtain ⟨y, hy, h3⟩ := Outcome.bind_eq_ok.1 h2
        split_ifs at h3
        obtain ⟨z, hz, h4⟩ := Outcome.bind_eq_ok.1 h3
        simp only [Outcome.ok.injEq] at h4
        subst h4
        exact le_trans (next_token_pending_le _ z hz)
          (le_trans (he x y hy) (next_token_pending_le s x hx))
    · intro left s r h
      rw [parse_term_loop_succ] at h
      split_ifs at h with c1
      · obtain ⟨x, hx, h2⟩ := Outcome.bind_eq_ok.1 h
        obtain ⟨y, hy, h3⟩ := Outcome.bind_eq_ok.1 h2
        exact le_trans (htl _ _ r h3) (le_trans (hf x y hy) (next_token_pending_le s x hx))
      · simp only [Outcome.ok.injEq] at h
        subst h
        exact le_refl _
    · intro s r h
      rw [parse_term_succ] at h
      obtain ⟨y, hy, h3⟩ := Outcome.bind_eq_ok.1 h
      exact le_trans (htl _ _ r h3) (hf s y hy)
    · intro left s r h
      rw [parse_expression_loop_succ] at h
      split_ifs at h with c1
      · obtain ⟨x, hx, h2⟩ := Outcome.bind_eq_ok.1 h
        obtain ⟨y, hy, h3⟩ := Outcome.bind_eq_ok.1 h2
        exact le_trans (hel _ _ r h3) (le_trans (ht x y hy) (next_token_pending_le s x hx))
      · simp only [Outcome.ok.injEq] at h
        subst h
        exact le_refl _
    · intro s r h
      rw [parse_expression_succ] at h
      obtain ⟨y, hy, h3⟩ := Outcome.bind_eq_ok.1 h
      exact le_trans (hel _ _ r h3) (ht s y hy)

theorem parser_returns (fuel : Nat) :
    (∀ s, 3 * pending s + 1 ≤ fuel → parse_factor fuel s ≠ .out_of_fuel) ∧
    (∀ left s, 3 * pending s + 1 ≤ fuel → parse_term_loop fuel left s ≠ .out_of_fuel) ∧
    (∀ s, 3 * pending s + 2 ≤ fuel → parse_term fuel s ≠ .out_of_fuel) ∧
    (∀ left s, 3 * pending s + 2 ≤ fuel →
      parse_expression_loop fuel left s ≠ .out_of_fuel) ∧
    (∀ s, 3 * pending s + 3 ≤ fuel → parse_expression fuel s ≠ .out_of_fuel) := by
  induction fuel with
  | zero =>
    refine ⟨?_, ?_, ?_, ?_, ?_⟩ <;> intros <;> omega
  | succ n ih =>
    obtain ⟨hf, htl, ht, hel, he⟩ := ih
    obtain ⟨pf, ptl, pt, pel, pe⟩ := parser_pending n
    refine ⟨?_, ?_, ?_, ?_, ?_⟩
    · intro s hb
      rw [parse_factor_succ]
      split_ifs with c1 c2 c3
      · exact Outcome.bind_ne_out_of_fuel (next_token_returns s) (fun _ _ => by simp)
      · exact Outcome.bind_ne_out_of_fuel (next_token_returns s) (fun _ _ => by simp)
      · refine Outcome.bind_ne_out_of_fuel (next_token_returns s) (fun x hx => ?_)
        have hlt := next_token_pending_lt s x hx (by rw [c3]; decide)
        refine Outcome.bind_ne_out_of_fuel (he x (by omega)) (fun y _ => ?_)
        split_ifs
        · simp
        · exact Outcome.bind_ne_out_of_fuel (next_token_returns _) (fun _ _ => by simp)
      · simp
    · intro left s hb
      rw [parse_term_loop_succ]
      split_ifs with c1
      · refine Outcome.bind_ne_out_of_fuel (next_token_returns s) (fun x hx => ?_)
        have hlt := next_token_pending_lt s x hx (by rcases c1 with c | c <;> rw [c] <;> decide)
        refine Outcome.bind_ne_out_of_fuel (hf x (by omega)) (fun y hy => ?_)
        have := pf x y hy
        exact htl _ _ (by omega)
      · simp
    · intro s hb
      rw [parse_term_succ]
      refine Outcome.bind_ne_out_of_fuel (hf s (by omega)) (fun y hy => ?_)
      have := pf s y hy
      exact htl _ _ (by omega)
    · intro left s hb
      rw [parse_expression_loop_succ]
      split_ifs with c1
      · refine Outcome.bind_ne_out_of_fuel (next_token_returns s) (fun x hx => ?_)
        have hlt := next_token_pending_lt s x hx (by rcases c1 with c | c <;> rw [c] <;> decide)
        refine Outcome.bind_ne_out_of_fuel (ht x (by omega)) (fun y hy => ?_)
        have := pt x y hy
        exact hel _ _ (by omega)
      · simp
    · intro s hb
      rw [parse_expression_succ]
      refine Outcome.bind_ne_out_of_fuel (ht s (by omega)) (fun y hy => ?_)
      have := pt s y hy
      exact hel _ _ (by omega)

theorem parse_statement_print_returns (fuel : Nat) (s : Lexer)
    (hb : 3 * pending s + 3 ≤ fuel) : parse_statement_print fuel s ≠ .out_of_fuel := by
  rw [parse_statement_print_eq]
  split_ifs
  · refine Outcome.bind_ne_out_of_fuel (next_token_returns s) (fun x hx => ?_)
    have := next_token_pending_le s x hx
    exact Outcome.bind_ne_out_of_fuel ((parser_returns fuel).2.2.2.2 x (by omega))
      (fun _ _ => by simp)
  · simp

theorem parse_statement_returns (fuel : Nat) (s : Lexer)
    (hb : 3 * pending s + 3 ≤ fuel) : parse_statement fuel s ≠ .out_of_fuel := by
  rw [parse_statement_eq]
  split_ifs
  · refine Outcome.bind_ne_out_of_fuel (next_token_returns s) (fun x hx => ?_)
    have h1 := next_token_pending_le s x hx
    split_ifs
    · refine Outcome.bind_ne_out_of_fuel (next_token_returns x) (fun y hy => ?_)
      have h2 := next_token_pending_le x y hy
      exact Outcome.bind_ne_out_of_fuel ((parser_returns fuel).2.2.2.2 y (by omega))
        (fun _ _ => by simp)
    · exact parse_statement_print_returns fuel x (by omega)
  · exact parse_statement_print_returns fuel s hb

theorem skip_semicolon_returns (s : Lexer) : skip_semicolon s ≠ .out_of_fuel := by
  unfold skip_semicolon
  split_ifs
  · exact next_token_returns s
  · simp

theorem skip_semicolon_pending (s s1 : Lexer) (h : skip_semicolon s = .ok s1) :
    pending s1 ≤ pending s := by
  unfold skip_semicolon at h
  split_ifs at h
  · exact next_token_pending_le s s1 h
  · simp only [Outcome.ok.injEq] at h
    rw [← h]

theorem evaluate_expression_returns (vars : List Variable) (node : ASTNode) :
    evaluate_expression vars node ≠ .out_of_fuel := by
  induction node with
  | number value => simp [evaluate_expression]
  | identifier value =>
    simp only [evaluate_expression]
    induction vars with
    | nil => simp [get_variable_value]
    | cons v rest ih =>
      simp only [get_variable_value]
      split_ifs
      · simp
      · exact ih
  | binary_op op left right ihl ihr =>
    simp only [evaluate_expression]
    cases hl : evaluate_expression vars left with
    | ok a =>
      cases hr : evaluate_expression vars right with
      | ok b =>
        simp only []
        split_ifs <;> simp
      | exit e => simp
      | out_of_fuel => exact absurd hr ihr
    | exit e => simp
    | out_of_fuel => exact absurd hl ihl
  | assign value right _ => simp [evaluate_expression]
  | print right _ => simp [evaluate_expression]

theorem execute_statement_returns (vars : List Variable) (printed : List Int)
    (stmt : ASTNode) : execute_statement vars printed stmt ≠ .out_of_fuel := by
  cases stmt with
  | assign name right =>
    simp only [execute_statement]
    cases h : evaluate_expression vars right with
    | ok a => simp
    | exit e => simp
    | out_of_fuel => exact absurd h (evaluate_expression_returns vars right)
  | print right =>
    simp only [execute_statement]
    cases h : evaluate_expression vars right with
    | ok a => simp
    | exit e => simp
    | out_of_fuel => exact absurd h (evaluate_expression_returns vars right)
  | number value => simp [execute_statement]
  | identifier value => simp [execute_statement]
  | binary_op op left right => simp [execute_statement]

theorem parse_statement_pending (fuel : Nat) (s s1 : Lexer) (stmt : ASTNode)
    (h : parse_statement fuel s = .ok (stmt, s1))
    (hne : s.current_token.type ≠ .TOKEN_EOF) : pending s1 < pending s := by
  obtain ⟨ts, _, hc, hts, _⟩ := parse_statement_sound fuel s s1 stmt h
  exact hc.pending_lt hts hne

theorem compile_pass1_returns : ∀ (fuel : Nat) (st : Run),
    3 * pending st.lexer + 4 ≤ fuel → compile_pass1 fuel st ≠ .out_of_fuel
  | 0, st, hb => by omega
  | fuel + 1, st, hb => by
    rw [compile_pass1_succ]
    by_cases c1 : st.lexer.current_token.type = .TOKEN_EOF
    · rw [if_pos c1]
      simp
    rw [if_neg c1]
    by_cases c2 : st.lexer.current_token.type = .TOKEN_NEWLINE
    · rw [if_pos c2]
      refine Outcome.bind_ne_out_of_fuel (next_token_returns _) (fun l hl => ?_)
      have := next_token_pending_lt _ l hl c1
      exact compile_pass1_returns fuel _ (by simp only []; omega)
    rw [if_neg c2]
    refine Outcome.bind_ne_out_of_fuel (parse_statement_returns fuel _ (by omega))
      (fun r hr => ?_)
    have h1 := parse_statement_pending fuel st.lexer r.2 r.1 hr c1
    refine Outcome.bind_ne_out_of_fuel (skip_semicolon_returns _) (fun l2 hl2 => ?_)
    have h2 := skip_semicolon_pending _ l2 hl2
    refine Outcome.bind_ne_out_of_fuel (execute_statement_returns _ _ _) (fun x _ => ?_)
    exact compile_pass1_returns fuel _ (by simp only []; omega)

theorem compile_pass2_returns : ∀ (fuel : Nat) (st : Run),
    3 * pending st.lexer + 4 ≤ fuel → compile_pass2 fuel st ≠ .out_of_fuel
  | 0, st, hb => by omega
  | fuel + 1, st, hb => by
    rw [compile_pass2_succ]
    by_cases c1 : st.lexer.current_token.type = .TOKEN_EOF
    · rw [if_pos c1]
      simp
    rw [if_neg c1]
    by_cases c2 : st.lexer.current_token.type = .TOKEN_NEWLINE
    · rw [if_pos c2]
      refine Outcome.bind_ne_out_of_fuel (next_token_returns _) (fun l hl => ?_)
      have := next_token_pending_lt _ l hl c1
      exact compile_pass2_returns fuel _ (by simp only []; omega)
    rw [if_neg c2]
    refine Outcome.bind_ne_out_of_fuel (parse_statement_returns fuel _ (by omega))
      (fun r hr => ?_)
    have h1 := parse_statement_pending fuel st.lexer r.2 r.1 hr c1
    refine Outcome.bind_ne_out_of_fuel (skip_semicolon_returns _) (fun l2 hl2 => ?_)
    have h2 := skip_semicolon_pending _ l2 hl2
    exact compile_pass2_returns fuel _ (by simp only []; omega)

theorem compile_pass1_ends : ∀ (fuel : Nat) (st st1 : Run),
    compile_pass1 fuel st = .ok st1 → st1.lexer.current_token.type = .TOKEN_EOF
  | 0, st, st1, h => by simp [compile_pass1] at h
  | fuel + 1, st, st1, h => by
    rw [compile_pass1_succ] at h
    by_cases c1 : st.lexer.current_token.type = .TOKEN_EOF
    · rw [if_pos c1] at h
      simp only [Outcome.ok.injEq] at h
      rw [← h]
      exact c1
    rw [if_neg c1] at h
    by_cases c2 : st.lexer.current_token.type = .TOKEN_NEWLINE
    · rw [if_pos c2] at h
      obtain ⟨l, _, h2⟩ := Outcome.bind_eq_ok.1 h
      exact compile_pass1_ends fuel _ st1 h2
    rw [if_neg c2] at h
    obtain ⟨r, _, h2⟩ := Outcome.bind_eq_ok.1 h
    obtain ⟨l2, _, h3⟩ := Outcome.bind_eq_ok.1 h2
    obtain ⟨x, _, h4⟩ := Outcome.bind_eq_ok.1 h3
    exact compile_pass1_ends fuel _ st1 h4

theorem compile_pass2_ends : ∀ (fuel : Nat) (st st1 : Run),
    compile_pass2 fuel st = .ok st1 → st1.lexer.current_token.type = .TOKEN_EOF
  | 0, st, st1, h => by simp [compile_pass2] at h
  | fuel + 1, st, st1, h => by
    rw [compile_pass2_succ] at h
    by_cases c1 : st.lexer.current_token.type = .TOKEN_EOF
    · rw [if_pos c1] at h
      simp only [Outcome.ok.injEq] at h
      rw [← h]
      exact c1
    rw [if_neg c1] at h
    by_cases c2 : st.lexer.current_token.type = .TOKEN_NEWLINE
    · rw [if_pos c2] at h
      obtain ⟨l, _, h2⟩ := Outcome.bind_eq_ok.1 h
      exact compile_pass2_ends fuel _ st1 h2
    rw [if_neg c2] at h
    obtain ⟨r, _, h2⟩ := Outcome.bind_eq_ok.1 h
    obtain ⟨l2, _, h3⟩ := Outcome.bind_eq_ok.1 h2
    exact compile_pass2_ends fuel _ st1 h3
theorem compile_interpret_returns (src : List Char) (fuel : Nat)
    (hfuel : 3 * src.length + 4 ≤ fuel) : compile_interpret fuel src ≠ .out_of_fuel := by
  rw [compile_interpret_eq]
  refine Outcome.bind_ne_out_of_fuel (next_token_returns _) (fun l0 hl0 => ?_)
  have h0 : pending l0 ≤ src.length := next_token_pending _ l0 hl0
  exact Outcome.bind_ne_out_of_fuel (compile_pass1_returns fuel _ (by simp only []; omega))
    (fun _ _ => by simp)

theorem compile_interpret_source (src : List Char) (fuel : Nat) (st : Run)
    (h : compile_interpret fuel src = .ok st) :
    st.lexer.source_code = src ∧ st.lexer.current_token.type = .TOKEN_EOF := by
  rw [compile_interpret_eq] at h
  obtain ⟨l0, hl0, h2⟩ := Outcome.bind_eq_ok.1 h
  obtain ⟨st0, hp, h3⟩ := Outcome.bind_eq_ok.1 h2
  simp only [Outcome.ok.injEq] at h3
  subst h3
  obtain ⟨stmts, hr⟩ := pass1_reaches src fuel _ st0 [] hp (Pass1Reaches.start l0 hl0)
  exact ⟨(pass1_invariant src stmts st0 hr).2.2, compile_pass1_ends fuel _ st0 hp⟩

theorem compile_returns (src : List Char) (fuel : Nat)
    (hfuel : 3 * src.length + 4 ≤ fuel) : compile fuel src ≠ .out_of_fuel := by
  rw [compile_eq]
  refine Outcome.bind_ne_out_of_fuel (compile_interpret_returns src fuel hfuel)
    (fun st1 h1 => ?_)
  have hsrc := (compile_interpret_source src fuel st1 h1).1
  refine Outcome.bind_ne_out_of_fuel (next_token_returns _) (fun l hl => ?_)
  have h0 := next_token_pending _ l hl
  have hlen : (reset st1.lexer).source_code.length - (reset st1.lexer).current_pos =
      src.length := by
    obtain ⟨⟨sc, pos, line, tok⟩, vars, output, printed, first_var⟩ := st1
    simp only at hsrc
    subst hsrc
    rfl
  rw [hlen] at h0
  exact Outcome.bind_ne_out_of_fuel (compile_pass2_returns fuel _ (by simp only []; omega))
    (fun _ _ => by simp)

theorem compile_ends (src : List Char) (fuel : Nat) (st : Run)
    (h : compile fuel src = .ok st) : st.lexer.current_token.type = .TOKEN_EOF := by
  rw [compile_eq] at h
  obtain ⟨st1, _, h2⟩ := Outcome.bind_eq_ok.1 h
  obtain ⟨l, _, h3⟩ := Outcome.bind_eq_ok.1 h2
  obtain ⟨st2, hp, h4⟩ := Outcome.bind_eq_ok.1 h3
  simp only [Outcome.ok.injEq] at h4
  subst h4
  exact compile_pass2_ends fuel _ st2 hp

/-- Claim C20.  Lexing and parsing terminate.  With a budget of at least
`3 * src.length + 4` nested calls and loop iterations `compile` returns on the
buffer `src`: the result is a final state or a fatal error, never
`out_of_fuel`, it is the same for every such budget, and a pass that completes
ends at EndOfInput.  On the way: a returning `next_token` keeps the buffer, never moves
the cursor backwards, leaves it within the buffer, and advances it by at least
one character unless the token is EndOfInput; `parse_factor` calls
`parse_expression` only in the branch of `(`, on the state after the
`next_token` that consumed it, which has strictly less left to read; and a
statement that parses consumes at least one token. -/
theorem C20_lexing_and_parsing_terminate (src : List Char) (fuel : Nat)
    (hfuel : 3 * src.length + 4 ≤ fuel) :
    compile_interpret fuel src ≠ .out_of_fuel ∧ compile fuel src ≠ .out_of_fuel ∧
    compile fuel src = compile (3 * src.length + 4) src ∧
    (∀ st, compile_interpret fuel src = .ok st →
      st.lexer.current_token.type = .TOKEN_EOF) ∧
    (∀ st, compile fuel src = .ok st → st.lexer.current_token.type = .TOKEN_EOF) ∧
    (∀ s s1, next_token s = .ok s1 →
      s1.source_code = s.source_code ∧ s.current_pos ≤ s1.current_pos ∧
      (s.current_pos ≤ s.source_code.length → s1.current_pos ≤ s.source_code.length) ∧
      (s.current_pos + 1 ≤ s1.current_pos ∨ s1.current_token.type = .TOKEN_EOF)) ∧
    (∀ n s, s.current_token.type ≠ .TOKEN_LPAREN →
      parse_factor (n + 1) s = parse_factor 1 s) ∧
    (∀ n s, s.current_token.type = .TOKEN_LPAREN →
      parse_factor (n + 1) s =
        (next_token s).bind (fun s1 =>
          (parse_expression n s1).bind (fun r =>
            if r.2.current_token.type ≠ .TOKEN_RPAREN then
              .exit (.expected_rparen r.2.current_line)
            else (next_token r.2).bind (fun s3 => .ok (r.1, s3))))) ∧
    (∀ s s1, s.current_token.type = .TOKEN_LPAREN → next_token s = .ok s1 →
      pending s1 < pending s) ∧
    (∀ n s stmt s1, parse_statement n s = .ok (stmt, s1) →
      ∃ ts, Consumes s ts s1 ∧ ts ≠ [] ∧ pending s1 ≤ pending s ∧
        (s.current_token.type ≠ .TOKEN_EOF → pending s1 < pending s)) := by
  refine ⟨compile_interpret_returns src fuel hfuel, compile_returns src fuel hfuel, ?_,
    fun st h => (compile_interpret_source src fuel st h).2, compile_ends src fuel, ?_, ?_, ?_,
    ?_, ?_⟩
  · obtain ⟨more, rfl⟩ := Nat.exists_eq_add_of_le hfuel
    exact compile_fuel_mono src _ more (compile_returns src _ (le_refl _))
  · intro s s1 h
    obtain ⟨h1, h2, h3, h4, _⟩ := next_token_progress s s1 h
    refine ⟨h1, h2, h3, ?_⟩
    by_cases c : s1.current_token.type = .TOKEN_EOF
    · exact Or.inr c
    · exact Or.inl (h4 c).1
  · intro n s h
    rw [parse_factor_succ, parse_factor_succ, if_neg h, if_neg h]
  · intro n s h
    rw [parse_factor_succ, if_neg (by rw [h]; decide), if_neg (by rw [h]; decide), if_pos h]
  · intro s s1 h hn
    exact next_token_pending_lt s s1 hn (by rw [h]; decide)
  · intro n s stmt s1 h
    obtain ⟨ts, _, hc, hts, _⟩ := parse_statement_sound n s s1 stmt h
    exact ⟨ts, hc, hts, hc.pending_le, fun hne => hc.pending_lt hts hne⟩

theorem C20_lexing_and_parsing_terminate_witness :
    3 * "x = (1 + 2\nprint x".toList.length + 4 ≤ 58 ∧
      compile 58 "x = (1 + 2\nprint x".toList = .exit (.expected_rparen 2) ∧
      3 * "a = 1;print a".toList.length + 4 ≤ 43 ∧
      compile 43 "a = 1;print a".toList ≠ .out_of_fuel ∧
      compile 43 "a = 1;print a".toList = compile (3 * "a = 1;print a".toList.length + 4)
        "a = 1;print a".toList ∧
      (compile 20 "a = 1;print a".toList).map
          (fun st => (st.lexer.current_pos, st.lexer.current_token.type, st.printed)) =
        .ok (13, .TOKEN_EOF, [1]) :=
  ⟨by decide, by decide!, by decide,
    (C20_lexing_and_parsing_terminate "a = 1;print a".toList 43 (by decide)).2.1,
    (C20_lexing_and_parsing_terminate "a = 1;print a".toList 43 (by decide)).2.2.1,
    by decide!⟩

/-! ## Lexer: tokens of a known text -/

theorem char_at_eq_head (src : List Char) (pos : Nat) :
    char_at src pos = (src.drop pos).headD NUL := by
  unfold char_at
  rw [List.headD_eq_head?_getD, List.head?_drop, List.getD_eq_getElem?_getD]

theorem remaining_add (s : Lexer) (k : Nat) :
    s.source_code.drop (s.current_pos + k) = (remaining s).drop k := by
  unfold remaining
  rw [List.drop_drop, Nat.add_comm]

theorem next_char_of_remaining (s : Lexer) (c : Char) (r : List Char)
    (h : remaining s = c :: r) (hb : is_blank c = false) :
    skip_blanks s.source_code s.current_pos = s.current_pos ∧ next_char s = c := by
  have h1 : skip_blanks s.source_code s.current_pos = s.current_pos := by
    unfold skip_blanks
    unfold remaining at h
    rw [h]
    simp [List.takeWhile_cons, hb]
  refine ⟨h1, ?_⟩
  unfold next_char
  rw [h1, char_at_eq_head]
  unfold remaining at h
  rw [h]
  rfl

theorem next_token_blank (src : List Char) (pos line : Nat) (tok : Token) (c : Char)
    (r : List Char) (h : src.drop pos = c :: r) (hb : is_blank c = true) :
    next_token ⟨src, pos, line, tok⟩ = next_token ⟨src, pos + 1, line, tok⟩ := by
  have hr : src.drop (pos + 1) = r := by
    rw [← List.drop_drop, h]
    rfl
  have hs : skip_blanks src pos = skip_blanks src (pos + 1) := by
    unfold skip_blanks
    rw [h, hr]
    simp [List.takeWhile_cons, hb]
    omega
  rw [next_token_eq, next_token_eq]
  unfold next_char
  simp only []
  rw [hs]
theorem switch_token_type_some (c : Char) (t : TokenType) (h : switch_token_type c = some t) :
    is_blank c = false ∧ c ≠ NUL ∧ c ≠ '\n' ∧ isdigit c = false ∧ isalpha c = false := by
  unfold switch_token_type at h
  split_ifs at h with h1 h2 h3 h4 h5 h6 h7 h8
  · subst h1; decide
  · subst h2; decide
  · subst h3; decide
  · subst h4; decide
  · subst h5; decide
  · subst h6; decide
  · subst h7; decide
  · subst h8; decide

theorem next_token_single (s : Lexer) (c : Char) (r : List Char) (t : TokenType)
    (h : remaining s = c :: r) (ht : switch_token_type c = some t) :
    next_token s =
      .ok ⟨s.source_code, s.current_pos + 1, s.current_line, ⟨t, [c], s.current_line⟩⟩ := by
  obtain ⟨hb, h1, h2, h3, h4⟩ := switch_token_type_some c t ht
  obtain ⟨hs, hc⟩ := next_char_of_remaining s c r h hb
  rw [next_token_eq, hc, hs, if_neg h1, if_neg h2, if_neg (by simp [h3]),
    if_neg (by simp [h4]), ht]
  rfl

theorem takeWhile_run (test : Char → Bool) (run rest : List Char)
    (h1 : ∀ c ∈ run, test c = true) (h2 : ∀ c, rest.head? = some c → test c = false) :
    (run ++ rest).takeWhile test = run := by
  induction run with
  | nil =>
    cases rest with
    | nil => rfl
    | cons c cs => simp [List.takeWhile_cons, h2 c rfl]
  | cons c cs ih =>
    simp only [List.cons_append, List.takeWhile_cons, h1 c (List.mem_cons_self _ _), if_true]
    rw [ih (fun x hx => h1 x (List.mem_cons_of_mem _ hx))]

theorem isdigit_not_blank (c : Char) (h : isdigit c = true) :
    is_blank c = false ∧ c ≠ NUL ∧ c ≠ '\n' := by
  simp only [isdigit, Bool.decide_and, Bool.and_eq_true, decide_eq_true_eq] at h
  refine ⟨?_, ?_, ?_⟩
  · simp only [is_blank, Bool.decide_or, Bool.or_eq_false_iff, decide_eq_false_iff_not]
    constructor <;> rintro rfl <;> simp at h
  · rintro rfl
    simp [NUL] at h
  · rintro rfl
    simp at h

theorem isalpha_not_blank (c : Char) (h : isalpha c = true) : is_blank c = false := by
  simp only [isalpha, Bool.decide_or, Bool.decide_and, Bool.or_eq_true, Bool.and_eq_true,
    decide_eq_true_eq] at h
  simp only [is_blank, Bool.decide_or, Bool.or_eq_false_iff, decide_eq_false_iff_not]
  constructor <;> rintro rfl <;> simp at h

theorem delimits_digit (rest : List Char) (h : delimits rest) :
    ∀ c, rest.head? = some c → isdigit c = false := by
  intro c hc
  have := h c hc
  simp only [is_ident_char, isalnum, Bool.or_eq_false_iff] at this
  exact this.1.2

theorem next_token_number (s : Lexer) (digits rest : List Char)
    (h : remaining s = digits ++ rest) (hne : digits ≠ [])
    (hd : digits.all isdigit = true) (hrest : delimits rest) :
    next_token s =
      .ok ⟨s.source_code, s.current_pos + digits.length, s.current_line,
        ⟨.TOKEN_NUMBER, digits, s.current_token.line⟩⟩ := by
  cases digits with
  | nil => exact absurd rfl hne
  | cons c cs =>
    have hall : ∀ x ∈ c :: cs, isdigit x = true := by
      simpa using hd
    have hc := hall c (List.mem_cons_self _ _)
    obtain ⟨hb, h1, h2⟩ := isdigit_not_blank c hc
    obtain ⟨hs, hnc⟩ := next_char_of_remaining s c (cs ++ rest) h hb
    have hrun : scan_run isdigit s.source_code s.current_pos = c :: cs := by
      unfold scan_run
      unfold remaining at h
      rw [h]
      exact takeWhile_run isdigit (c :: cs) rest hall (delimits_digit rest hrest)
    rw [next_token_eq, hnc, hs, if_neg h1, if_neg h2, if_pos hc, hrun]

theorem next_token_identifier (s : Lexer) (c : Char) (cs rest : List Char)
    (h : remaining s = c :: cs ++ rest) (hc : isalpha c = true)
    (hcs : cs.all is_ident_char = true) (hp : c :: cs ≠ "print".toList)
    (hrest : delimits rest) :
    next_token s =
      .ok ⟨s.source_code, s.current_pos + (c :: cs).length, s.current_line,
        ⟨.TOKEN_IDENTIFIER, c :: cs, s.current_token.line⟩⟩ := by
  have hb := isalpha_not_blank c hc
  obtain ⟨hs, hnc⟩ := next_char_of_remaining s c (cs ++ rest) h hb
  have hall : ∀ x ∈ c :: cs, is_ident_char x = true := by
    intro x hx
    rcases List.mem_cons.1 hx with hx | hx
    · rw [hx]
      simp [is_ident_char, isalnum, hc]
    · exact (List.all_eq_true.1 hcs) x hx
  have hrun : scan_run is_ident_char s.source_code s.current_pos = c :: cs := by
    unfold scan_run
    unfold remaining at h
    rw [h]
    exact takeWhile_run is_ident_char (c :: cs) rest hall hrest
  have := next_token_of_alpha s (by
    have : char_at s.source_code (skip_blanks s.source_code s.current_pos) = c := hnc
    rw [this]
    exact hc)
  rw [this, hs, hrun, if_neg hp]

theorem next_token_end (s : Lexer) (h : remaining s = []) :
    next_token s =
      .ok ⟨s.source_code, s.current_pos, s.current_line,
        ⟨.TOKEN_EOF, s.current_token.value, s.current_token.line⟩⟩ := by
  have hs : skip_blanks s.source_code s.current_pos = s.current_pos := by
    unfold skip_blanks
    unfold remaining at h
    rw [h]
    rfl
  have hc : next_char s = NUL := by
    unfold next_char
    rw [hs, char_at_eq_head]
    unfold remaining at h
    rw [h]
    rfl
  rw [next_token_eq, if_pos hc, hs]
/-! ## Parser: the rendering of a tree -/

theorem remaining_after (s s1 : Lexer) (text rest : List Char)
    (hsrc : s1.source_code = s.source_code)
    (hpos : s1.current_pos = s.current_pos + text.length)
    (h : remaining s = text ++ rest) : remaining s1 = rest := by
  have := remaining_add s text.length
  rw [h, List.drop_left] at this
  unfold remaining
  rw [hsrc, hpos]
  exact this

theorem parse_fuel_pos (e : ASTNode) : 1 ≤ parse_fuel e := by
  cases e <;> simp [parse_fuel]

theorem operator_token (op : Char) (h : is_operator op = true) :
    ∃ t, switch_token_type op = some t ∧
      (t = .TOKEN_MULTIPLY ∨ t = .TOKEN_DIVIDE ∨ t = .TOKEN_PLUS ∨ t = .TOKEN_MINUS) := by
  simp only [is_operator, Bool.decide_or, Bool.or_eq_true, decide_eq_true_eq] at h
  rcases h with rfl | rfl | rfl | rfl
  · exact ⟨.TOKEN_PLUS, by decide, by simp⟩
  · exact ⟨.TOKEN_MINUS, by decide, by simp⟩
  · exact ⟨.TOKEN_MULTIPLY, by decide, by simp⟩
  · exact ⟨.TOKEN_DIVIDE, by decide, by simp⟩

theorem parse_term_loop_stop (fuel : Nat) (left : ASTNode) (s : Lexer)
    (h1 : s.current_token.type ≠ .TOKEN_MULTIPLY) (h2 : s.current_token.type ≠ .TOKEN_DIVIDE) :
    parse_term_loop (fuel + 1) left s = .ok (left, s) := by
  rw [parse_term_loop_succ, if_neg (by simp [h1, h2])]

theorem parse_expression_loop_stop (fuel : Nat) (left : ASTNode) (s : Lexer)
    (h1 : s.current_token.type ≠ .TOKEN_PLUS) (h2 : s.current_token.type ≠ .TOKEN_MINUS) :
    parse_expression_loop (fuel + 1) left s = .ok (left, s) := by
  rw [parse_expression_loop_succ, if_neg (by simp [h1, h2])]

/-- One operator between two factors, up to a token that ends the expression:
`parse_expression` returns the binary operation on the two trees. -/
theorem parse_expression_binary (m : Nat) (op : Char) (t : TokenType) (l r : ASTNode)
    (sa sop sb send : Lexer)
    (ht : t = .TOKEN_MULTIPLY ∨ t = .TOKEN_DIVIDE ∨ t = .TOKEN_PLUS ∨ t = .TOKEN_MINUS)
    (hl : parse_factor (m + 2) sa = .ok (l, sop))
    (hty : sop.current_token.type = t) (hval : sop.current_token.value = [op])
    (hn : next_token sop = .ok sb)
    (hr : parse_factor (m + 1) sb = .ok (r, send))
    (he1 : send.current_token.type ≠ .TOKEN_MULTIPLY)
    (he2 : send.current_token.type ≠ .TOKEN_DIVIDE)
    (he3 : send.current_token.type ≠ .TOKEN_PLUS)
    (he4 : send.current_token.type ≠ .TOKEN_MINUS) :
    parse_expression (m + 4) sa = .ok (.binary_op op l r, send) := by
  have hop : sop.current_token.value.getD 0 NUL = op := by
    rw [hval]
    rfl
  rw [parse_expression_succ, parse_term_succ, hl]
  simp only [Outcome.bind]
  rcases ht with ht | ht | ht | ht
  · rw [parse_term_loop_succ, if_pos (by rw [hty, ht]; simp), hn]
    simp only [Outcome.bind]
    rw [hr]
    simp only []
    rw [hop, parse_term_loop_stop m _ _ he1 he2]
    simp only []
    rw [parse_expression_loop_stop _ _ _ he3 he4]
  · rw [parse_term_loop_succ, if_pos (by rw [hty, ht]; simp), hn]
    simp only [Outcome.bind]
    rw [hr]
    simp only []
    rw [hop, parse_term_loop_stop m _ _ he1 he2]
    simp only []
    rw [parse_expression_loop_stop _ _ _ he3 he4]
  · rw [parse_term_loop_stop _ _ _ (by rw [hty, ht]; decide) (by rw [hty, ht]; decide)]
    simp only []
    rw [parse_expression_loop_succ, if_pos (by rw [hty, ht]; simp), hn]
    simp only [Outcome.bind]
    rw [parse_term_succ, hr]
    simp only [Outcome.bind]
    rw [parse_term_loop_stop m _ _ he1 he2]
    simp only []
    rw [hop, parse_expression_loop_stop _ _ _ he3 he4]
  · rw [parse_term_loop_stop _ _ _ (by rw [hty, ht]; decide) (by rw [hty, ht]; decide)]
    simp only []
    rw [parse_expression_loop_succ, if_pos (by rw [hty, ht]; simp), hn]
    simp only [Outcome.bind]
    rw [parse_term_succ, hr]
    simp only [Outcome.bind]
    rw [parse_term_loop_stop m _ _ he1 he2]
    simp only []
    rw [hop, parse_expression_loop_stop _ _ _ he3 he4]
theorem delimits_cons (c : Char) (r : List Char) (h : is_ident_char c = false) :
    delimits (c :: r) := by
  intro x hx
  simp only [List.head?_cons, Option.some.injEq] at hx
  rw [← hx]
  exact h

/-- The parser on the rendering of a well-formed tree, followed by a text
that cannot continue a token: from a lexer state `s0` whose cursor is at the
rendering, the next token is lexed and `parse_factor` returns the tree, in the
state the lexer reaches from the end of the rendering. -/
theorem parse_factor_render (e : ASTNode) : well_formed e = true →
    ∀ (fuel : Nat) (s0 : Lexer) (rest : List Char), parse_fuel e ≤ fuel →
      remaining s0 = render e ++ rest → delimits rest →
      ∃ s1, s1.source_code = s0.source_code ∧
        s1.current_pos = s0.current_pos + (render e).length ∧
        s1.current_line = s0.current_line ∧
        ∀ s2, next_token s1 = .ok s2 →
          ∃ s, next_token s0 = .ok s ∧ parse_factor fuel s = .ok (e, s2) := by
  induction e with
  | number value =>
    intro hwf fuel s0 rest hfuel hrem hrest
    simp only [well_formed, Bool.and_eq_true, decide_eq_true_eq] at hwf
    obtain ⟨k, rfl⟩ : ∃ k, fuel = k + 1 := ⟨fuel - 1, by simp [parse_fuel] at hfuel; omega⟩
    have hn := next_token_number s0 value rest hrem hwf.1 hwf.2 hrest
    refine ⟨⟨s0.source_code, s0.current_pos + value.length, s0.current_line,
      ⟨.TOKEN_NUMBER, value, s0.current_token.line⟩⟩, rfl, rfl, rfl, fun s2 h2 => ⟨_, hn, ?_⟩⟩
    rw [parse_factor_succ, if_pos rfl, h2]
    rfl
  | identifier value =>
    intro hwf fuel s0 rest hfuel hrem hrest
    obtain ⟨k, rfl⟩ : ∃ k, fuel = k + 1 := ⟨fuel - 1, by simp [parse_fuel] at hfuel; omega⟩
    cases value with
    | nil => simp [well_formed] at hwf
    | cons c cs =>
      simp only [well_formed, Bool.and_eq_true, decide_eq_true_eq] at hwf
      have hn := next_token_identifier s0 c cs rest hrem hwf.1.1 hwf.1.2 hwf.2 hrest
      refine ⟨⟨s0.source_code, s0.current_pos + (c :: cs).length, s0.current_line,
        ⟨.TOKEN_IDENTIFIER, c :: cs, s0.current_token.line⟩⟩, rfl, rfl, rfl,
        fun s2 h2 => ⟨_, hn, ?_⟩⟩
      rw [parse_factor_succ, if_neg (by simp), if_pos rfl, h2]
      rfl
  | binary_op op left right ihl ihr =>
    intro hwf fuel s0 rest hfuel hrem hrest
    simp only [well_formed, Bool.and_eq_true] at hwf
    obtain ⟨⟨hop, hwl⟩, hwr⟩ := hwf
    obtain ⟨m, rfl⟩ : ∃ m, fuel = m + 5 := by
      have := parse_fuel_pos left
      refine ⟨fuel - 5, ?_⟩
      simp only [parse_fuel] at hfuel
      omega
    have hml : parse_fuel left ≤ m + 2 := by
      simp only [parse_fuel] at hfuel
      omega
    have hmr : parse_fuel right ≤ m + 1 := by
      simp only [parse_fuel] at hfuel
      omega
    obtain ⟨t, hsw, ht⟩ := operator_token op hop
    obtain ⟨src, pos, line, tok⟩ := s0
    have hrem0 : remaining ⟨src, pos, line, tok⟩ =
        '(' :: (render left ++ (' ' :: op :: ' ' :: (render right ++ ')' :: rest))) := by
      rw [hrem]
      simp [render]
    -- the token `(`
    have hlp := next_token_single ⟨src, pos, line, tok⟩ '(' _ .TOKEN_LPAREN hrem0 (by decide)
    have hrem1 : remaining ⟨src, pos + 1, line, ⟨.TOKEN_LPAREN, ['('], line⟩⟩ =
        render left ++ (' ' :: op :: ' ' :: (render right ++ ')' :: rest)) :=
      remaining_after ⟨src, pos, line, tok⟩ _ ['('] _ rfl rfl hrem0
    -- the left operand
    obtain ⟨s1, h1s, h1p, h1l, h1⟩ := ihl hwl (m + 2) _ _ hml hrem1
      (delimits_cons ' ' _ (by decide))
    have hrem2 : remaining s1 = ' ' :: op :: ' ' :: (render right ++ ')' :: rest) :=
      remaining_after _ s1 _ _ h1s h1p hrem1
    obtain ⟨src1, pos1, line1, tok1⟩ := s1
    simp only at h1s h1p h1l
    subst h1s h1l
    -- the operator
    have hrem3 : remaining ⟨src1, pos1 + 1, line1, tok1⟩ =
        op :: ' ' :: (render right ++ ')' :: rest) :=
      remaining_after ⟨src1, pos1, line1, tok1⟩ _ [' '] _ rfl rfl hrem2
    have hopn : next_token ⟨src1, pos1, line1, tok1⟩ =
        .ok ⟨src1, pos1 + 1 + 1, line1, ⟨t, [op], line1⟩⟩ := by
      rw [next_token_blank src1 pos1 line1 tok1 ' ' _ hrem2 (by decide)]
      exact next_token_single _ op _ t hrem3 hsw
    obtain ⟨sa, hsa, hpl⟩ := h1 _ hopn
    -- the right operand
    have hrem4 : remaining ⟨src1, pos1 + 1 + 1, line1, ⟨t, [op], line1⟩⟩ =
        ' ' :: (render right ++ ')' :: rest) :=
      remaining_after ⟨src1, pos1 + 1, line1, tok1⟩ _ [op] _ rfl rfl hrem3
    have hrem5 : remaining ⟨src1, pos1 + 1 + 1 + 1, line1, ⟨t, [op], line1⟩⟩ =
        render right ++ ')' :: rest :=
      remaining_after ⟨src1, pos1 + 1 + 1, line1, ⟨t, [op], line1⟩⟩ _ [' '] _ rfl rfl hrem4
    obtain ⟨s3, h3s, h3p, h3l, h3⟩ := ihr hwr (m + 1) _ _ hmr hrem5
      (delimits_cons ')' _ (by decide))
    have hrem6 : remaining s3 = ')' :: rest := remaining_after _ s3 _ _ h3s h3p hrem5
    obtain ⟨src3, pos3, line3, tok3⟩ := s3
    simp only at h3s h3p h3l
    subst h3s h3l
    have hrp := next_token_single ⟨src3, pos3, line3, tok3⟩ ')' rest .TOKEN_RPAREN hrem6
      (by decide)
    obtain ⟨sb, hsb, hpr⟩ := h3 _ hrp
    have hsb2 : next_token ⟨src3, pos1 + 1 + 1, line3, ⟨t, [op], line3⟩⟩ = .ok sb := by
      rw [next_token_blank src3 (pos1 + 1 + 1) line3 _ ' ' _ hrem4 (by decide)]
      exact hsb
    -- the expression between the parentheses
    have hexpr := parse_expression_binary m op t left right sa _ sb _ ht hpl rfl rfl hsb2 hpr
      (by simp) (by simp) (by simp) (by simp)
    refine ⟨⟨src3, pos3 + 1, line3, ⟨.TOKEN_RPAREN, [')'], line3⟩⟩, rfl, ?_, rfl,
      fun s2 h2 => ⟨_, hlp, ?_⟩⟩
    · simp only [render, List.length_append, List.length_cons, List.length_nil] at h1p h3p ⊢
      omega
    · rw [parse_factor_succ, if_neg (by simp), if_neg (by simp), if_pos rfl, hsa]
      simp only [Outcome.bind]
      rw [hexpr]
      simp only []
      rw [if_neg (by simp), h2]
  | assign value right _ => intro hwf; simp [well_formed] at hwf
  | print right _ => intro hwf; simp [well_formed] at hwf
theorem parse_expression_render (e : ASTNode) (fuel : Nat) (hwf : well_formed e = true)
    (hfuel : parse_fuel e + 2 ≤ fuel) :
    ∃ s s1, next_token (initial_lexer (render e)) = .ok s ∧
      parse_expression fuel s = .ok (e, s1) ∧
      s1.current_token.type = .TOKEN_EOF ∧ s1.current_pos = (render e).length ∧
      s1.source_code = render e := by
  obtain ⟨k, rfl⟩ : ∃ k, fuel = k + 3 := by
    have := parse_fuel_pos e
    exact ⟨fuel - 3, by omega⟩
  have hrem : remaining (initial_lexer (render e)) = render e ++ [] := by
    simp [remaining, initial_lexer]
  obtain ⟨s1, h1s, h1p, h1l, h1⟩ := parse_factor_render e hwf (k + 1) _ [] (by omega) hrem
    (fun c hc => by simp at hc)
  have hrem1 : remaining s1 = [] := remaining_after _ s1 _ _ h1s h1p hrem
  have hend := next_token_end s1 hrem1
  obtain ⟨s, hs, hp⟩ := h1 _ hend
  refine ⟨s, ⟨s1.source_code, s1.current_pos, s1.current_line,
    ⟨.TOKEN_EOF, s1.current_token.value, s1.current_token.line⟩⟩, hs, ?_, rfl, ?_, h1s⟩
  · rw [parse_expression_succ, parse_term_succ, hp]
    simp only [Outcome.bind]
    rw [parse_term_loop_stop k _ _ (by simp) (by simp)]
    simp only []
    rw [parse_expression_loop_stop _ _ _ (by simp) (by simp)]
  · simp only [h1p]
    simp [initial_lexer]

theorem parse_expression_of_render (e : ASTNode) (fuel : Nat) (hwf : well_formed e = true)
    (hfuel : parse_fuel e + 2 ≤ fuel) : parse_expression_of fuel (render e) = .ok e := by
  obtain ⟨s, s1, hs, hp, _⟩ := parse_expression_render e fuel hwf hfuel
  unfold parse_expression_of
  rw [hs]
  simp only []
  rw [hp]
  rfl

theorem render_injective (e1 e2 : ASTNode) (h1 : well_formed e1 = true)
    (h2 : well_formed e2 = true) (h : render e1 = render e2) : e1 = e2 := by
  have p1 := parse_expression_of_render e1 (parse_fuel e1 + parse_fuel e2 + 2) h1 (by omega)
  have p2 := parse_expression_of_render e2 (parse_fuel e1 + parse_fuel e2 + 2) h2 (by omega)
  rw [h, p2] at p1
  simp only [Outcome.ok.injEq] at p1
  exact p1.symm

/-- Claim C19.  Parsing undoes rendering.  For a well-formed expression tree `e`
and a budget of at least `parse_fuel e + 2`, lexing the text that
`generate_expression` emits for `e` and parsing it with `parse_expression`
returns `e`, with the lexer at EndOfInput and the cursor at the end of the
text; the emitted text is the reference rendering; two well-formed trees with
the same text are equal; and the text emitted for the parsed tree is the text
that was parsed. -/
theorem C19_parsing_undoes_rendering (e : ASTNode) (fuel : Nat)
    (hwf : well_formed e = true) (hfuel : parse_fuel e + 2 ≤ fuel) :
    (∃ s s1, next_token (initial_lexer (generate_expression e [])) = .ok s ∧
      parse_expression fuel s = .ok (e, s1) ∧
      s1.current_token.type = .TOKEN_EOF ∧
      s1.current_pos = (generate_expression e []).length ∧
      s1.source_code = generate_expression e []) ∧
    parse_expression_of fuel (generate_expression e []) = .ok e ∧
    generate_expression e [] = render e ∧
    (∀ e2, well_formed e2 = true → generate_expression e2 [] = generate_expression e [] →
      e2 = e) ∧
    (∀ tree, parse_expression_of fuel (generate_expression e []) = .ok tree →
      generate_expression tree [] = generate_expression e []) := by
  have hg : ∀ x, generate_expression x [] = render x := by
    intro x
    rw [generate_expression_render]
    rfl
  rw [hg e]
  refine ⟨parse_expression_render e fuel hwf hfuel,
    parse_expression_of_render e fuel hwf hfuel, rfl, ?_, ?_⟩
  · intro e2 h2 h
    rw [hg e2] at h
    exact render_injective e2 e h2 hwf h
  · intro tree ht
    rw [parse_expression_of_render e fuel hwf hfuel] at ht
    simp only [Outcome.ok.injEq] at ht
    rw [← ht, hg e]

theorem C19_parsing_undoes_rendering_witness :
    well_formed
        (.binary_op '+' (.number ['1', '2'])
          (.binary_op '*' (.identifier ['x', '_', '1']) (.number ['3']))) = true ∧
      parse_fuel
        (.binary_op '+' (.number ['1', '2'])
          (.binary_op '*' (.identifier ['x', '_', '1']) (.number ['3']))) + 2 ≤ 11 ∧
      generate_expression
        (.binary_op '+' (.number ['1', '2'])
          (.binary_op '*' (.identifier ['x', '_', '1']) (.number ['3']))) [] =
        "(12 + (x_1 * 3))".toList ∧
      parse_expression_of 11 "(12 + (x_1 * 3))".toList =
        .ok (.binary_op '+' (.number ['1', '2'])
          (.binary_op '*' (.identifier ['x', '_', '1']) (.number ['3']))) ∧
      parse_expression_of 11
          (generate_expression
            (.binary_op '+' (.number ['1', '2'])
              (.binary_op '*' (.identifier ['x', '_', '1']) (.number ['3']))) []) =
        .ok (.binary_op '+' (.number ['1', '2'])
          (.binary_op '*' (.identifier ['x', '_', '1']) (.number ['3']))) :=
  ⟨by decide, by decide, by decide!, by decide!,
    (C19_parsing_undoes_rendering
      (.binary_op '+' (.number ['1', '2'])
        (.binary_op '*' (.identifier ['x', '_', '1']) (.number ['3']))) 11
      (by decide) (by decide)).2.1⟩

/-! ## Symbol table: the index of a write -/

theorem set_write_index_of_find (vars : List Variable) (n : List Char)
    (h : find_variable vars n = true) : set_write_index vars n < vars.length := by
  induction vars with
  | nil => simp [find_variable] at h
  | cons x rest ih =>
    by_cases hx : x.name = n
    · simp [set_write_index, hx]
    · simp only [find_variable, hx, if_false] at h
      simp only [set_write_index, hx, if_false, List.length_cons]
      exact Nat.succ_lt_succ (ih h)

theorem set_write_index_of_not_find (vars : List Variable) (n : List Char)
    (h : find_variable vars n = false) : set_write_index vars n = vars.length := by
  induction vars with
  | nil => rfl
  | cons x rest ih =>
    by_cases hx : x.name = n
    · simp [find_variable, hx] at h
    · simp only [find_variable, hx, if_false] at h
      simp [set_write_index, hx, ih h]

/-- The last statement executed before a state of the first pass was parsed
in a state of that pass in which the loop had not ended. -/
theorem Pass1Reaches.last_statement {src : List Char} {stmts : List ASTNode} {st : Run}
    (h : Pass1Reaches src stmts st) :
    ∀ before last, stmts = before ++ [last] →
      ∃ st0 fuel l1, Pass1Reaches src before st0 ∧
        st0.lexer.current_token.type ≠ .TOKEN_EOF ∧
        parse_statement fuel st0.lexer = .ok (last, l1) := by
  induction h with
  | start l0 h0 =>
    intro before last h
    simp at h
  | newline stmts st l hr hnl hn ih => exact ih
  | statement stmts st fuel stmt l1 l2 vars2 printed2 hr heof hnl hp hs he ih =>
    intro before last h
    obtain ⟨h1, h2⟩ := List.append_inj' h rfl
    simp only [List.cons.injEq, and_true] at h2
    subst h1 h2
    exact ⟨st, fuel, l1, hr, heof, hp⟩

/-- The state in which the last statement of a completing first pass is
parsed: the statements before it have been executed, the loop has not ended,
and the table holds their distinct targets. -/
theorem pass1_before_last (src : List Char) (fuel : Nat) (l0 : Lexer) (st1 : Run)
    (before : List ASTNode) (last : ASTNode)
    (h0 : next_token (initial_lexer src) = .ok l0)
    (hrun : compile_pass1 fuel ⟨l0, [], output_header, [], true⟩ = .ok st1)
    (hprog : parse_program fuel l0 = .ok (before ++ [last])) :
    ∃ st0 fuel0 l1, Pass1Reaches src before st0 ∧
      st0.lexer.current_token.type ≠ .TOKEN_EOF ∧
      parse_statement fuel0 st0.lexer = .ok (last, l1) ∧
      st0.vars.length = (assignment_targets before).toFinset.card ∧
      st0.vars.map Variable.name = first_occurrences (assignment_targets before) := by
  obtain ⟨stmts, hp, hreach⟩ := pass1_statements src fuel _ st1 [] hrun
    (Pass1Reaches.start l0 h0)
  simp only [List.nil_append] at hp hreach
  rw [hprog] at hp
  simp only [Outcome.ok.injEq] at hp
  obtain ⟨st0, fuel0, l1, hr0, heof, hps⟩ := hreach.last_statement _ _ hp.symm
  refine ⟨st0, fuel0, l1, hr0, heof, hps, pass1_table_length src before st0 hr0, ?_⟩
  rw [(pass1_invariant src before st0 hr0).2.1, first_occurrences_eq_foldl]

set_option maxRecDepth 100000

theorem many_assignments_first_token :
    next_token (initial_lexer (many_assignments 101)) =
      .ok ⟨many_assignments 101, 2, 1, ⟨.TOKEN_IDENTIFIER, ['a', '0'], 0⟩⟩ := by
  decide!

theorem many_assignments_statements :
    parse_program 110 ⟨many_assignments 101, 2, 1, ⟨.TOKEN_IDENTIFIER, ['a', '0'], 0⟩⟩ =
      .ok (many_statements 100 ++ [.assign ['k', '0'] (.number ['0'])]) := by
  decide!

/-- In the embedding, whose table is a list, the first loop runs to its end on
`many_assignments 101`. -/
theorem many_assignments_pass1 :
    ∃ st1, compile_pass1 110
      ⟨⟨many_assignments 101, 2, 1, ⟨.TOKEN_IDENTIFIER, ['a', '0'], 0⟩⟩, [], output_header,
        [], true⟩ = .ok st1 :=
  Outcome.ok_of_map_unit (by decide!)

theorem many_statements_targets :
    (assignment_targets (many_statements 100)).toFinset.card = 100 ∧
      ['k', '0'] ∉ first_occurrences (assignment_targets (many_statements 100)) := by
  constructor <;> decide!

/-- C16 fails on the code at the program `many_assignments 101`, which assigns
the 101 distinct names `a0`, `a1`, ... `j9`, `k0`.  The first pass reaches a
state with 100 entries in the table, all writes so far below index 100, in
which the loop has not ended and the next statement parses as `k0 = 0`; the
declaration block then writes the name at index `var_count`, which is 100,
not below the 100 slots of `variables`.  Nothing on the way reports a
capacity error: the block compares `var_count` with nothing. -/
theorem C16_write_past_the_table :
    ∃ stmts st fuel l1,
      Pass1Reaches (many_assignments 101) stmts st ∧
      st.vars.length = 100 ∧
      st.lexer.current_token.type ≠ .TOKEN_EOF ∧
      parse_statement fuel st.lexer = .ok (.assign ['k', '0'] (.number ['0']), l1) ∧
      declare_write_index st.vars (.assign ['k', '0'] (.number ['0'])) = some 100 ∧
      ¬ 100 < MAX_VARIABLES := by
  obtain ⟨st1, hst1⟩ := many_assignments_pass1
  obtain ⟨st0, fuel, l1, hr0, heof, hp, hcard, hnames⟩ :=
    pass1_before_last _ _ _ _ _ _ many_assignments_first_token hst1
      many_assignments_statements
  have hlen : st0.vars.length = 100 := hcard.trans many_statements_targets.1
  have hfind : find_variable st0.vars ['k', '0'] = false := by
    cases hf : find_variable st0.vars ['k', '0'] with
    | false => rfl
    | true =>
      have hmem := (find_iff_mem _ _).1 hf
      rw [hnames] at hmem
      exact absurd hmem many_statements_targets.2
  refine ⟨many_statements 100, st0, fuel, l1, hr0, hlen, heof, hp, ?_, by decide⟩
  simp only [declare_write_index, hfind, hlen]
  rfl

set_option maxRecDepth 512

/-- C16 as amended.  In a state of the first pass with at most 100 entries in
the table, `var_count` is the number of distinct Assignment targets seen so
far.  For the next statement the declaration block writes, if at all, at index
`var_count`, and then the statement has a new target; `set_variable_value`
then writes an entry that exists.  So while the targets seen, the next one
included, are at most 100 distinct names, every write is below index 100.
There is no capacity check: with 100 entries in the table the block writes a
new name at index 100. -/
theorem C16_writes_within_capacity (src : List Char) (stmts : List ASTNode) (st : Run)
    (fuel : Nat) (stmt : ASTNode) (l1 : Lexer)
    (h : Pass1Reaches src stmts st) (_hcap : st.vars.length ≤ MAX_VARIABLES)
    (_hp : parse_statement fuel st.lexer = .ok (stmt, l1)) :
    st.vars.length = (assignment_targets stmts).toFinset.card ∧
    (∀ i, declare_write_index st.vars stmt = some i →
      i = (assignment_targets stmts).toFinset.card ∧
        (assignment_targets (stmts ++ [stmt])).toFinset.card = i + 1) ∧
    (∀ name right, stmt = .assign name right →
      set_write_index
          (declare_variable ⟨l1, st.vars, st.output, st.printed, st.first_var⟩ stmt).vars
          name <
        (assignment_targets (stmts ++ [stmt])).toFinset.card) ∧
    ((assignment_targets (stmts ++ [stmt])).toFinset.card ≤ MAX_VARIABLES →
      (∀ i, declare_write_index st.vars stmt = some i → i < MAX_VARIABLES) ∧
      (∀ name right, stmt = .assign name right →
        set_write_index
            (declare_variable ⟨l1, st.vars, st.output, st.printed, st.first_var⟩ stmt).vars
            name < MAX_VARIABLES)) ∧
    (st.vars.length = MAX_VARIABLES →
      ∀ name right, stmt = .assign name right → find_variable st.vars name = false →
        declare_write_index st.vars stmt = some MAX_VARIABLES) := by
  have hlen := pass1_table_length src stmts st h
  obtain ⟨hi, hn, _⟩ := pass1_invariant src stmts st h
  obtain ⟨_, hd2, hd4⟩ := pass1_declared_names st stmts stmt l1 hi hn
  have hlen2 : (declare_variable ⟨l1, st.vars, st.output, st.printed, st.first_var⟩
      stmt).vars.length = (assignment_targets (stmts ++ [stmt])).toFinset.card := by
    rw [first_occurrences_eq_foldl] at hd2
    rw [← first_occurrences_length, ← hd2, List.length_map]
  have hdecl : ∀ i, declare_write_index st.vars stmt = some i →
      i = (assignment_targets stmts).toFinset.card ∧
        (assignment_targets (stmts ++ [stmt])).toFinset.card = i + 1 := by
    intro i hidx
    cases stmt with
    | assign name right =>
      simp only [declare_write_index] at hidx
      split_ifs at hidx with hf
      simp only [Option.some.injEq] at hidx
      have hf2 : find_variable st.vars name = false := by simpa using hf
      have := declare_variable_length ⟨l1, st.vars, st.output, st.printed, st.first_var⟩ name
        right hf2
      simp only at this
      rw [hlen2] at this
      omega
    | number value => simp [declare_write_index] at hidx
    | identifier value => simp [declare_write_index] at hidx
    | binary_op op left right => simp [declare_write_index] at hidx
    | print right => simp [declare_write_index] at hidx
  have hset : ∀ name right, stmt = .assign name right →
      set_write_index
          (declare_variable ⟨l1, st.vars, st.output, st.printed, st.first_var⟩ stmt).vars
          name <
        (assignment_targets (stmts ++ [stmt])).toFinset.card := by
    intro name right hs
    rw [← hlen2]
    exact set_write_index_of_find _ _ (hd4 name (by rw [hs]; rfl))
  refine ⟨hlen, hdecl, hset, ?_, ?_⟩
  · intro hcap2
    refine ⟨fun i hidx => ?_, fun name right hs => lt_of_lt_of_le (hset name right hs) hcap2⟩
    have := (hdecl i hidx).2
    omega
  · intro hfull name right hs hf
    rw [hs]
    simp [declare_write_index, hf, hfull]

/-- C16 as amended, at the start of the first pass on `a = 5`, `a = a + 1`:
the table is empty, the declaration block writes `a` at index 0, and
`set_variable_value` writes index 0. -/
theorem C16_writes_within_capacity_witness :
    Pass1Reaches "a = 5\na = a + 1".toList []
        ⟨⟨"a = 5\na = a + 1".toList, 1, 1, ⟨.TOKEN_IDENTIFIER, ['a'], 0⟩⟩, [], output_header, [],
          true⟩ ∧
      ([] : List Variable).length ≤ MAX_VARIABLES ∧
      parse_statement 5 ⟨"a = 5\na = a + 1".toList, 1, 1, ⟨.TOKEN_IDENTIFIER, ['a'], 0⟩⟩ =
        .ok (.assign ['a'] (.number ['5']),
          ⟨"a = 5\na = a + 1".toList, 6, 2, ⟨.TOKEN_NEWLINE, ['5'], 1⟩⟩) ∧
      declare_write_index [] (.assign ['a'] (.number ['5'])) = some 0 ∧
      (assignment_targets ([] ++ [ASTNode.assign ['a'] (.number ['5'])])).toFinset.card =
        0 + 1 ∧
      set_write_index [⟨['a'], 0⟩] ['a'] = 0 :=
  ⟨Pass1Reaches.start _ (by decide!), by decide, by decide!, by decide!,
    ((C16_writes_within_capacity "a = 5\na = a + 1".toList []
      ⟨⟨"a = 5\na = a + 1".toList, 1, 1, ⟨.TOKEN_IDENTIFIER, ['a'], 0⟩⟩, [], output_header, [],
        true⟩
      5 (.assign ['a'] (.number ['5']))
      ⟨"a = 5\na = a + 1".toList, 6, 2, ⟨.TOKEN_NEWLINE, ['5'], 1⟩⟩
      (Pass1Reaches.start _ (by decide!)) (by decide) (by decide!)).2.1 0 (by decide!)).2,
    by decide!⟩

end Compiler
